import Mathlib

/-!
Verification of the translation-unit / message-normalization core of the
ngx-i18nsupport library (XLIFF 1.2 and XLIFF 2.0 trans-units and the
normalized-message engine).

The XML document fragment owned by a trans-unit is modelled as a pure tree
(`XNode`); the DOM mutations performed by the TypeScript code become pure
tree-rewriting functions.  The DOM helper layer (`DOMUtilities`), the shared
base class (`AbstractTransUnit`) and the message parser core are not part of
the repository snapshot, so they are modelled from the specification; the
methods of `XliffTransUnit` and `Xliff2TransUnit` are translated directly
from the source.
-/

/-! ## XML tree model -/

/-- Modelled from the spec: an in-memory XML tree fragment.  An element node
carries its tag name, its attribute list (document order) and its child
nodes; a text node carries character data.  Content written through
`replaceContentWithXMLContent` is stored as a single text child holding the
raw markup string. -/
inductive XNode where
  | elem (tag : String) (attrs : List (String × String)) (children : List XNode)
  | text (s : String)

/-- Tag of an element node, `none` for a text node. -/
def XNode.tagOf : XNode → Option String
  | .elem t _ _ => some t
  | .text _ => none

/-- The child list of a node (empty for text nodes). -/
def XNode.childrenOf : XNode → List XNode
  | .elem _ _ ch => ch
  | .text _ => []

/-- Whether the node is an element with the given tag. -/
def XNode.isTagElem (n : XNode) (t : String) : Bool := n.tagOf == some t

/-- Modelled from the spec: `Element.getAttribute`; `none` models the DOM
`null` returned for an absent attribute. -/
def getAttribute (n : XNode) (a : String) : Option String :=
  match n with
  | .text _ => none
  | .elem _ attrs _ => (attrs.find? (fun p => p.1 == a)).map (fun p => p.2)

/-- Replace the binding of `a` (first occurrence) or append it. -/
def updateAssoc : List (String × String) → String → String → List (String × String)
  | [], a, v => [(a, v)]
  | (k, w) :: r, a, v => if k = a then (a, v) :: r else (k, w) :: updateAssoc r a v

/-- Modelled from the spec: `Element.setAttribute`. -/
def setAttribute (n : XNode) (a v : String) : XNode :=
  match n with
  | .text s => .text s
  | .elem t attrs ch => .elem t (updateAssoc attrs a v) ch

/-- Modelled from the spec: `DOMUtilities.getXMLContent` — the textual markup
payload of an element, i.e. the concatenated data of its text children (the
model stores element content as a single raw text child). -/
def getXMLContent (n : XNode) : String :=
  String.join (n.childrenOf.map (fun c => match c with | .text s => s | .elem _ _ _ => ""))

/-- Modelled from the spec: `DOMUtilities.getPCDATA` — concatenated character
data of the direct text children. -/
def getPCDATA (n : XNode) : String := getXMLContent n

/-- Modelled from the spec: `DOMUtilities.replaceContentWithXMLContent` —
replaces the whole content of the element by the given markup string. -/
def replaceContentWithXMLContent (n : XNode) (s : String) : XNode :=
  match n with
  | .text t => .text t
  | .elem t attrs _ => .elem t attrs [.text s]

mutual
/-- All descendant elements of `n` (including `n` itself when it matches)
with the given tag, in document (pre-)order. -/
def elemsByTagIncl (n : XNode) (tag : String) : List XNode :=
  match n with
  | .text _ => []
  | .elem t a ch => (if t = tag then [XNode.elem t a ch] else []) ++ elemsByTagList ch tag
/-- All elements with the given tag occurring in the forest `l`, in document
order. -/
def elemsByTagList (l : List XNode) (tag : String) : List XNode :=
  match l with
  | [] => []
  | c :: cs => elemsByTagIncl c tag ++ elemsByTagList cs tag
end

/-- Modelled from the spec: `Element.getElementsByTagName` — all proper
descendants with the given tag, in document order. -/
def getElementsByTagName (n : XNode) (tag : String) : List XNode :=
  elemsByTagList n.childrenOf tag

/-- Modelled from the spec: `DOMUtilities.getFirstElementByTagName`. -/
def getFirstElementByTagName (n : XNode) (tag : String) : Option XNode :=
  (getElementsByTagName n tag).head?

/-- Whether the subtree rooted at `n` (inclusive) contains an element with
the given tag. -/
def containsTag (n : XNode) (tag : String) : Bool := !(elemsByTagIncl n tag).isEmpty

mutual
/-- Rewrite the first descendant element with tag `t` (document order) by
`f`; identity when no such element exists. -/
def updFirstIn (n : XNode) (t : String) (f : XNode → XNode) : XNode :=
  match n with
  | .text s => .text s
  | .elem tg a ch => .elem tg a (updFirstL ch t f)
/-- List version of `updFirstIn`. -/
def updFirstL (l : List XNode) (t : String) (f : XNode → XNode) : List XNode :=
  match l with
  | [] => []
  | c :: cs =>
      if c.isTagElem t then f c :: cs
      else if containsTag c t then updFirstIn c t f :: cs
      else c :: updFirstL cs t f
end

/-- Rewriting the first proper descendant with tag `t` of `root` (the root
itself is not considered, matching `getElementsByTagName`). -/
def updateFirstElem (root : XNode) (t : String) (f : XNode → XNode) : XNode :=
  updFirstIn root t f

mutual
/-- Insert `x` as the sibling directly following the first descendant
element with tag `t` (models `DOMUtilities.createFollowingSibling`). -/
def insAfterIn (n : XNode) (t : String) (x : XNode) : XNode :=
  match n with
  | .text s => .text s
  | .elem tg a ch => .elem tg a (insAfterL ch t x)
/-- List version of `insAfterIn`. -/
def insAfterL (l : List XNode) (t : String) (x : XNode) : List XNode :=
  match l with
  | [] => []
  | c :: cs =>
      if c.isTagElem t then c :: x :: cs
      else if containsTag c t then insAfterIn c t x :: cs
      else c :: insAfterL cs t x
end

/-- Insert `x` right after the first descendant element with tag `t`. -/
def insertAfterFirstElem (root : XNode) (t : String) (x : XNode) : XNode :=
  insAfterIn root t x

mutual
/-- Append `x` as last child of the parent of the first descendant element
with tag `t` (models `element.parentNode.appendChild` on the result of a
first-element lookup). -/
def appendToParentOfFirst (root : XNode) (t : String) (x : XNode) : XNode :=
  match root with
  | .text s => .text s
  | .elem tg a ch =>
      match appParL ch t x with
      | some (true, _) => .elem tg a (ch ++ [x])
      | some (false, ch2) => .elem tg a ch2
      | none => .elem tg a ch
/-- Helper for `appendToParentOfFirst`: `some (true, _)` when a direct
member of the list is the first match (the caller is the parent),
`some (false, l)` when the match is deeper and has been handled inside. -/
def appParL (l : List XNode) (t : String) (x : XNode) : Option (Bool × List XNode) :=
  match l with
  | [] => none
  | c :: cs =>
      if c.isTagElem t then some (true, c :: cs)
      else if containsTag c t then some (false, appendToParentOfFirst c t x :: cs)
      else
        match appParL cs t x with
        | none => none
        | some (b, cs2) => some (b, c :: cs2)
end

mutual
/-- Remove every descendant element satisfying `p` (with its subtree). -/
def remAllN (n : XNode) (p : XNode → Bool) : XNode :=
  match n with
  | .text s => .text s
  | .elem t a ch => .elem t a (remAllL ch p)
/-- List version of `remAllN`. -/
def remAllL (l : List XNode) (p : XNode → Bool) : List XNode :=
  match l with
  | [] => []
  | c :: cs => (if p c then [] else [remAllN c p]) ++ remAllL cs p
end

/-- Remove every proper descendant element of `root` satisfying `p`. -/
def removeAllElems (root : XNode) (p : XNode → Bool) : XNode := remAllN root p

mutual
/-- Remove the first descendant element with tag `t` (with its subtree);
models `node.parentNode.removeChild(node)` for a first-element lookup. -/
def remFirstIn (n : XNode) (t : String) : XNode :=
  match n with
  | .text s => .text s
  | .elem tg a ch => .elem tg a (remFirstL ch t)
/-- List version of `remFirstIn`. -/
def remFirstL (l : List XNode) (t : String) : List XNode :=
  match l with
  | [] => []
  | c :: cs =>
      if c.isTagElem t then cs
      else if containsTag c t then remFirstIn c t :: cs
      else c :: remFirstL cs t
end

/-- Remove the first proper descendant element with tag `t` of `root`. -/
def removeFirstElem (root : XNode) (t : String) : XNode := remFirstIn root t

/-- Append `x` as last child of `root` (models `root.appendChild(x)`). -/
def appendChildTop (root : XNode) (x : XNode) : XNode :=
  match root with
  | .text s => .text s
  | .elem t a ch => .elem t a (ch ++ [x])

/-- Insert `x` as first child of `root` (models
`root.insertBefore(x, root.childNodes.item(0))`). -/
def prependChildTop (root : XNode) (x : XNode) : XNode :=
  match root with
  | .text s => .text s
  | .elem t a ch => .elem t a (x :: ch)

/-! ## Abstract state constants and file configuration -/

/-- Modelled from the spec: the abstract state constant `NEW` (from the api
constants module, not part of the snapshot). -/
def STATE_NEW : String := "new"

/-- Modelled from the spec: the abstract state constant `TRANSLATED`. -/
def STATE_TRANSLATED : String := "translated"

/-- Modelled from the spec: the abstract state constant `FINAL`. -/
def STATE_FINAL : String := "final"

/-- Modelled from the spec: the configuration supplied by the owning
translation-messages file — the prefix and suffix strings applied when
synthesizing placeholder translations
(`getNewTransUnitTargetPraefix`/`getNewTransUnitTargetSuffix`). -/
structure FileConfig where
  targetPraefix : String
  targetSuffix : String

/-- Substring test used by the ICU detector. -/
def strContainsSub (s pat : List Char) : Bool :=
  match s with
  | [] => pat.isEmpty
  | _ :: t => pat.isPrefixOf s || strContainsSub t pat

/-- Modelled from the spec: the ICU Reference Collaborator's detector — a
source string is recognized as an ICU message when it is a brace-enclosed
plural/select expression. -/
def isICUMessage (s : String) : Bool :=
  (match s.data with
   | c :: _ => c = '\x7b'
   | [] => false)
  && (strContainsSub s.data "plural".data || strContainsSub s.data "select".data)

/-! ## XLIFF 1.2 trans-unit (translated from `xliff-trans-unit.ts`) -/

namespace Xliff

/-- `XliffTransUnit.sourceContent`: raw markup of the first `source`
descendant (`none` models the null returned when it is absent). -/
def sourceContent (el : XNode) : Option String :=
  (getFirstElementByTagName el "source").map getXMLContent

/-- `XliffTransUnit.targetContent`. -/
def targetContent (el : XNode) : Option String :=
  (getFirstElementByTagName el "target").map getXMLContent

/-- `XliffTransUnit.nativeTargetState`: the `state` attribute of the target
element (`none` when the target or the attribute is absent). -/
def nativeTargetState (el : XNode) : Option String :=
  (getFirstElementByTagName el "target").bind (fun t => getAttribute t "state")

/-- `XliffTransUnit.setNativeTargetState`: set the `state` attribute on the
target element when present. -/
def setNativeTargetState (el : XNode) (nativeState : String) : XNode :=
  updateFirstElem el "target" (fun t => setAttribute t "state" nativeState)

/-- `XliffTransUnit.mapStateToNativeState`: strict forward mapping; the
`Except.error` value models the thrown `Error('unknown state …')`
(the spec's `InvalidStateError`). -/
def mapStateToNativeState (state : String) : Except String String :=
  if state = STATE_NEW then .ok "new"
  else if state = STATE_TRANSLATED then .ok "translated"
  else if state = STATE_FINAL then .ok "final"
  else .error ("unknown state " ++ state)

/-- `XliffTransUnit.mapNativeStateToState`: lenient reverse mapping (the
switch of the source, written as an equality chain); the argument is `none`
when no native state is stored. -/
def mapNativeStateToState (nativeState : Option String) : String :=
  if nativeState = some "new" then STATE_NEW
  else if nativeState = some "needs-translation" then STATE_NEW
  else if nativeState = some "translated" then STATE_TRANSLATED
  else if nativeState = some "needs-adaptation" then STATE_TRANSLATED
  else if nativeState = some "needs-l10n" then STATE_TRANSLATED
  else if nativeState = some "needs-review-adaptation" then STATE_TRANSLATED
  else if nativeState = some "needs-review-l10n" then STATE_TRANSLATED
  else if nativeState = some "needs-review-translation" then STATE_TRANSLATED
  else if nativeState = some "final" then STATE_FINAL
  else if nativeState = some "signed-off" then STATE_FINAL
  else STATE_NEW

/-- Modelled from the spec: `AbstractTransUnit.targetState` — the abstract
state derived on demand from the stored native token. -/
def targetState (el : XNode) : String :=
  mapNativeStateToState (nativeTargetState el)

/-- Modelled from the spec: `AbstractTransUnit.setTargetState` (not in the
snapshot) — forward-map the abstract state and store it; `none` models the
propagated `InvalidStateError`. -/
def setTargetState (el : XNode) (state : String) : Option XNode :=
  match mapStateToNativeState state with
  | .error _ => none
  | .ok ns => some (setNativeTargetState el ns)

/-- `XliffTransUnit` note helper: first `note` element whose `from`
attribute equals `v`. -/
def findNoteElementWithFromAttribute (el : XNode) (v : String) : Option XNode :=
  (getElementsByTagName el "note").find? (fun n => getAttribute n "from" == some v)

/-- `XliffTransUnit.description`. -/
def description (el : XNode) : Option String :=
  (findNoteElementWithFromAttribute el "description").map getPCDATA

/-- `XliffTransUnit.meaning`. -/
def meaning (el : XNode) : Option String :=
  (findNoteElementWithFromAttribute el "meaning").map getPCDATA

/-- Whether a `note` element counts as an additional (non-reserved) note:
its `from` attribute is neither `description` nor `meaning`. -/
def isAdditionalNoteAttr (a : Option String) : Bool :=
  a ≠ some "description" && a ≠ some "meaning"

/-- `XliffTransUnit.findAllAdditionalNoteElements`. -/
def findAllAdditionalNoteElements (el : XNode) : List XNode :=
  (getElementsByTagName el "note").filter
    (fun n => isAdditionalNoteAttr (getAttribute n "from"))

/-- `XliffTransUnit.notes`: the additional notes as (origin, text) pairs;
the origin is `none` when the created note carried no `from` attribute. -/
def notes (el : XNode) : List (Option String × String) :=
  (findAllAdditionalNoteElements el).map (fun n => (getAttribute n "from", getPCDATA n))

/-- `XliffTransUnit.createNoteElementWithFromAttribute` (the element that is
appended as a direct child of the trans-unit). -/
def mkNoteElem (fromAttr content : String) : XNode :=
  .elem "note"
    ((if fromAttr ≠ "" then [("from", fromAttr)] else []) ++ [("priority", "1")])
    (if content ≠ "" then [.text content] else [])

/-- `XliffTransUnit.removeAllAdditionalNoteElements`. -/
def removeAllAdditionalNoteElements (el : XNode) : XNode :=
  removeAllElems el
    (fun n => n.isTagElem "note" && isAdditionalNoteAttr (getAttribute n "from"))

/-- Modelled from the spec: `AbstractTransUnit.checkNotes` (not in the
snapshot) — a supplied note must not use a reserved origin key. -/
def checkNotes (ns : List (String × String)) : Bool :=
  ns.all (fun n => n.1 ≠ "description" && n.1 ≠ "meaning")

/-- The message of the `ValidationError` raised on a reserved origin. -/
def reservedNoteError : String :=
  "description or meaning are not allowed as from attributes"

/-- `XliffTransUnit.setNotes`: reject reserved origins, otherwise remove all
additional notes and append the supplied ones as direct children. -/
def setNotes (el : XNode) (ns : List (String × String)) : Except String XNode :=
  if checkNotes ns then
    .ok (ns.foldl (fun e n => appendChildTop e (mkNoteElem n.1 n.2))
          (removeAllAdditionalNoteElements el))
  else .error reservedNoteError

/-- `XliffTransUnit.translateNative`: write the target content (creating the
target as following sibling of the source when absent) and set the state to
`TRANSLATED`.  `none` models the crash on a unit with neither target nor
source. -/
def translateNative (el : XNode) (translation : String) : Option XNode :=
  let or2 :=
    match getFirstElementByTagName el "target" with
    | some _ => some el
    | none =>
        match getFirstElementByTagName el "source" with
        | none => none
        | some _ => some (insertAfterFirstElem el "source" (.elem "target" [] []))
  or2.bind (fun el1 =>
    setTargetState (updateFirstElem el1 "target"
      (fun t => replaceContentWithXMLContent t translation)) STATE_TRANSLATED)

/-- `XliffTransUnit.useSourceAsTarget`, translated line by line: create the
target when absent, fill it from the source (ICU messages verbatim, other
content with the configured prefix/suffix, or empty), then store the native
state token. -/
def useSourceAsTarget (cfg : FileConfig) (isDefaultLang copyContent : Bool)
    (el : XNode) : Option XNode :=
  match getFirstElementByTagName el "source" with
  | none => none
  | some source =>
      let el1 :=
        match getFirstElementByTagName el "target" with
        | some _ => el
        | none => insertAfterFirstElem el "source" (.elem "target" [] [])
      let sourceString := getXMLContent source
      let newTargetString :=
        if isDefaultLang || copyContent then
          if isICUMessage sourceString then sourceString
          else cfg.targetPraefix ++ sourceString ++ cfg.targetSuffix
        else ""
      let el2 := updateFirstElem el1 "target"
        (fun t => replaceContentWithXMLContent t newTargetString)
      match mapStateToNativeState (if isDefaultLang then STATE_FINAL else STATE_NEW) with
      | .error _ => none
      | .ok ns => some (updateFirstElem el2 "target" (fun t => setAttribute t "state" ns))

end Xliff

/-! ## XLIFF 2.0 trans-unit (translated from `xliff2-trans-unit.ts`) -/

namespace Xliff2

/-- `Xliff2TransUnit.sourceContent`. -/
def sourceContent (el : XNode) : Option String :=
  (getFirstElementByTagName el "source").map getXMLContent

/-- `Xliff2TransUnit.targetContent`. -/
def targetContent (el : XNode) : Option String :=
  (getFirstElementByTagName el "target").map getXMLContent

/-- `Xliff2TransUnit.nativeTargetState`: the `state` attribute of the
segment element. -/
def nativeTargetState (el : XNode) : Option String :=
  (getFirstElementByTagName el "segment").bind (fun s => getAttribute s "state")

/-- `Xliff2TransUnit.setNativeTargetState`: set the `state` attribute on the
segment element when present. -/
def setNativeTargetState (el : XNode) (nativeState : String) : XNode :=
  updateFirstElem el "segment" (fun s => setAttribute s "state" nativeState)

/-- `Xliff2TransUnit.mapStateToNativeState`. -/
def mapStateToNativeState (state : String) : Except String String :=
  if state = STATE_NEW then .ok "initial"
  else if state = STATE_TRANSLATED then .ok "translated"
  else if state = STATE_FINAL then .ok "final"
  else .error ("unknown state " ++ state)

/-- `Xliff2TransUnit.mapNativeStateToState`. -/
def mapNativeStateToState (nativeState : Option String) : String :=
  if nativeState = some "initial" then STATE_NEW
  else if nativeState = some "translated" then STATE_TRANSLATED
  else if nativeState = some "reviewed" then STATE_TRANSLATED
  else if nativeState = some "final" then STATE_FINAL
  else STATE_NEW

/-- Modelled from the spec: `AbstractTransUnit.targetState` for this
dialect. -/
def targetState (el : XNode) : String :=
  mapNativeStateToState (nativeTargetState el)

/-- Modelled from the spec: `AbstractTransUnit.setTargetState`. -/
def setTargetState (el : XNode) (state : String) : Option XNode :=
  match mapStateToNativeState state with
  | .error _ => none
  | .ok ns => some (setNativeTargetState el ns)

/-- `Xliff2TransUnit.parseLineNumber` via `Number.parseInt`; `none` models
`NaN` for input without leading digits. -/
def parseLineNumber (s : String) : Option Int :=
  let t := s.data.dropWhile (fun c => c = ' ')
  let core := match t with
    | '-' :: r => (r, true)
    | '+' :: r => (r, false)
    | _ => (t, false)
  let ds := core.1.takeWhile (fun c => c.isDigit)
  if ds.isEmpty then none
  else
    let v : Int := Int.ofNat (ds.foldl (fun acc c => acc * 10 + (c.toNat - 48)) 0)
    some (if core.2 then -v else v)

/-- `Xliff2TransUnit.parseSourceAndPos`: split at the last colon. -/
def parseSourceAndPos (s : String) : String × Option Int :=
  if ':' ∈ s.data then
    let j := s.data.reverse.findIdx (fun c => c = ':')
    let idx := s.data.length - 1 - j
    (⟨s.data.take idx⟩, parseLineNumber ⟨s.data.drop (idx + 1)⟩)
  else (s, some 0)

/-- `Xliff2TransUnit.sourceReferences`: every `note` descendant with
category `location`, parsed as `file:line`. -/
def sourceReferences (el : XNode) : List (String × Option Int) :=
  ((getElementsByTagName el "note").filter
      (fun n => getAttribute n "category" == some "location")).map
    (fun n => parseSourceAndPos (getPCDATA n))

/-- `Xliff2TransUnit.removeAllSourceReferences`. -/
def removeAllSourceReferences (el : XNode) : XNode :=
  removeAllElems el
    (fun n => n.isTagElem "note" && getAttribute n "category" == some "location")

/-- The note element generated for one source reference. -/
def mkRefNote (r : String × Nat) : XNode :=
  .elem "note" [("category", "location")]
    [.text (r.1 ++ ":" ++ toString r.2)]

/-- `Xliff2TransUnit.setSourceReferences`: remove all location notes, drop
an empty `notes` wrapper when the new list is empty, create the wrapper as
first child when absent, then append one location note per reference. -/
def setSourceReferences (el : XNode) (refs : List (String × Nat)) : XNode :=
  let el1 := removeAllSourceReferences el
  match getFirstElementByTagName el1 "notes" with
  | some ne =>
      if refs.isEmpty && ne.childrenOf.isEmpty then removeFirstElem el1 "notes"
      else
        refs.foldl
          (fun e r => updateFirstElem e "notes" (fun w => appendChildTop w (mkRefNote r))) el1
  | none =>
      refs.foldl
        (fun e r => updateFirstElem e "notes" (fun w => appendChildTop w (mkRefNote r)))
        (prependChildTop el1 (.elem "notes" [] []))

/-- `Xliff2TransUnit` note helper: first `note` element with the given
`category` attribute. -/
def findNoteElementWithCategoryAttribute (el : XNode) (v : String) : Option XNode :=
  (getElementsByTagName el "note").find? (fun n => getAttribute n "category" == some v)

/-- `Xliff2TransUnit.description`. -/
def description (el : XNode) : Option String :=
  (findNoteElementWithCategoryAttribute el "description").map getPCDATA

/-- `Xliff2TransUnit.meaning`. -/
def meaning (el : XNode) : Option String :=
  (findNoteElementWithCategoryAttribute el "meaning").map getPCDATA

/-- `Xliff2TransUnit.findAllAdditionalNoteElements`. -/
def findAllAdditionalNoteElements (el : XNode) : List XNode :=
  (getElementsByTagName el "note").filter
    (fun n => Xliff.isAdditionalNoteAttr (getAttribute n "category"))

/-- `Xliff2TransUnit.notes`. -/
def notes (el : XNode) : List (Option String × String) :=
  (findAllAdditionalNoteElements el).map
    (fun n => (getAttribute n "category", getPCDATA n))

/-- The note element built by
`Xliff2TransUnit.createNoteElementWithCategoryAttribute`. -/
def mkNoteElem (cat content : String) : XNode :=
  .elem "note" (if cat ≠ "" then [("category", cat)] else [])
    (if content ≠ "" then [.text content] else [])

/-- `Xliff2TransUnit.createNoteElementWithCategoryAttribute`: append the
note to the `notes` wrapper, creating the wrapper (as last child) when
absent. -/
def createNoteElem (el : XNode) (cat content : String) : XNode :=
  match getFirstElementByTagName el "notes" with
  | none => appendChildTop el (.elem "notes" [] [mkNoteElem cat content])
  | some _ => updateFirstElem el "notes" (fun w => appendChildTop w (mkNoteElem cat content))

/-- `Xliff2TransUnit.removeNotesElementIfEmpty`: drop the wrapper when no
`note` descendant remains anywhere in the unit. -/
def removeNotesElementIfEmpty (el : XNode) : XNode :=
  match getFirstElementByTagName el "notes" with
  | none => el
  | some _ =>
      match getFirstElementByTagName el "note" with
      | some _ => el
      | none => removeFirstElem el "notes"

/-- `Xliff2TransUnit.removeAllAdditionalNoteElements`. -/
def removeAllAdditionalNoteElements (el : XNode) : XNode :=
  removeNotesElementIfEmpty
    (removeAllElems el
      (fun n => n.isTagElem "note" && Xliff.isAdditionalNoteAttr (getAttribute n "category")))

/-- `Xliff2TransUnit.setNotes`. -/
def setNotes (el : XNode) (ns : List (String × String)) : Except String XNode :=
  if Xliff.checkNotes ns then
    .ok (ns.foldl (fun e n => createNoteElem e n.1 n.2)
          (removeAllAdditionalNoteElements el))
  else .error Xliff.reservedNoteError

/-- `Xliff2TransUnit.translateNative`: the target is appended to the parent
of the source (the segment); no segment wrapper is ever created. -/
def translateNative (el : XNode) (translation : String) : Option XNode :=
  let or2 :=
    match getFirstElementByTagName el "target" with
    | some _ => some el
    | none =>
        match getFirstElementByTagName el "source" with
        | none => none
        | some _ => some (appendToParentOfFirst el "source" (.elem "target" [] []))
  or2.bind (fun el1 =>
    setTargetState (updateFirstElem el1 "target"
      (fun t => replaceContentWithXMLContent t translation)) STATE_TRANSLATED)

/-- `Xliff2TransUnit.useSourceAsTarget`: like the 1.2 version, but the
target is appended inside the segment and the state token lives on the
segment element (and is only written when a segment exists). -/
def useSourceAsTarget (cfg : FileConfig) (isDefaultLang copyContent : Bool)
    (el : XNode) : Option XNode :=
  match getFirstElementByTagName el "source" with
  | none => none
  | some source =>
      let el1 :=
        match getFirstElementByTagName el "target" with
        | some _ => el
        | none => appendToParentOfFirst el "source" (.elem "target" [] [])
      let sourceString := getXMLContent source
      let newTargetString :=
        if isDefaultLang || copyContent then
          if isICUMessage sourceString then sourceString
          else cfg.targetPraefix ++ sourceString ++ cfg.targetSuffix
        else ""
      let el2 := updateFirstElem el1 "target"
        (fun t => replaceContentWithXMLContent t newTargetString)
      match mapStateToNativeState (if isDefaultLang then STATE_FINAL else STATE_NEW) with
      | .error _ => none
      | .ok ns => some (updateFirstElem el2 "segment" (fun s => setAttribute s "state" ns))

end Xliff2

/-! ## Trans-unit records and cloning -/

/-- A trans-unit handle: the owned fragment plus the immutable id. -/
structure TransUnitRec where
  element : XNode
  id : String

/-- `XliffTransUnit.cloneWithSourceAsTarget`: deep-copy the fragment
(copying is the identity on the pure tree), apply `useSourceAsTarget` to the
copy, return the (unchanged) receiver together with the clone. -/
def Xliff.cloneWithSourceAsTarget (cfg : FileConfig) (isDefaultLang copyContent : Bool)
    (u : TransUnitRec) : Option (TransUnitRec × TransUnitRec) :=
  (Xliff.useSourceAsTarget cfg isDefaultLang copyContent u.element).map
    (fun el2 => (u, ⟨el2, u.id⟩))

/-- `Xliff2TransUnit.cloneWithSourceAsTarget`. -/
def Xliff2.cloneWithSourceAsTarget (cfg : FileConfig) (isDefaultLang copyContent : Bool)
    (u : TransUnitRec) : Option (TransUnitRec × TransUnitRec) :=
  (Xliff2.useSourceAsTarget cfg isDefaultLang copyContent u.element).map
    (fun el2 => (u, ⟨el2, u.id⟩))

/-! ## Normalized message model (modelled from the spec; the parser core is
not part of the repository snapshot, only its callers and test spec are). -/

/-- Modelled from the spec: one part of a Normalized Message. -/
inductive MPart where
  | text (s : String)
  | placeholder (idx : Nat)
  | tagStart (name : String)
  | tagEnd (name : String)
  | tagEmpty (name : String)
  | icuRef (idx : Nat)
deriving DecidableEq

/-- The decimal digit character for `d < 10`. -/
def digitCharOf (d : Nat) : Char :=
  match d with
  | 0 => '0' | 1 => '1' | 2 => '2' | 3 => '3' | 4 => '4'
  | 5 => '5' | 6 => '6' | 7 => '7' | 8 => '8' | _ => '9'

/-- The value of a decimal digit character. -/
def digitValOf (c : Char) : Option Nat :=
  if 48 ≤ c.toNat && c.toNat ≤ 57 then some (c.toNat - 48) else none

/-- Whether the character is a decimal digit. -/
def isDigitCh (c : Char) : Bool := (digitValOf c).isSome

/-- Decimal digits of `n`, most significant first (fuel-structured so that
the kernel can evaluate it). -/
def natDigitsF : Nat → Nat → List Char
  | 0, _ => []
  | fuel + 1, n => if n < 10 then [digitCharOf n] else natDigitsF fuel (n / 10) ++ [digitCharOf (n % 10)]

/-- Decimal digits of `n`. -/
def natDigits (n : Nat) : List Char := natDigitsF (n + 1) n

/-- Value of a digit run (unknown characters count 0; callers re-render to
validate). -/
def digitsToNat (ds : List Char) : Nat :=
  ds.foldl (fun acc c => acc * 10 + (digitValOf c).getD 0) 0

/-- The literal chunk of an ICU reference in the display grammar. -/
def icuRefLit : List Char :=
  ['I','C','U','-','M','e','s','s','a','g','e','-','R','e','f','_']

/-- Display rendering of a single part, per the display grammar. -/
def partDisplay : MPart → List Char
  | .text s => s.data
  | .placeholder n => '\x7b' :: '\x7b' :: (natDigits n ++ ['\x7d', '\x7d'])
  | .tagStart t => '<' :: (t.data ++ ['>'])
  | .tagEnd t => '<' :: '/' :: (t.data ++ ['>'])
  | .tagEmpty t => '<' :: (t.data ++ ['>'])
  | .icuRef n => '<' :: (icuRefLit ++ natDigits n ++ ['/', '>'])

/-- Display rendering of a part list. -/
def partsDisplay : List MPart → List Char
  | [] => []
  | p :: r => partDisplay p ++ partsDisplay r

/-- `ParsedMessage.asDisplayString`, modelled from the spec. -/
def asDisplayString (ps : List MPart) : String := ⟨partsDisplay ps⟩

/-- The lowercase tag-name alphabet. -/
def lowerAlpha : List Char :=
  ['a','b','c','d','e','f','g','h','i','j','k','l','m',
   'n','o','p','q','r','s','t','u','v','w','x','y','z']

/-- Valid tag-name character. -/
def isNameCh (c : Char) : Bool := lowerAlpha.contains c

/-- Characters allowed inside a `Text` run of the display grammar. -/
def isTextCh (c : Char) : Bool := !(c = '<' || c = '\x7b')

/-- A well-formed tag name: nonempty, lowercase letters. -/
def goodName (t : String) : Bool := !t.data.isEmpty && t.data.all isNameCh

/-- The fixed set of known self-closing (empty) tag names. -/
def emptyTagNames : List String := ["br", "hr", "img"]

/-- One token of the display grammar, consumed from the front: returns the
parsed part and the remaining input. -/
def dTokenStep : List Char → Option (MPart × List Char)
  | '\x7b' :: '\x7b' :: rest =>
      let ds := rest.takeWhile isDigitCh
      let n := digitsToNat ds
      if natDigits n = ds then
        match rest.dropWhile isDigitCh with
        | '\x7d' :: '\x7d' :: rest2 => some (.placeholder n, rest2)
        | _ => none
      else none
  | '<' :: '/' :: rest =>
      let nm := rest.takeWhile isNameCh
      if nm.isEmpty then none
      else
        match rest.dropWhile isNameCh with
        | '>' :: rest2 => some (.tagEnd ⟨nm⟩, rest2)
        | _ => none
  | '<' :: rest =>
      if icuRefLit.isPrefixOf rest then
        let rest1 := rest.drop icuRefLit.length
        let ds := rest1.takeWhile isDigitCh
        let n := digitsToNat ds
        if natDigits n = ds then
          match rest1.dropWhile isDigitCh with
          | '/' :: '>' :: rest2 => some (.icuRef n, rest2)
          | _ => none
        else none
      else
        let nm := rest.takeWhile isNameCh
        if nm.isEmpty then none
        else
          match rest.dropWhile isNameCh with
          | '>' :: rest2 =>
              if emptyTagNames.contains ⟨nm⟩ then some (.tagEmpty ⟨nm⟩, rest2)
              else some (.tagStart ⟨nm⟩, rest2)
          | _ => none
  | c :: rest =>
      if isTextCh c then
        some (.text ⟨(c :: rest).takeWhile isTextCh⟩, (c :: rest).dropWhile isTextCh)
      else none
  | [] => none

/-- Display-grammar tokenizer loop (fuel-structured). -/
def parseDisplayF : Nat → List Char → Option (List MPart)
  | 0, _ => none
  | _ + 1, [] => some []
  | fuel + 1, c :: rest =>
      match dTokenStep (c :: rest) with
      | none => none
      | some (p, rest2) => (parseDisplayF fuel rest2).map (fun ps => p :: ps)

/-- The stack protocol of the spec: tag starts push, tag ends must match the
top of the stack, the stack must be empty at the end. -/
def checkNesting : List MPart → List String → Bool
  | [], [] => true
  | [], _ :: _ => false
  | .tagStart n :: r, st => checkNesting r (n :: st)
  | .tagEnd n :: r, top :: st => top == n && checkNesting r st
  | .tagEnd _ :: _, [] => false
  | _ :: r, st => checkNesting r st

/-- Modelled from the spec: `parseNormalizedString` — parse a display string
into a Normalized Message; an unmatched or mismatched close is a parse
error, never silently tolerated. -/
def parseNormalizedString (s : String) : Option (List MPart) :=
  match parseDisplayF (s.data.length + 1) s.data with
  | none => none
  | some ps => if checkNesting ps [] then some ps else none

/-! ### Native (XMB-style) encoding -/

/-- Marker-name chunk `INTERPOLATION`. -/
def interpolationChars : List Char :=
  ['I','N','T','E','R','P','O','L','A','T','I','O','N']

/-- Marker-name chunk `ICU`. -/
def icuChars : List Char := ['I','C','U']

/-- Marker-name prefix `START_`. -/
def startPre : List Char := ['S','T','A','R','T','_']

/-- Marker-name prefix `CLOSE_`. -/
def closePre : List Char := ['C','L','O','S','E','_']

/-- Payload escape `&lt;`. -/
def ltEsc : List Char := ['&','l','t',';']

/-- Payload escape `&lt;/`. -/
def ltSlashEsc : List Char := ['&','l','t',';','/']

/-- Disambiguating index suffix of the numbering rule: the bare name for the
first occurrence, `NAME_k` afterwards. -/
def withIdx (base : List Char) (k : Nat) : List Char :=
  if k = 0 then base else base ++ '_' :: natDigits k

/-- The symbolic-name lookup table with the unknown-tag fallback rule
(`b → BOLD_TEXT`, …, unknown `x → TAG_X`), modelled from the spec. -/
def symbolicOf (t : String) : List Char :=
  if t = "b" then ['B','O','L','D','_','T','E','X','T']
  else if t = "i" then ['I','T','A','L','I','C','_','T','E','X','T']
  else if t = "em" then ['E','M','P','H','A','S','I','S','E','D','_','T','E','X','T']
  else if t = "a" then ['L','I','N','K']
  else if t = "br" then ['L','I','N','E','_','B','R','E','A','K']
  else ['T','A','G','_'] ++ t.data.map Char.toUpper

/-- The opening chunk `<ph name="` of a native marker element. -/
def phOpenChars : List Char :=
  ['<','p','h',' ','n','a','m','e','=','"']

/-- The middle chunk `"><ex>` of a native marker element. -/
def exOpenChars : List Char := ['"','>','<','e','x','>']

/-- The closing chunk `</ex></ph>` of a native marker element. -/
def phCloseChars : List Char :=
  ['<','/','e','x','>','<','/','p','h','>']

/-- A full native marker element `<ph name="nm"><ex>ex</ex></ph>`. -/
def phElemChars (nm ex : List Char) : List Char :=
  phOpenChars ++ nm ++ exOpenChars ++ ex ++ phCloseChars

/-- The escaped-source payload of a start or empty marker: `&lt;t>`. -/
def startPayload (t : String) : List Char := ltEsc ++ t.data ++ ['>']

/-- The escaped-source payload of a close marker: `&lt;/t>`. -/
def endPayload (t : String) : List Char := ltSlashEsc ++ t.data ++ ['>']

/-- Occurrence count of tag `t` so far. -/
def countOf (m : List (String × Nat)) (t : String) : Nat :=
  ((m.find? (fun p => p.1 == t)).map (fun p => p.2)).getD 0

/-- Increment the occurrence count of tag `t`. -/
def bumpCount : List (String × Nat) → String → List (String × Nat)
  | [], t => [(t, 1)]
  | (k, v) :: r, t => if k = t then (k, v + 1) :: r else (k, v) :: bumpCount r t

/-- Serialize a Normalized Message to the native encoding.  Interpolation
and ICU markers are named from their stable index (the first slot is the
bare name); tag markers are numbered by occurrence of the tag name, close
markers reusing the number of the matching start via a stack. -/
def emitPartsF : List MPart → List (String × Nat) → List (String × Nat) → List Char
  | [], _, _ => []
  | .text s :: r, m, st => s.data ++ emitPartsF r m st
  | .placeholder n :: r, m, st =>
      phElemChars (withIdx interpolationChars n) (withIdx interpolationChars n)
        ++ emitPartsF r m st
  | .icuRef n :: r, m, st =>
      phElemChars (withIdx icuChars n) icuChars ++ emitPartsF r m st
  | .tagStart t :: r, m, st =>
      phElemChars (withIdx (startPre ++ symbolicOf t) (countOf m t)) (startPayload t)
        ++ emitPartsF r (bumpCount m t) ((t, countOf m t) :: st)
  | .tagEnd t :: r, m, st =>
      match st with
      | (_, k) :: st2 =>
          phElemChars (withIdx (closePre ++ symbolicOf t) k) (endPayload t)
            ++ emitPartsF r m st2
      | [] =>
          phElemChars (withIdx (closePre ++ symbolicOf t) 0) (endPayload t)
            ++ emitPartsF r m []
  | .tagEmpty t :: r, m, st =>
      phElemChars (withIdx (symbolicOf t) (countOf m t)) (startPayload t)
        ++ emitPartsF r (bumpCount m t) st

/-- Modelled from the spec: `ParsedMessage.asNativeString`. -/
def asNativeString (ps : List MPart) : String := ⟨emitPartsF ps [] []⟩

/-! ### Parsing the native encoding -/

/-- A lexical token of the native encoding: a text run or a marker element
with its logical name and escaped-source payload. -/
inductive NativeTok where
  | textTok (s : List Char)
  | marker (nm : List Char) (payload : List Char)
deriving DecidableEq

/-- Consume one native token from the front of the input. -/
def nTokenStep : List Char → Option (NativeTok × List Char)
  | [] => none
  | c :: rest =>
      if c = '<' then
        if phOpenChars.isPrefixOf (c :: rest) then
          let r1 := (c :: rest).drop phOpenChars.length
          let nm := r1.takeWhile (fun d => d ≠ '"')
          let r2 := r1.dropWhile (fun d => d ≠ '"')
          if exOpenChars.isPrefixOf r2 then
            let r3 := r2.drop exOpenChars.length
            let pl := r3.takeWhile (fun d => d ≠ '<')
            let r4 := r3.dropWhile (fun d => d ≠ '<')
            if phCloseChars.isPrefixOf r4 then
              some (.marker nm pl, r4.drop phCloseChars.length)
            else none
          else none
        else none
      else
        some (.textTok ((c :: rest).takeWhile (fun d => d ≠ '<')),
              (c :: rest).dropWhile (fun d => d ≠ '<'))

/-- Native tokenizer loop (fuel-structured). -/
def tokenizeNativeF : Nat → List Char → Option (List NativeTok)
  | 0, _ => none
  | fuel + 1, cs =>
      if cs.isEmpty then some []
      else
        match nTokenStep cs with
        | none => none
        | some (tk, rest2) => (tokenizeNativeF fuel rest2).map (fun ts => tk :: ts)

/-- Recover the stable index from a marker name: the bare base name is slot
0, `BASE_k` is slot `k` (validated by re-rendering the digits). -/
def parseIndexSuffix (base : List Char) (nm : List Char) : Option Nat :=
  if nm = base then some 0
  else if (base ++ ['_']).isPrefixOf nm then
    let ds := nm.drop (base.length + 1)
    let n := digitsToNat ds
    if natDigits n = ds then some n else none
  else none

/-- Recover the original tag name from the escaped-source payload
(`&lt;t>` or `&lt;/t>`), per the spec's re-parsing rule. -/
def payloadTagName (pl : List Char) (closing : Bool) : Option String :=
  let opener := if closing then ltSlashEsc else ltEsc
  if opener.isPrefixOf pl then
    let body := (pl.drop opener.length).takeWhile isNameCh
    if (pl.drop opener.length).drop body.length = ['>'] && !body.isEmpty then
      some ⟨body⟩
    else none
  else none

/-- Classify a native marker element into a message part: interpolation and
ICU references by name, tag markers by the `START_`/`CLOSE_` name prefix
with the tag name taken from the payload, anything else as an empty-tag
marker. -/
def decodeMarker (nm pl : List Char) : Option MPart :=
  match parseIndexSuffix interpolationChars nm with
  | some n => some (.placeholder n)
  | none =>
      match parseIndexSuffix icuChars nm with
      | some n => some (.icuRef n)
      | none =>
          if startPre.isPrefixOf nm then (payloadTagName pl false).map MPart.tagStart
          else if closePre.isPrefixOf nm then (payloadTagName pl true).map MPart.tagEnd
          else (payloadTagName pl false).map MPart.tagEmpty

/-- Build the Normalized Message from the token stream, enforcing the stack
protocol: an unmatched or mismatched close raises the markup error
`unexpected close tag <name>`; an unterminated open tag is also an error. -/
def buildNormalizedF : List NativeTok → List String → Except String (List MPart)
  | [], [] => .ok []
  | [], n :: _ => .error ("unexpected unclosed tag " ++ n)
  | .textTok s :: r, st => (buildNormalizedF r st).map (fun ps => MPart.text ⟨s⟩ :: ps)
  | .marker nm pl :: r, st =>
      match decodeMarker nm pl with
      | none => .error ("unparsable placeholder " ++ (⟨nm⟩ : String))
      | some (.tagStart t) =>
          (buildNormalizedF r (t :: st)).map (fun ps => MPart.tagStart t :: ps)
      | some (.tagEnd t) =>
          match st with
          | top :: st2 =>
              if top = t then (buildNormalizedF r st2).map (fun ps => MPart.tagEnd t :: ps)
              else .error ("unexpected close tag " ++ t)
          | [] => .error ("unexpected close tag " ++ t)
      | some p => (buildNormalizedF r st).map (fun ps => p :: ps)

/-- Modelled from the spec: `createNormalizedMessageFromXMLString` — parse a
native fragment into a Normalized Message; `Except.error` models the thrown
`MarkupError`. -/
def createNormalizedMessageFromXMLString (s : String) : Except String (List MPart) :=
  match tokenizeNativeF (s.data.length + 1) s.data with
  | none => .error "invalid native markup"
  | some toks => buildNormalizedF toks []

/-- The spec's description of a nesting violation, independent of the
builder: running the stack protocol over the markers, the first failure is a
close of `t` with an empty stack or a different top. -/
def firstUnexpectedClose : List NativeTok → List String → Option String
  | [], _ => none
  | .textTok _ :: r, st => firstUnexpectedClose r st
  | .marker nm pl :: r, st =>
      match decodeMarker nm pl with
      | none => none
      | some (.tagStart t) => firstUnexpectedClose r (t :: st)
      | some (.tagEnd t) =>
          match st with
          | top :: st2 => if top = t then firstUnexpectedClose r st2 else some t
          | [] => some t
      | some _ => firstUnexpectedClose r st

/-- The tokens the tokenizer must produce for an emitted message (mirrors
`emitPartsF`). -/
def expectedToks : List MPart → List (String × Nat) → List (String × Nat) → List NativeTok
  | [], _, _ => []
  | .text s :: r, m, st => .textTok s.data :: expectedToks r m st
  | .placeholder n :: r, m, st =>
      .marker (withIdx interpolationChars n) (withIdx interpolationChars n)
        :: expectedToks r m st
  | .icuRef n :: r, m, st =>
      .marker (withIdx icuChars n) icuChars :: expectedToks r m st
  | .tagStart t :: r, m, st =>
      .marker (withIdx (startPre ++ symbolicOf t) (countOf m t)) (startPayload t)
        :: expectedToks r (bumpCount m t) ((t, countOf m t) :: st)
  | .tagEnd t :: r, m, st =>
      match st with
      | (_, k) :: st2 =>
          .marker (withIdx (closePre ++ symbolicOf t) k) (endPayload t)
            :: expectedToks r m st2
      | [] =>
          .marker (withIdx (closePre ++ symbolicOf t) 0) (endPayload t)
            :: expectedToks r m []
  | .tagEmpty t :: r, m, st =>
      .marker (withIdx (symbolicOf t) (countOf m t)) (startPayload t)
        :: expectedToks r (bumpCount m t) st

/-- Per-part well-formedness produced by the display tokenizer. -/
def goodPart : MPart → Bool
  | .text s => !s.data.isEmpty && s.data.all isTextCh
  | .tagStart t => goodName t
  | .tagEnd t => goodName t
  | .tagEmpty t => goodName t
  | _ => true

/-- Whether the part list does not start with a text part. -/
def noTextStart : List MPart → Bool
  | .text _ :: _ => false
  | _ => true

/-- Well-formedness of a tokenized part list: each part is good and no two
text parts are adjacent. -/
def goodParts : List MPart → Bool
  | [] => true
  | p :: r =>
      goodPart p
        && (match p with | .text _ => noTextStart r | _ => true)
        && goodParts r

/-! ## Concrete fixtures for witnesses and counterexamples -/

/-- Fixture: the prefix/suffix configuration of the spec's synthesis
scenarios. -/
def fixtureCfg : FileConfig := ⟨"[[ ", " ]]"⟩

/-- Fixture: an ICU plural message. -/
def fixtureIcuString : String := "\x7bcount, plural, =0 \x7bnone\x7d\x7d"

/-- Fixture: an XLIFF 1.2 trans-unit with plain source `Hello`. -/
def fixtureHelloUnit : XNode :=
  .elem "trans-unit" [("id", "1")] [.elem "source" [] [.text "Hello"]]

/-- Fixture: an XLIFF 1.2 trans-unit whose source is an ICU message. -/
def fixtureIcuUnit : XNode :=
  .elem "trans-unit" [("id", "2")] [.elem "source" [] [.text fixtureIcuString]]

/-- Fixture: a well-formed XLIFF 2.0 unit (segment wrapping the source). -/
def fixtureUnit2 : XNode :=
  .elem "unit" [("id", "1")] [.elem "segment" [] [.elem "source" [] [.text "Hello"]]]

/-- Fixture: a malformed XLIFF 2.0 unit without a segment wrapper. -/
def fixtureUnit2NoSegment : XNode :=
  .elem "unit" [("id", "1")] [.elem "source" [] [.text "Hello"]]

/-- Fixture: an XLIFF 2.0 unit carrying one location note `f:3`. -/
def fixtureLocUnit : XNode :=
  .elem "unit" []
    [.elem "notes" [] [.elem "note" [("category", "location")] [.text "f:3"]],
     .elem "segment" [] [.elem "source" [] [.text "S"]]]

/-- The native state tokens recognized by the XLIFF 1.2 reverse mapping. -/
def xliffRecognizedTokens : List String :=
  ["new", "needs-translation", "translated", "needs-adaptation", "needs-l10n",
   "needs-review-adaptation", "needs-review-l10n", "needs-review-translation",
   "final", "signed-off"]

/-- The native state tokens recognized by the XLIFF 2.0 reverse mapping. -/
def xliff2RecognizedTokens : List String :=
  ["initial", "translated", "reviewed", "final"]

/-- The target string synthesized by `useSourceAsTarget` for a source
string `s`: ICU messages verbatim, other content affixed, empty when
neither default language nor copy is requested. -/
def synthesizedTarget (cfg : FileConfig) (isDefaultLang copyContent : Bool)
    (s : String) : String :=
  if isDefaultLang || copyContent then
    if isICUMessage s then s else cfg.targetPraefix ++ s ++ cfg.targetSuffix
  else ""

/-- Append several children at the end of an element's child list. -/
def appendChildrenTop (root : XNode) (l : List XNode) : XNode :=
  match root with
  | .text s => .text s
  | .elem t a ch => .elem t a (ch ++ l)

/-! ## Theorems -/

/-! ### State mapping claims -/

/-- C4, counterexample to the claim as stated: in Dialect A (XLIFF 1.2) the
token `signed-off` does not map to `NEW` but to `FINAL`, so it is false that
every token other than `new`/`translated`/`final` maps to `NEW`. -/
theorem claim_C4_counterexample :
    Xliff.mapNativeStateToState (some "signed-off") = STATE_FINAL
      ∧ STATE_FINAL ≠ STATE_NEW
      ∧ Xliff.mapNativeStateToState (some "needs-adaptation") = STATE_TRANSLATED
      ∧ STATE_TRANSLATED ≠ STATE_NEW := by
  refine ⟨rfl, by decide, rfl, by decide⟩

/-- C4 (amended): the native-to-abstract mapping is total (it is a function
into the three abstract states) and maps per the code's tables: Dialect A
maps `new` and `needs-translation` to NEW, `translated` and the
`needs-adaptation`/`needs-l10n`/`needs-review-…` family to TRANSLATED,
`final` and `signed-off` to FINAL, and every other or absent token to NEW;
Dialect B maps `initial` to NEW, `translated`/`reviewed` to TRANSLATED,
`final` to FINAL, and every other or absent token to NEW. -/
theorem claim_C4 :
    (Xliff.mapNativeStateToState (some "new") = STATE_NEW
      ∧ Xliff.mapNativeStateToState (some "needs-translation") = STATE_NEW
      ∧ Xliff.mapNativeStateToState (some "translated") = STATE_TRANSLATED
      ∧ Xliff.mapNativeStateToState (some "needs-adaptation") = STATE_TRANSLATED
      ∧ Xliff.mapNativeStateToState (some "needs-l10n") = STATE_TRANSLATED
      ∧ Xliff.mapNativeStateToState (some "needs-review-adaptation") = STATE_TRANSLATED
      ∧ Xliff.mapNativeStateToState (some "needs-review-l10n") = STATE_TRANSLATED
      ∧ Xliff.mapNativeStateToState (some "needs-review-translation") = STATE_TRANSLATED
      ∧ Xliff.mapNativeStateToState (some "final") = STATE_FINAL
      ∧ Xliff.mapNativeStateToState (some "signed-off") = STATE_FINAL
      ∧ Xliff.mapNativeStateToState none = STATE_NEW)
    ∧ (Xliff2.mapNativeStateToState (some "initial") = STATE_NEW
      ∧ Xliff2.mapNativeStateToState (some "translated") = STATE_TRANSLATED
      ∧ Xliff2.mapNativeStateToState (some "reviewed") = STATE_TRANSLATED
      ∧ Xliff2.mapNativeStateToState (some "final") = STATE_FINAL
      ∧ Xliff2.mapNativeStateToState none = STATE_NEW)
    ∧ (∀ s : String, s ∉ xliffRecognizedTokens →
        Xliff.mapNativeStateToState (some s) = STATE_NEW)
    ∧ (∀ s : String, s ∉ xliff2RecognizedTokens →
        Xliff2.mapNativeStateToState (some s) = STATE_NEW) := by
  refine ⟨⟨rfl, rfl, rfl, rfl, rfl, rfl, rfl, rfl, rfl, rfl, rfl⟩,
    ⟨rfl, rfl, rfl, rfl, rfl⟩, ?_, ?_⟩
  · intro s hs
    simp only [xliffRecognizedTokens, List.mem_cons, List.not_mem_nil, or_false,
      not_or] at hs
    simp [Xliff.mapNativeStateToState, hs.1, hs.2.1, hs.2.2.1, hs.2.2.2.1,
      hs.2.2.2.2.1, hs.2.2.2.2.2.1, hs.2.2.2.2.2.2.1, hs.2.2.2.2.2.2.2.1,
      hs.2.2.2.2.2.2.2.2.1, hs.2.2.2.2.2.2.2.2.2]
  · intro s hs
    simp only [xliff2RecognizedTokens, List.mem_cons, List.not_mem_nil, or_false,
      not_or] at hs
    simp [Xliff2.mapNativeStateToState, hs.1, hs.2.1, hs.2.2.1, hs.2.2.2]

/-- C4, witness: the default clauses applied to an unrecognized token. -/
theorem claim_C4_witness :
    Xliff.mapNativeStateToState (some "otherwise") = STATE_NEW
      ∧ Xliff2.mapNativeStateToState (some "otherwise") = STATE_NEW :=
  ⟨claim_C4.2.2.1 "otherwise" (by decide), claim_C4.2.2.2 "otherwise" (by decide)⟩

/-- C5: the abstract-to-native mapping sends NEW, TRANSLATED, FINAL to
`new`, `translated`, `final` in Dialect A and `initial`, `translated`,
`final` in Dialect B, is injective on the three abstract states within each
dialect, and errors (`InvalidStateError`, modelled as the thrown
`unknown state …`) on every other abstract value. -/
theorem claim_C5 :
    (Xliff.mapStateToNativeState STATE_NEW = .ok "new"
      ∧ Xliff.mapStateToNativeState STATE_TRANSLATED = .ok "translated"
      ∧ Xliff.mapStateToNativeState STATE_FINAL = .ok "final")
    ∧ (Xliff2.mapStateToNativeState STATE_NEW = .ok "initial"
      ∧ Xliff2.mapStateToNativeState STATE_TRANSLATED = .ok "translated"
      ∧ Xliff2.mapStateToNativeState STATE_FINAL = .ok "final")
    ∧ (∀ a ∈ [STATE_NEW, STATE_TRANSLATED, STATE_FINAL],
        ∀ b ∈ [STATE_NEW, STATE_TRANSLATED, STATE_FINAL],
        Xliff.mapStateToNativeState a = Xliff.mapStateToNativeState b → a = b)
    ∧ (∀ a ∈ [STATE_NEW, STATE_TRANSLATED, STATE_FINAL],
        ∀ b ∈ [STATE_NEW, STATE_TRANSLATED, STATE_FINAL],
        Xliff2.mapStateToNativeState a = Xliff2.mapStateToNativeState b → a = b)
    ∧ (∀ s : String, s ≠ STATE_NEW → s ≠ STATE_TRANSLATED → s ≠ STATE_FINAL →
        Xliff.mapStateToNativeState s = .error ("unknown state " ++ s))
    ∧ (∀ s : String, s ≠ STATE_NEW → s ≠ STATE_TRANSLATED → s ≠ STATE_FINAL →
        Xliff2.mapStateToNativeState s = .error ("unknown state " ++ s)) := by
  refine ⟨⟨rfl, rfl, rfl⟩, ⟨rfl, rfl, rfl⟩, ?_, ?_, ?_, ?_⟩
  · intro a ha b hb
    fin_cases ha <;> fin_cases hb <;>
      simp [Xliff.mapStateToNativeState, STATE_NEW, STATE_TRANSLATED, STATE_FINAL]
  · intro a ha b hb
    fin_cases ha <;> fin_cases hb <;>
      simp [Xliff2.mapStateToNativeState, STATE_NEW, STATE_TRANSLATED, STATE_FINAL]
  · intro s h1 h2 h3
    simp [Xliff.mapStateToNativeState, h1, h2, h3]
  · intro s h1 h2 h3
    simp [Xliff2.mapStateToNativeState, h1, h2, h3]

/-- C5, witness: the strict mapping errors on a state outside the three
known abstract values, in both dialects. -/
theorem claim_C5_witness :
    Xliff.mapStateToNativeState "bogus" = .error "unknown state bogus"
      ∧ Xliff2.mapStateToNativeState "bogus" = .error "unknown state bogus" := by
  have h1 := claim_C5.2.2.2.2.1 "bogus" (by decide) (by decide) (by decide)
  have h2 := claim_C5.2.2.2.2.2 "bogus" (by decide) (by decide) (by decide)
  exact ⟨h1, h2⟩

/-! ### DOM kit lemmas -/

theorem isTagElem_elem (tg : String) (a : List (String × String)) (ch : List XNode)
    (t : String) : (XNode.elem tg a ch).isTagElem t = (tg == t) := by
  simp [XNode.isTagElem, XNode.tagOf]

theorem isTagElem_text (s t : String) : (XNode.text s).isTagElem t = false := rfl

theorem elemsByTagIncl_elem (tg : String) (a : List (String × String)) (ch : List XNode)
    (t : String) :
    elemsByTagIncl (.elem tg a ch) t =
      (if tg = t then [XNode.elem tg a ch] else []) ++ elemsByTagList ch t := by
  rw [elemsByTagIncl]

theorem elemsByTagIncl_text (s t : String) : elemsByTagIncl (.text s) t = [] := by
  rw [elemsByTagIncl]

theorem elemsByTagList_nil (t : String) : elemsByTagList [] t = [] := by
  rw [elemsByTagList]

theorem elemsByTagList_cons (c : XNode) (cs : List XNode) (t : String) :
    elemsByTagList (c :: cs) t = elemsByTagIncl c t ++ elemsByTagList cs t := by
  rw [elemsByTagList]

theorem elemsByTagList_append (l₁ l₂ : List XNode) (t : String) :
    elemsByTagList (l₁ ++ l₂) t = elemsByTagList l₁ t ++ elemsByTagList l₂ t := by
  induction l₁ with
  | nil => simp [elemsByTagList_nil]
  | cons c cs ih => simp [elemsByTagList_cons, ih]

theorem containsTag_false_iff (n : XNode) (t : String) :
    containsTag n t = false ↔ elemsByTagIncl n t = [] := by
  simp [containsTag, List.isEmpty_iff]

theorem containsTag_true_iff (n : XNode) (t : String) :
    containsTag n t = true ↔ elemsByTagIncl n t ≠ [] := by
  simp [containsTag, List.isEmpty_iff]

theorem tagOf_of_isTagElem {n : XNode} {t : String} (h : n.isTagElem t = true) :
    n.tagOf = some t := by
  cases n with
  | text s => simp [isTagElem_text] at h
  | elem tg a ch =>
      simp only [isTagElem_elem, beq_iff_eq] at h
      simp [XNode.tagOf, h]

theorem elemsByTagIncl_cons_of_tag {n : XNode} {t : String} (h : n.tagOf = some t) :
    ∃ rest, elemsByTagIncl n t = n :: rest := by
  cases n with
  | text s => simp [XNode.tagOf] at h
  | elem tg a ch =>
      simp only [XNode.tagOf, Option.some.injEq] at h
      exact ⟨elemsByTagList ch t, by simp [elemsByTagIncl_elem, h]⟩

theorem elemsByTagIncl_of_ne {tg t : String} (hne : tg ≠ t) (a : List (String × String))
    (ch : List XNode) : elemsByTagIncl (.elem tg a ch) t = elemsByTagList ch t := by
  simp [elemsByTagIncl_elem, hne]

/-- Decompose emptiness of an element's tag list. -/
theorem elemsByTagIncl_elem_eq_nil {tg t : String} {a : List (String × String)}
    {ch : List XNode} (h : elemsByTagIncl (.elem tg a ch) t = []) :
    tg ≠ t ∧ elemsByTagList ch t = [] := by
  by_cases htg : tg = t
  · simp [elemsByTagIncl_elem, htg] at h
  · refine ⟨htg, ?_⟩
    simpa [elemsByTagIncl_elem, htg] using h

theorem elemsByTagList_cons_eq_nil {c : XNode} {cs : List XNode} {t : String}
    (h : elemsByTagList (c :: cs) t = []) :
    elemsByTagIncl c t = [] ∧ elemsByTagList cs t = [] := by
  rw [elemsByTagList_cons, List.append_eq_nil] at h
  exact h

/-- In a tag-free forest, no member matches or contains the tag. -/
theorem notag_facts {c : XNode} {t : String} (h : elemsByTagIncl c t = []) :
    c.isTagElem t = false ∧ containsTag c t = false := by
  constructor
  · by_cases hc : c.isTagElem t = true
    · obtain ⟨rest, hr⟩ := elemsByTagIncl_cons_of_tag (tagOf_of_isTagElem hc)
      rw [hr] at h; cases h
    · simpa using hc
  · exact (containsTag_false_iff c t).2 h

mutual
/-- Head of the tag list after rewriting the first match, node level (for a
node that itself does not match). -/
theorem updFirstIn_head (n : XNode) (t : String) (f : XNode → XNode)
    (hf : ∀ w, (f w).tagOf = w.tagOf) (hn : n.isTagElem t = false) :
    (elemsByTagIncl (updFirstIn n t f) t).head? =
      ((elemsByTagIncl n t).head?).map f := by
  cases n with
  | text s => simp [updFirstIn, elemsByTagIncl_text]
  | elem tg a ch =>
      have htg : tg ≠ t := by
        intro hh
        rw [isTagElem_elem] at hn
        simp [hh] at hn
      rw [updFirstIn]
      rw [elemsByTagIncl_of_ne htg, elemsByTagIncl_of_ne htg]
      exact updFirstL_head ch t f hf

/-- Head of the tag list after rewriting the first match, forest level. -/
theorem updFirstL_head (l : List XNode) (t : String) (f : XNode → XNode)
    (hf : ∀ w, (f w).tagOf = w.tagOf) :
    (elemsByTagList (updFirstL l t f) t).head? =
      ((elemsByTagList l t).head?).map f := by
  cases l with
  | nil => simp [updFirstL, elemsByTagList_nil]
  | cons c cs =>
      rw [updFirstL]
      by_cases h1 : c.isTagElem t
      · rw [if_pos h1]
        have hc : c.tagOf = some t := tagOf_of_isTagElem h1
        have hfc : (f c).tagOf = some t := by rw [hf c, hc]
        obtain ⟨r1, hr1⟩ := elemsByTagIncl_cons_of_tag hc
        obtain ⟨r2, hr2⟩ := elemsByTagIncl_cons_of_tag hfc
        rw [elemsByTagList_cons, elemsByTagList_cons, hr1, hr2]
        simp
      · by_cases h2 : containsTag c t
        · rw [if_neg h1, if_pos h2]
          have hne : elemsByTagIncl c t ≠ [] := (containsTag_true_iff c t).1 h2
          have hhead := updFirstIn_head c t f hf (by simpa using h1)
          rw [elemsByTagList_cons, elemsByTagList_cons]
          obtain ⟨w0, r0, hr0⟩ :=
            List.exists_cons_of_ne_nil hne
          rw [hr0] at hhead ⊢
          simp only [List.head?_cons, Option.map_some] at hhead
          obtain ⟨w1, r1, hr1⟩ : ∃ w1 r1, elemsByTagIncl (updFirstIn c t f) t = w1 :: r1 := by
            cases hu : elemsByTagIncl (updFirstIn c t f) t with
            | nil => rw [hu] at hhead; simp at hhead
            | cons w1 r1 => exact ⟨w1, r1, rfl⟩
          rw [hr1] at hhead ⊢
          simp only [List.head?_cons, Option.some.injEq] at hhead
          simp [hhead]
        · rw [if_neg h1, if_neg h2]
          have hnil : elemsByTagIncl c t = [] := (containsTag_false_iff c t).1 (by simpa using h2)
          rw [elemsByTagList_cons, elemsByTagList_cons, hnil]
          simpa using updFirstL_head cs t f hf
end

/-- Reading the first element with tag `t` after rewriting it. -/
theorem getFirst_updateFirstElem (root : XNode) (t : String) (f : XNode → XNode)
    (hf : ∀ w, (f w).tagOf = w.tagOf) :
    getFirstElementByTagName (updateFirstElem root t f) t =
      (getFirstElementByTagName root t).map f := by
  cases root with
  | text s => simp [updateFirstElem, updFirstIn, getFirstElementByTagName,
      getElementsByTagName, XNode.childrenOf, elemsByTagList_nil]
  | elem tg a ch =>
      simp only [updateFirstElem, updFirstIn, getFirstElementByTagName,
        getElementsByTagName, XNode.childrenOf]
      exact updFirstL_head ch t f hf

mutual
/-- After inserting `x` following the first `t`-element inside a
`t2`-free node, the `t2`-elements are exactly those of `x` (when the
insertion happened). -/
theorem insAfterIn_elems (n : XNode) (t : String) (x : XNode) (t2 : String)
    (h2 : elemsByTagIncl n t2 = []) :
    elemsByTagIncl (insAfterIn n t x) t2 =
      if (elemsByTagList n.childrenOf t).isEmpty then [] else elemsByTagIncl x t2 := by
  cases n with
  | text s => simp [insAfterIn, elemsByTagIncl_text, XNode.childrenOf, elemsByTagList_nil]
  | elem tg a ch =>
      obtain ⟨htg, hch⟩ := elemsByTagIncl_elem_eq_nil h2
      rw [insAfterIn, elemsByTagIncl_of_ne htg]
      simpa [XNode.childrenOf] using insAfterL_elems ch t x t2 hch

/-- Forest version of `insAfterIn_elems`. -/
theorem insAfterL_elems (l : List XNode) (t : String) (x : XNode) (t2 : String)
    (h2 : elemsByTagList l t2 = []) :
    elemsByTagList (insAfterL l t x) t2 =
      if (elemsByTagList l t).isEmpty then [] else elemsByTagIncl x t2 := by
  cases l with
  | nil => simp [insAfterL, elemsByTagList_nil]
  | cons c cs =>
      obtain ⟨hc2, hcs2⟩ := elemsByTagList_cons_eq_nil h2
      rw [insAfterL]
      by_cases h1 : c.isTagElem t
      · rw [if_pos h1]
        obtain ⟨r1, hr1⟩ := elemsByTagIncl_cons_of_tag (tagOf_of_isTagElem h1)
        rw [elemsByTagList_cons, elemsByTagList_cons, elemsByTagList_cons, hr1]
        simp [hc2, hcs2]
      · by_cases h2c : containsTag c t
        · rw [if_neg h1, if_pos h2c]
          have hcne : elemsByTagIncl c t ≠ [] := (containsTag_true_iff c t).1 h2c
          have hnode := insAfterIn_elems c t x t2 hc2
          rw [elemsByTagList_cons, elemsByTagList_cons, hnode, hcs2]
          have hcch : ¬(elemsByTagList c.childrenOf t).isEmpty := by
            cases c with
            | text s => rw [elemsByTagIncl_text] at hcne; exact absurd rfl hcne
            | elem tg a ch =>
                intro hemp
                have htg : tg ≠ t := by
                  intro hh
                  rw [isTagElem_elem] at h1
                  simp [hh] at h1
                rw [elemsByTagIncl_of_ne htg] at hcne
                simp only [XNode.childrenOf] at hemp
                exact hcne (List.isEmpty_iff.1 hemp)
          rw [if_neg hcch]
          have hcond : ¬((elemsByTagIncl c t ++ elemsByTagList cs t).isEmpty = true) := by
            simp only [List.isEmpty_iff, List.append_eq_nil]
            intro hh
            exact hcne hh.1
          rw [if_neg hcond]
          simp
        · rw [if_neg h1, if_neg h2c]
          have hcnil : elemsByTagIncl c t = [] :=
            (containsTag_false_iff c t).1 (by simpa using h2c)
          rw [elemsByTagList_cons, elemsByTagList_cons, hc2,
            insAfterL_elems cs t x t2 hcs2, hcnil]
          simp
end

mutual
/-- After appending `x` to the parent of the first `t`-element inside a
`t2`-free node, the `t2`-elements are exactly those of `x` (when the
insertion happened). -/
theorem appPar_elems (n : XNode) (t : String) (x : XNode) (t2 : String)
    (h2 : elemsByTagIncl n t2 = []) :
    elemsByTagIncl (appendToParentOfFirst n t x) t2 =
      if (elemsByTagList n.childrenOf t).isEmpty then [] else elemsByTagIncl x t2 := by
  cases n with
  | text s =>
      simp [appendToParentOfFirst, elemsByTagIncl_text, XNode.childrenOf, elemsByTagList_nil]
  | elem tg a ch =>
      obtain ⟨htg, hch⟩ := elemsByTagIncl_elem_eq_nil h2
      have hspec := appParL_spec ch t x t2 hch
      rw [appendToParentOfFirst]
      simp only [XNode.childrenOf]
      cases happ : appParL ch t x with
      | none =>
          have hnil := hspec.1 happ
          rw [elemsByTagIncl_of_ne htg]
          simp [hch, hnil]
      | some pr =>
          obtain ⟨b, ch2⟩ := pr
          cases b with
          | true =>
              obtain ⟨-, hne⟩ := hspec.2.1 ch2 happ
              rw [elemsByTagIncl_of_ne htg, elemsByTagList_append, hch]
              simp [hne, elemsByTagList_cons, elemsByTagList_nil]
          | false =>
              obtain ⟨hx, hne⟩ := hspec.2.2 ch2 happ
              rw [elemsByTagIncl_of_ne htg, hx]
              simp [hne]

/-- Forest version of `appPar_elems`, describing the three outcomes of
`appParL`. -/
theorem appParL_spec (l : List XNode) (t : String) (x : XNode) (t2 : String)
    (h2 : elemsByTagList l t2 = []) :
    (appParL l t x = none → elemsByTagList l t = [])
      ∧ (∀ l2, appParL l t x = some (true, l2) →
          l2 = l ∧ (elemsByTagList l t).isEmpty = false)
      ∧ (∀ l2, appParL l t x = some (false, l2) →
          elemsByTagList l2 t2 = elemsByTagIncl x t2
            ∧ (elemsByTagList l t).isEmpty = false) := by
  cases l with
  | nil => refine ⟨fun _ => elemsByTagList_nil t, fun l2 h => by simp [appParL] at h,
      fun l2 h => by simp [appParL] at h⟩
  | cons c cs =>
      obtain ⟨hc2, hcs2⟩ := elemsByTagList_cons_eq_nil h2
      by_cases h1 : c.isTagElem t
      · refine ⟨fun h => ?_, fun l2 h => ?_, fun l2 h => ?_⟩
        · rw [appParL, if_pos h1] at h; cases h
        · rw [appParL, if_pos h1] at h
          obtain ⟨r1, hr1⟩ := elemsByTagIncl_cons_of_tag (tagOf_of_isTagElem h1)
          injection h with h'
          injection h' with hb hl
          refine ⟨hl.symm, ?_⟩
          rw [elemsByTagList_cons, hr1]
          simp
        · rw [appParL, if_pos h1] at h
          injection h with h'
          injection h' with hb hl
          cases hb
      · by_cases h2c : containsTag c t
        · have hcne : elemsByTagIncl c t ≠ [] := (containsTag_true_iff c t).1 h2c
          have hlne : (elemsByTagList (c :: cs) t).isEmpty = false := by
            rw [elemsByTagList_cons]
            simp only [List.isEmpty_eq_false, ne_eq, List.append_eq_nil, not_and]
            intro hh
            exact absurd hh hcne
          refine ⟨fun h => ?_, fun l2 h => ?_, fun l2 h => ?_⟩
          · rw [appParL, if_neg h1, if_pos h2c] at h; cases h
          · rw [appParL, if_neg h1, if_pos h2c] at h
            injection h with h'
            injection h' with hb hl
            cases hb
          · rw [appParL, if_neg h1, if_pos h2c] at h
            injection h with h'
            injection h' with hb hl
            subst hl
            refine ⟨?_, hlne⟩
            have hnode := appPar_elems c t x t2 hc2
            have hcch : (elemsByTagList c.childrenOf t).isEmpty = false := by
              cases c with
              | text s => rw [elemsByTagIncl_text] at hcne; exact absurd rfl hcne
              | elem tg a ch =>
                  have htg : tg ≠ t := by
                    intro hh
                    rw [isTagElem_elem] at h1
                    simp [hh] at h1
                  rw [elemsByTagIncl_of_ne htg] at hcne
                  simp only [XNode.childrenOf, List.isEmpty_eq_false, ne_eq]
                  exact hcne
            rw [elemsByTagList_cons, hnode, hcch, hcs2]
            simp
        · have hcnil : elemsByTagIncl c t = [] :=
            (containsTag_false_iff c t).1 (by simpa using h2c)
          have hrest := appParL_spec cs t x t2 hcs2
          refine ⟨fun h => ?_, fun l2 h => ?_, fun l2 h => ?_⟩
          · rw [appParL, if_neg h1, if_neg h2c] at h
            cases happ : appParL cs t x with
            | none =>
                rw [elemsByTagList_cons, hcnil, hrest.1 happ]
                rfl
            | some pr => rw [happ] at h; cases h
          · rw [appParL, if_neg h1, if_neg h2c] at h
            cases happ : appParL cs t x with
            | none => rw [happ] at h; cases h
            | some pr =>
                obtain ⟨b, cs2⟩ := pr
                rw [happ] at h
                injection h with h'
                injection h' with hb hl
                subst hb
                obtain ⟨hcs, hne⟩ := hrest.2.1 cs2 happ
                subst hcs
                refine ⟨by rw [hl], ?_⟩
                rw [elemsByTagList_cons]
                simp only [List.isEmpty_eq_false, ne_eq, List.append_eq_nil, not_and]
                intro _
                exact List.isEmpty_eq_false.1 hne
          · rw [appParL, if_neg h1, if_neg h2c] at h
            cases happ : appParL cs t x with
            | none => rw [happ] at h; cases h
            | some pr =>
                obtain ⟨b, cs2⟩ := pr
                rw [happ] at h
                injection h with h'
                injection h' with hb hl
                subst hb
                obtain ⟨hcs, hne⟩ := hrest.2.2 cs2 happ
                refine ⟨?_, ?_⟩
                · rw [← hl, elemsByTagList_cons, hc2, hcs]
                  simp
                · rw [elemsByTagList_cons]
                  simp only [List.isEmpty_eq_false, ne_eq, List.append_eq_nil, not_and]
                  intro _
                  exact List.isEmpty_eq_false.1 hne
end

/-- Skip a tag-free prefix when rewriting the first match. -/
theorem updFirstL_append_free (l1 l2 : List XNode) (t : String) (f : XNode → XNode)
    (h : elemsByTagList l1 t = []) :
    updFirstL (l1 ++ l2) t f = l1 ++ updFirstL l2 t f := by
  induction l1 with
  | nil => simp
  | cons c cs ih =>
      obtain ⟨hc, hcs⟩ := elemsByTagList_cons_eq_nil h
      obtain ⟨h1, h2⟩ := notag_facts hc
      rw [List.cons_append, updFirstL, if_neg (by simp [h1]), if_neg (by simp [h2])]
      rw [ih hcs]
      rfl

/-- Skip a tag-free prefix when inserting after the first match. -/
theorem insAfterL_append_free (l1 l2 : List XNode) (t : String) (x : XNode)
    (h : elemsByTagList l1 t = []) :
    insAfterL (l1 ++ l2) t x = l1 ++ insAfterL l2 t x := by
  induction l1 with
  | nil => simp
  | cons c cs ih =>
      obtain ⟨hc, hcs⟩ := elemsByTagList_cons_eq_nil h
      obtain ⟨h1, h2⟩ := notag_facts hc
      rw [List.cons_append, insAfterL, if_neg (by simp [h1]), if_neg (by simp [h2])]
      rw [ih hcs]
      rfl

/-- Skip a tag-free prefix in `appParL`. -/
theorem appParL_append_free (l1 l2 : List XNode) (t : String) (x : XNode)
    (h : elemsByTagList l1 t = []) :
    appParL (l1 ++ l2) t x = (appParL l2 t x).map (fun p => (p.1, l1 ++ p.2)) := by
  induction l1 with
  | nil =>
      cases happ : appParL l2 t x with
      | none => simp [happ]
      | some pr => simp [happ]
  | cons c cs ih =>
      obtain ⟨hc, hcs⟩ := elemsByTagList_cons_eq_nil h
      obtain ⟨h1, h2⟩ := notag_facts hc
      rw [List.cons_append, appParL, if_neg (by simp [h1]), if_neg (by simp [h2])]
      rw [ih hcs]
      cases happ : appParL l2 t x with
      | none => simp [happ]
      | some pr => simp [happ]

/-- Removal distributes over append. -/
theorem remAllL_append (l1 l2 : List XNode) (p : XNode → Bool) :
    remAllL (l1 ++ l2) p = remAllL l1 p ++ remAllL l2 p := by
  induction l1 with
  | nil => simp [remAllL]
  | cons c cs ih =>
      rw [List.cons_append, remAllL, ih, remAllL]
      by_cases hp : p c
      · simp [hp]
      · simp [hp]

mutual
/-- Removal with a tag-targeted predicate is the identity on a subtree
without that tag. -/
theorem remAllN_id (n : XNode) (p : XNode → Bool) (tg : String)
    (hp : ∀ c, p c = true → c.isTagElem tg = true)
    (h : elemsByTagIncl n tg = []) : remAllN n p = n := by
  cases n with
  | text s => rfl
  | elem t a ch =>
      obtain ⟨-, hch⟩ := elemsByTagIncl_elem_eq_nil h
      rw [remAllN, remAllL_id ch p tg hp hch]

/-- Forest version of `remAllN_id`. -/
theorem remAllL_id (l : List XNode) (p : XNode → Bool) (tg : String)
    (hp : ∀ c, p c = true → c.isTagElem tg = true)
    (h : elemsByTagList l tg = []) : remAllL l p = l := by
  cases l with
  | nil => rfl
  | cons c cs =>
      obtain ⟨hc, hcs⟩ := elemsByTagList_cons_eq_nil h
      have hpc : p c = false := by
        by_cases hb : p c = true
        · have := (notag_facts hc).1
          rw [hp c hb] at this; cases this
        · simpa using hb
      rw [remAllL, hpc]
      simp only [Bool.false_eq_true, if_false]
      rw [remAllN_id c p tg hp hc, remAllL_id cs p tg hp hcs]
      rfl
end

/-- Skip a tag-free prefix when removing the first match. -/
theorem remFirstL_append_free (l1 l2 : List XNode) (t : String)
    (h : elemsByTagList l1 t = []) :
    remFirstL (l1 ++ l2) t = l1 ++ remFirstL l2 t := by
  induction l1 with
  | nil => simp
  | cons c cs ih =>
      obtain ⟨hc, hcs⟩ := elemsByTagList_cons_eq_nil h
      obtain ⟨h1, h2⟩ := notag_facts hc
      rw [List.cons_append, remFirstL, if_neg (by simp [h1]), if_neg (by simp [h2])]
      rw [ih hcs]
      rfl

/-! ### Small computation lemmas -/

theorem getXMLContent_single (t : String) (a : List (String × String)) (s : String) :
    getXMLContent (.elem t a [.text s]) = s := by
  simp [getXMLContent, XNode.childrenOf, String.join]

theorem getAttribute_updateAssoc_same (attrs : List (String × String)) (a v : String) :
    (updateAssoc attrs a v).find? (fun p => p.1 == a) = some (a, v) := by
  induction attrs with
  | nil => simp [updateAssoc, List.find?]
  | cons kv r ih =>
      obtain ⟨k, w⟩ := kv
      by_cases hk : k = a
      · subst hk
        simp [updateAssoc, List.find?]
      · rw [updateAssoc, if_neg hk]
        rw [List.find?]
        have hbeq : (k == a) = false := by simpa using hk
        rw [hbeq]
        exact ih

theorem getAttribute_setAttribute (t : String) (a : List (String × String))
    (ch : List XNode) (k v : String) :
    getAttribute (setAttribute (.elem t a ch) k v) k = some v := by
  simp [getAttribute, setAttribute, getAttribute_updateAssoc_same]

theorem tagOf_setAttribute (n : XNode) (k v : String) :
    (setAttribute n k v).tagOf = n.tagOf := by
  cases n <;> rfl

theorem tagOf_replaceContent (n : XNode) (s : String) :
    (replaceContentWithXMLContent n s).tagOf = n.tagOf := by
  cases n <;> rfl

theorem tagOf_appendChildTop (n x : XNode) :
    (appendChildTop n x).tagOf = n.tagOf := by
  cases n <;> rfl

theorem getXMLContent_replaceContent (t : String) (a : List (String × String))
    (ch : List XNode) (s : String) :
    getXMLContent (replaceContentWithXMLContent (.elem t a ch) s) = s := by
  simp [replaceContentWithXMLContent, getXMLContent, XNode.childrenOf, String.join]

theorem getXMLContent_setAttribute (t : String) (a : List (String × String))
    (ch : List XNode) (k v : String) :
    getXMLContent (setAttribute (.elem t a ch) k v) = getXMLContent (.elem t a ch) := by
  simp [setAttribute, getXMLContent, XNode.childrenOf]

mutual
/-- Every element in a tag query carries that tag. -/
theorem mem_elemsByTagIncl_tag (n : XNode) (t : String) :
    ∀ w ∈ elemsByTagIncl n t, w.tagOf = some t := by
  cases n with
  | text s => intro w hw; rw [elemsByTagIncl_text] at hw; cases hw
  | elem tg a ch =>
      intro w hw
      rw [elemsByTagIncl_elem] at hw
      rcases List.mem_append.1 hw with h1 | h2
      · by_cases htg : tg = t
        · rw [if_pos htg] at h1
          rcases List.mem_singleton.1 h1 with rfl
          simp [XNode.tagOf, htg]
        · rw [if_neg htg] at h1; cases h1
      · exact mem_elemsByTagList_tag ch t w h2

/-- Forest version of `mem_elemsByTagIncl_tag`. -/
theorem mem_elemsByTagList_tag (l : List XNode) (t : String) :
    ∀ w ∈ elemsByTagList l t, w.tagOf = some t := by
  cases l with
  | nil => intro w hw; rw [elemsByTagList_nil] at hw; cases hw
  | cons c cs =>
      intro w hw
      rw [elemsByTagList_cons] at hw
      rcases List.mem_append.1 hw with h1 | h2
      · exact mem_elemsByTagIncl_tag c t w h1
      · exact mem_elemsByTagList_tag cs t w h2
end

/-- The first element of a tag query carries that tag. -/
theorem getFirst_tag {el : XNode} {t : String} {w : XNode}
    (h : getFirstElementByTagName el t = some w) : w.tagOf = some t := by
  unfold getFirstElementByTagName at h
  cases hl : getElementsByTagName el t with
  | nil => rw [hl] at h; cases h
  | cons a r =>
      rw [hl] at h
      simp only [List.head?_cons, Option.some.injEq] at h
      cases el with
      | text s =>
          simp [getElementsByTagName, XNode.childrenOf, elemsByTagList_nil] at hl
      | elem tg at0 ch =>
          have := mem_elemsByTagList_tag ch t w
          simp only [getElementsByTagName, XNode.childrenOf] at hl
          apply this
          rw [hl]
          rw [← h]
          exact List.mem_cons_self a r

/-- The forward state mapping on the two states actually stored. -/
theorem xliff_mapState_if (d : Bool) :
    Xliff.mapStateToNativeState (if d then STATE_FINAL else STATE_NEW) =
      .ok (if d then "final" else "new") := by
  cases d <;> rfl

/-- XLIFF 2.0 version of `xliff_mapState_if`. -/
theorem xliff2_mapState_if (d : Bool) :
    Xliff2.mapStateToNativeState (if d then STATE_FINAL else STATE_NEW) =
      .ok (if d then "final" else "initial") := by
  cases d <;> rfl

/-- Reading back target content and state after the two target rewrites
performed by `useSourceAsTarget`/`translateNative` (XLIFF 1.2 layout: the
state token lives on the target element). -/
theorem xliff_target_read (el1 w : XNode) (newT ns : String)
    (htgt : getFirstElementByTagName el1 "target" = some w) :
    Xliff.targetContent
        (updateFirstElem
          (updateFirstElem el1 "target" (fun t => replaceContentWithXMLContent t newT))
          "target" (fun t => setAttribute t "state" ns)) = some newT
      ∧ Xliff.nativeTargetState
          (updateFirstElem
            (updateFirstElem el1 "target" (fun t => replaceContentWithXMLContent t newT))
            "target" (fun t => setAttribute t "state" ns)) = some ns := by
  have hw := getFirst_tag htgt
  obtain ⟨wa, wch, rfl⟩ : ∃ wa wch, w = .elem "target" wa wch := by
    cases w with
    | text s2 => simp [XNode.tagOf] at hw
    | elem tg a2 c2 =>
        simp only [XNode.tagOf, Option.some.injEq] at hw
        exact ⟨a2, c2, by rw [hw]⟩
  have h1 : getFirstElementByTagName
      (updateFirstElem el1 "target" (fun t => replaceContentWithXMLContent t newT))
      "target" = some (replaceContentWithXMLContent (.elem "target" wa wch) newT) := by
    rw [getFirst_updateFirstElem el1 "target" _ (fun u => tagOf_replaceContent u newT), htgt]
    rfl
  have h2 : getFirstElementByTagName
      (updateFirstElem
        (updateFirstElem el1 "target" (fun t => replaceContentWithXMLContent t newT))
        "target" (fun t => setAttribute t "state" ns)) "target"
      = some (setAttribute (replaceContentWithXMLContent (.elem "target" wa wch) newT)
          "state" ns) := by
    rw [getFirst_updateFirstElem _ "target" _ (fun u => tagOf_setAttribute u "state" ns), h1]
    rfl
  constructor
  · unfold Xliff.targetContent
    rw [h2]
    simp [replaceContentWithXMLContent, setAttribute, getXMLContent, XNode.childrenOf,
      String.join]
  · unfold Xliff.nativeTargetState
    rw [h2]
    simp [replaceContentWithXMLContent, getAttribute_setAttribute]

/-- Full observable behavior of `XliffTransUnit.useSourceAsTarget` on any
unit whose first source element holds the text `s`. -/
theorem xliff_useSourceAsTarget_spec (cfg : FileConfig) (d c : Bool) (el : XNode)
    (sa : List (String × String)) (s : String)
    (h : getFirstElementByTagName el "source" = some (.elem "source" sa [.text s])) :
    ∃ el2, Xliff.useSourceAsTarget cfg d c el = some el2
      ∧ Xliff.targetContent el2 = some (synthesizedTarget cfg d c s)
      ∧ Xliff.nativeTargetState el2 = some (if d then "final" else "new")
      ∧ Xliff.targetState el2 = (if d then STATE_FINAL else STATE_NEW) := by
  have hstate : ∀ ns : String,
      Xliff.mapNativeStateToState (some (if d then "final" else "new")) =
        (if d then STATE_FINAL else STATE_NEW) := by
    intro _; cases d <;> rfl
  cases htgt : getFirstElementByTagName el "target" with
  | some w =>
      refine ⟨updateFirstElem
          (updateFirstElem el "target" (fun t => replaceContentWithXMLContent t
            (synthesizedTarget cfg d c s)))
          "target" (fun t => setAttribute t "state" (if d then "final" else "new")),
        ?_, ?_, ?_, ?_⟩
      · unfold Xliff.useSourceAsTarget
        rw [h]
        simp only [htgt, getXMLContent_single, xliff_mapState_if, synthesizedTarget]
      · exact (xliff_target_read el w _ _ htgt).1
      · exact (xliff_target_read el w _ _ htgt).2
      · unfold Xliff.targetState
        rw [(xliff_target_read el w _ _ htgt).2]
        exact hstate "x"
  | none =>
      obtain ⟨tgu, au, chu, rfl⟩ : ∃ tgu au chu, el = .elem tgu au chu := by
        cases el with
        | text s2 =>
            simp [getFirstElementByTagName, getElementsByTagName, XNode.childrenOf,
              elemsByTagList_nil] at h
        | elem tgu au chu => exact ⟨tgu, au, chu, rfl⟩
      have htgtnil : elemsByTagList chu "target" = [] := by
        have := htgt
        unfold getFirstElementByTagName getElementsByTagName at this
        simp only [XNode.childrenOf] at this
        exact List.head?_eq_none_iff.1 this
      have hsrcne : (elemsByTagList chu "source").isEmpty = false := by
        unfold getFirstElementByTagName getElementsByTagName at h
        simp only [XNode.childrenOf] at h
        cases hl : elemsByTagList chu "source" with
        | nil => rw [hl] at h; cases h
        | cons a r => rfl
      have hins : getFirstElementByTagName
          (insertAfterFirstElem (XNode.elem tgu au chu) "source" (.elem "target" [] []))
          "target" = some (.elem "target" [] []) := by
        unfold getFirstElementByTagName getElementsByTagName insertAfterFirstElem
        rw [insAfterIn]
        simp only [XNode.childrenOf]
        rw [insAfterL_elems chu "source" _ "target" htgtnil]
        rw [hsrcne]
        simp [elemsByTagIncl_elem, elemsByTagList_nil, elemsByTagList_cons]
      refine ⟨updateFirstElem
          (updateFirstElem (insertAfterFirstElem (XNode.elem tgu au chu) "source"
              (.elem "target" [] []))
            "target" (fun t => replaceContentWithXMLContent t
            (synthesizedTarget cfg d c s)))
          "target" (fun t => setAttribute t "state" (if d then "final" else "new")),
        ?_, ?_, ?_, ?_⟩
      · unfold Xliff.useSourceAsTarget
        rw [h]
        simp only [htgt, getXMLContent_single, xliff_mapState_if, synthesizedTarget]
      · exact (xliff_target_read _ _ _ _ hins).1
      · exact (xliff_target_read _ _ _ _ hins).2
      · unfold Xliff.targetState
        rw [(xliff_target_read _ _ _ _ hins).2]
        exact hstate "x"

/-- Observable behavior of `Xliff2TransUnit.useSourceAsTarget` on a
canonically shaped unit without a target: the target is created inside the
segment and the state token is stored on the segment. -/
theorem xliff2_useSourceAsTarget_specA (cfg : FileConfig) (d c : Bool)
    (ua sa soa : List (String × String)) (pre : List XNode) (s : String)
    (hp1 : elemsByTagList pre "segment" = [])
    (hp2 : elemsByTagList pre "source" = [])
    (hp3 : elemsByTagList pre "target" = []) :
    ∃ el2,
      Xliff2.useSourceAsTarget cfg d c
          (.elem "unit" ua
            (pre ++ [.elem "segment" sa [.elem "source" soa [.text s]]])) = some el2
        ∧ Xliff2.targetContent el2 = some (synthesizedTarget cfg d c s)
        ∧ Xliff2.nativeTargetState el2 = some (if d then "final" else "initial")
        ∧ Xliff2.targetState el2 = (if d then STATE_FINAL else STATE_NEW) := by
  set src := XNode.elem "source" soa [.text s] with hsrc
  set seg := XNode.elem "segment" sa [src] with hseg
  set el := XNode.elem "unit" ua (pre ++ [seg]) with hel
  set ns := (if d then "final" else "initial") with hns
  set newT := synthesizedTarget cfg d c s with hnewT
  set tgt := XNode.elem "target" [] ([] : List XNode) with htgtdef
  have hsrcq : getFirstElementByTagName el "source" = some src := by
    simp [hel, hseg, hsrc, getFirstElementByTagName, getElementsByTagName,
      XNode.childrenOf, elemsByTagList_append, hp2, elemsByTagList_cons,
      elemsByTagList_nil, elemsByTagIncl_elem, elemsByTagIncl_text]
  have htgtq : getFirstElementByTagName el "target" = none := by
    simp [hel, hseg, hsrc, getFirstElementByTagName, getElementsByTagName,
      XNode.childrenOf, elemsByTagList_append, hp3, elemsByTagList_cons,
      elemsByTagList_nil, elemsByTagIncl_elem, elemsByTagIncl_text]
  have hel1 : appendToParentOfFirst el "source" tgt
      = .elem "unit" ua (pre ++ [.elem "segment" sa [src, tgt]]) := by
    rw [hel, appendToParentOfFirst]
    rw [appParL_append_free pre [seg] "source" tgt hp2]
    rw [appParL]
    rw [if_neg (by rw [hseg, isTagElem_elem]; decide)]
    rw [if_pos (by
      rw [hseg, containsTag, elemsByTagIncl_elem]
      simp [hsrc, elemsByTagList_cons, elemsByTagList_nil, elemsByTagIncl_elem])]
    rw [hseg, appendToParentOfFirst]
    rw [show appParL [src] "source" tgt = some (true, [src]) by
      rw [appParL, if_pos (by rw [hsrc, isTagElem_elem]; decide)]]
    simp
  have hel2 : updateFirstElem (.elem "unit" ua (pre ++ [.elem "segment" sa [src, tgt]]))
      "target" (fun t => replaceContentWithXMLContent t newT)
      = .elem "unit" ua
          (pre ++ [.elem "segment" sa [src, .elem "target" [] [.text newT]]]) := by
    rw [updateFirstElem, updFirstIn]
    rw [updFirstL_append_free pre _ "target" _ hp3]
    rw [updFirstL]
    rw [if_neg (by rw [isTagElem_elem]; decide)]
    rw [if_pos (by
      rw [containsTag, elemsByTagIncl_elem]
      simp [hsrc, htgtdef, elemsByTagList_cons, elemsByTagList_nil, elemsByTagIncl_elem])]
    rw [updFirstIn]
    rw [updFirstL]
    rw [if_neg (by rw [hsrc, isTagElem_elem]; decide)]
    rw [if_neg (by
      rw [hsrc, containsTag, elemsByTagIncl_elem]
      simp [elemsByTagList_cons, elemsByTagList_nil, elemsByTagIncl_text])]
    rw [updFirstL]
    rw [if_pos (by rw [htgtdef, isTagElem_elem]; decide)]
    simp [htgtdef, replaceContentWithXMLContent]
  have hel3 : updateFirstElem
      (.elem "unit" ua (pre ++ [.elem "segment" sa [src, .elem "target" [] [.text newT]]]))
      "segment" (fun t => setAttribute t "state" ns)
      = .elem "unit" ua
          (pre ++ [.elem "segment" (updateAssoc sa "state" ns)
            [src, .elem "target" [] [.text newT]]]) := by
    rw [updateFirstElem, updFirstIn]
    rw [updFirstL_append_free pre _ "segment" _ hp1]
    rw [updFirstL]
    rw [if_pos (by rw [isTagElem_elem]; decide)]
    simp [setAttribute]
  refine ⟨.elem "unit" ua
      (pre ++ [.elem "segment" (updateAssoc sa "state" ns)
        [src, .elem "target" [] [.text newT]]]), ?_, ?_, ?_, ?_⟩
  · unfold Xliff2.useSourceAsTarget
    rw [hsrcq]
    simp only [htgtq]
    rw [show getXMLContent src = s from getXMLContent_single _ _ _]
    rw [xliff2_mapState_if d]
    simp only [← hns, ← hnewT]
    rw [show (if d || c then if isICUMessage s then s
          else cfg.targetPraefix ++ s ++ cfg.targetSuffix else "") = newT from rfl]
    rw [hel1, hel2, hel3]
  · unfold Xliff2.targetContent
    have : getFirstElementByTagName (XNode.elem "unit" ua
        (pre ++ [.elem "segment" (updateAssoc sa "state" ns)
          [src, .elem "target" [] [.text newT]]])) "target"
        = some (.elem "target" [] [.text newT]) := by
      simp [hsrc, getFirstElementByTagName, getElementsByTagName, XNode.childrenOf,
        elemsByTagList_append, hp3, elemsByTagList_cons, elemsByTagList_nil,
        elemsByTagIncl_elem, elemsByTagIncl_text]
    rw [this]
    simp [getXMLContent, XNode.childrenOf, String.join]
  · unfold Xliff2.nativeTargetState
    have : getFirstElementByTagName (XNode.elem "unit" ua
        (pre ++ [.elem "segment" (updateAssoc sa "state" ns)
          [src, .elem "target" [] [.text newT]]])) "segment"
        = some (.elem "segment" (updateAssoc sa "state" ns)
            [src, .elem "target" [] [.text newT]]) := by
      simp [hsrc, getFirstElementByTagName, getElementsByTagName, XNode.childrenOf,
        elemsByTagList_append, hp1, elemsByTagList_cons, elemsByTagList_nil,
        elemsByTagIncl_elem, elemsByTagIncl_text]
    rw [this]
    simp [getAttribute, getAttribute_updateAssoc_same]
  · unfold Xliff2.targetState
    have : Xliff2.nativeTargetState (XNode.elem "unit" ua
        (pre ++ [.elem "segment" (updateAssoc sa "state" ns)
          [src, .elem "target" [] [.text newT]]])) = some ns := by
      unfold Xliff2.nativeTargetState
      have h2 : getFirstElementByTagName (XNode.elem "unit" ua
          (pre ++ [.elem "segment" (updateAssoc sa "state" ns)
            [src, .elem "target" [] [.text newT]]])) "segment"
          = some (.elem "segment" (updateAssoc sa "state" ns)
              [src, .elem "target" [] [.text newT]]) := by
        simp [hsrc, getFirstElementByTagName, getElementsByTagName, XNode.childrenOf,
          elemsByTagList_append, hp1, elemsByTagList_cons, elemsByTagList_nil,
          elemsByTagIncl_elem, elemsByTagIncl_text]
      rw [h2]
      simp [getAttribute, getAttribute_updateAssoc_same]
    rw [this]
    cases d <;> rfl

/-- Observable behavior of `Xliff2TransUnit.useSourceAsTarget` on a
canonically shaped unit that already has a target element. -/
theorem xliff2_useSourceAsTarget_specB (cfg : FileConfig) (d c : Bool)
    (ua sa soa ta : List (String × String)) (pre : List XNode) (tch : List XNode)
    (s : String)
    (hp1 : elemsByTagList pre "segment" = [])
    (hp2 : elemsByTagList pre "source" = [])
    (hp3 : elemsByTagList pre "target" = []) :
    ∃ el2,
      Xliff2.useSourceAsTarget cfg d c
          (.elem "unit" ua
            (pre ++ [.elem "segment" sa
              [.elem "source" soa [.text s], .elem "target" ta tch]])) = some el2
        ∧ Xliff2.targetContent el2 = some (synthesizedTarget cfg d c s)
        ∧ Xliff2.nativeTargetState el2 = some (if d then "final" else "initial")
        ∧ Xliff2.targetState el2 = (if d then STATE_FINAL else STATE_NEW) := by
  set src := XNode.elem "source" soa [.text s] with hsrc
  set tgt0 := XNode.elem "target" ta tch with htgt0
  set seg := XNode.elem "segment" sa [src, tgt0] with hseg
  set el := XNode.elem "unit" ua (pre ++ [seg]) with hel
  set ns := (if d then "final" else "initial") with hns
  set newT := synthesizedTarget cfg d c s with hnewT
  have hsrcq : getFirstElementByTagName el "source" = some src := by
    simp [hel, hseg, hsrc, htgt0, getFirstElementByTagName, getElementsByTagName,
      XNode.childrenOf, elemsByTagList_append, hp2, elemsByTagList_cons,
      elemsByTagList_nil, elemsByTagIncl_elem, elemsByTagIncl_text]
  have htgtq : getFirstElementByTagName el "target" = some tgt0 := by
    simp [hel, hseg, hsrc, htgt0, getFirstElementByTagName, getElementsByTagName,
      XNode.childrenOf, elemsByTagList_append, hp3, elemsByTagList_cons,
      elemsByTagList_nil, elemsByTagIncl_elem, elemsByTagIncl_text]
  have hel2 : updateFirstElem el "target" (fun t => replaceContentWithXMLContent t newT)
      = .elem "unit" ua
          (pre ++ [.elem "segment" sa [src, .elem "target" ta [.text newT]]]) := by
    rw [hel, updateFirstElem, updFirstIn]
    rw [updFirstL_append_free pre _ "target" _ hp3]
    rw [updFirstL]
    rw [if_neg (by rw [hseg, isTagElem_elem]; decide)]
    rw [if_pos (by
      rw [hseg, containsTag, elemsByTagIncl_elem]
      simp [hsrc, htgt0, elemsByTagList_cons, elemsByTagList_nil, elemsByTagIncl_elem,
        elemsByTagIncl_text])]
    rw [hseg, updFirstIn, updFirstL]
    rw [if_neg (by rw [hsrc, isTagElem_elem]; decide)]
    rw [if_neg (by
      rw [hsrc, containsTag, elemsByTagIncl_elem]
      simp [elemsByTagList_cons, elemsByTagList_nil, elemsByTagIncl_text])]
    rw [updFirstL]
    rw [if_pos (by rw [htgt0, isTagElem_elem]; decide)]
    simp [htgt0, replaceContentWithXMLContent]
  have hel3 : updateFirstElem
      (.elem "unit" ua (pre ++ [.elem "segment" sa [src, .elem "target" ta [.text newT]]]))
      "segment" (fun t => setAttribute t "state" ns)
      = .elem "unit" ua
          (pre ++ [.elem "segment" (updateAssoc sa "state" ns)
            [src, .elem "target" ta [.text newT]]]) := by
    rw [updateFirstElem, updFirstIn]
    rw [updFirstL_append_free pre _ "segment" _ hp1]
    rw [updFirstL]
    rw [if_pos (by rw [isTagElem_elem]; decide)]
    simp [setAttribute]
  refine ⟨.elem "unit" ua
      (pre ++ [.elem "segment" (updateAssoc sa "state" ns)
        [src, .elem "target" ta [.text newT]]]), ?_, ?_, ?_, ?_⟩
  · unfold Xliff2.useSourceAsTarget
    rw [hsrcq]
    simp only [htgtq]
    rw [show getXMLContent src = s from getXMLContent_single _ _ _]
    rw [xliff2_mapState_if d]
    simp only [← hns, ← hnewT]
    rw [show (if d || c then if isICUMessage s then s
          else cfg.targetPraefix ++ s ++ cfg.targetSuffix else "") = newT from rfl]
    rw [hel2, hel3]
  · unfold Xliff2.targetContent
    have : getFirstElementByTagName (XNode.elem "unit" ua
        (pre ++ [.elem "segment" (updateAssoc sa "state" ns)
          [src, .elem "target" ta [.text newT]]])) "target"
        = some (.elem "target" ta [.text newT]) := by
      simp [hsrc, getFirstElementByTagName, getElementsByTagName, XNode.childrenOf,
        elemsByTagList_append, hp3, elemsByTagList_cons, elemsByTagList_nil,
        elemsByTagIncl_elem, elemsByTagIncl_text]
    rw [this]
    simp [getXMLContent, XNode.childrenOf, String.join]
  · unfold Xliff2.nativeTargetState
    have : getFirstElementByTagName (XNode.elem "unit" ua
        (pre ++ [.elem "segment" (updateAssoc sa "state" ns)
          [src, .elem "target" ta [.text newT]]])) "segment"
        = some (.elem "segment" (updateAssoc sa "state" ns)
            [src, .elem "target" ta [.text newT]]) := by
      simp [hsrc, getFirstElementByTagName, getElementsByTagName, XNode.childrenOf,
        elemsByTagList_append, hp1, elemsByTagList_cons, elemsByTagList_nil,
        elemsByTagIncl_elem, elemsByTagIncl_text]
    rw [this]
    simp [getAttribute, getAttribute_updateAssoc_same]
  · unfold Xliff2.targetState
    have hnat : Xliff2.nativeTargetState (XNode.elem "unit" ua
        (pre ++ [.elem "segment" (updateAssoc sa "state" ns)
          [src, .elem "target" ta [.text newT]]])) = some ns := by
      unfold Xliff2.nativeTargetState
      have h2 : getFirstElementByTagName (XNode.elem "unit" ua
          (pre ++ [.elem "segment" (updateAssoc sa "state" ns)
            [src, .elem "target" ta [.text newT]]])) "segment"
          = some (.elem "segment" (updateAssoc sa "state" ns)
              [src, .elem "target" ta [.text newT]]) := by
        simp [hsrc, getFirstElementByTagName, getElementsByTagName, XNode.childrenOf,
          elemsByTagList_append, hp1, elemsByTagList_cons, elemsByTagList_nil,
          elemsByTagIncl_elem, elemsByTagIncl_text]
      rw [h2]
      simp [getAttribute, getAttribute_updateAssoc_same]
    rw [hnat]
    cases d <;> rfl

/-- `useSourceAsTarget` always succeeds when a source element exists
(XLIFF 1.2). -/
theorem xliff_useSourceAsTarget_isSome (cfg : FileConfig) (d c : Bool) (el w : XNode)
    (h : getFirstElementByTagName el "source" = some w) :
    ∃ el2, Xliff.useSourceAsTarget cfg d c el = some el2 := by
  unfold Xliff.useSourceAsTarget
  rw [h]
  simp only [xliff_mapState_if]
  exact ⟨_, rfl⟩

/-- `useSourceAsTarget` always succeeds when a source element exists
(XLIFF 2.0). -/
theorem xliff2_useSourceAsTarget_isSome (cfg : FileConfig) (d c : Bool) (el w : XNode)
    (h : getFirstElementByTagName el "source" = some w) :
    ∃ el2, Xliff2.useSourceAsTarget cfg d c el = some el2 := by
  unfold Xliff2.useSourceAsTarget
  rw [h]
  simp only [xliff2_mapState_if]
  exact ⟨_, rfl⟩

/-- C2, counterexample to the claim as stated: for an ICU source with
`isDefaultLanguage = false` and `copyContent = false`, the target is set to
the empty string, not to the source verbatim. -/
theorem claim_C2_counterexample :
    isICUMessage fixtureIcuString = true
      ∧ (Xliff.useSourceAsTarget fixtureCfg false false fixtureIcuUnit).map
          Xliff.targetContent = some (some "")
      ∧ Xliff.sourceContent fixtureIcuUnit = some fixtureIcuString
      ∧ ("" : String) ≠ fixtureIcuString := by
  refine ⟨by decide, by rfl, by rfl, by decide⟩

/-- C2 (amended): when the source content is an ICU message AND
`isDefaultLanguage || copyContent` holds, `useSourceAsTarget` copies the
source verbatim with no prefix/suffix, in both dialects (XLIFF 2.0 stated
for canonically shaped units). -/
theorem claim_C2 :
    (∀ (cfg : FileConfig) (d c : Bool) (el : XNode) (sa : List (String × String))
        (s : String),
      getFirstElementByTagName el "source" = some (.elem "source" sa [.text s]) →
      isICUMessage s = true → (d || c) = true →
      ∃ el2, Xliff.useSourceAsTarget cfg d c el = some el2
        ∧ Xliff.targetContent el2 = some s)
    ∧ (∀ (cfg : FileConfig) (d c : Bool) (ua sa soa : List (String × String))
        (pre : List XNode) (s : String),
      elemsByTagList pre "segment" = [] → elemsByTagList pre "source" = [] →
      elemsByTagList pre "target" = [] →
      isICUMessage s = true → (d || c) = true →
      ∃ el2, Xliff2.useSourceAsTarget cfg d c
          (.elem "unit" ua (pre ++ [.elem "segment" sa [.elem "source" soa [.text s]]]))
          = some el2
        ∧ Xliff2.targetContent el2 = some s)
    ∧ (∀ (cfg : FileConfig) (d c : Bool) (ua sa soa ta : List (String × String))
        (pre tch : List XNode) (s : String),
      elemsByTagList pre "segment" = [] → elemsByTagList pre "source" = [] →
      elemsByTagList pre "target" = [] →
      isICUMessage s = true → (d || c) = true →
      ∃ el2, Xliff2.useSourceAsTarget cfg d c
          (.elem "unit" ua (pre ++ [.elem "segment" sa
            [.elem "source" soa [.text s], .elem "target" ta tch]]))
          = some el2
        ∧ Xliff2.targetContent el2 = some s) := by
  refine ⟨?_, ?_, ?_⟩
  · intro cfg d c el sa s h hicu hdc
    obtain ⟨el2, he, hc, -, -⟩ := xliff_useSourceAsTarget_spec cfg d c el sa s h
    refine ⟨el2, he, ?_⟩
    rw [hc]
    simp [synthesizedTarget, hicu, hdc]
  · intro cfg d c ua sa soa pre s hp1 hp2 hp3 hicu hdc
    obtain ⟨el2, he, hc, -, -⟩ :=
      xliff2_useSourceAsTarget_specA cfg d c ua sa soa pre s hp1 hp2 hp3
    refine ⟨el2, he, ?_⟩
    rw [hc]
    simp [synthesizedTarget, hicu, hdc]
  · intro cfg d c ua sa soa ta pre tch s hp1 hp2 hp3 hicu hdc
    obtain ⟨el2, he, hc, -, -⟩ :=
      xliff2_useSourceAsTarget_specB cfg d c ua sa soa ta pre tch s hp1 hp2 hp3
    refine ⟨el2, he, ?_⟩
    rw [hc]
    simp [synthesizedTarget, hicu, hdc]

/-- C2, witness: an ICU source is copied verbatim when `copyContent` is
requested. -/
theorem claim_C2_witness :
    ∃ el2, Xliff.useSourceAsTarget fixtureCfg false true fixtureIcuUnit = some el2
      ∧ Xliff.targetContent el2 = some fixtureIcuString :=
  claim_C2.1 fixtureCfg false true fixtureIcuUnit [] fixtureIcuString rfl
    (by decide) (by decide)

/-- C3: for a non-ICU source, `useSourceAsTarget` sets the target to
prefix + source + suffix when `isDefaultLanguage || copyContent`, and to
the empty string otherwise, and afterwards the stored state is FINAL when
`isDefaultLanguage` and NEW otherwise — in both dialects (XLIFF 2.0 stated
for canonically shaped units, with and without a pre-existing target). -/
theorem claim_C3 :
    (∀ (cfg : FileConfig) (d c : Bool) (el : XNode) (sa : List (String × String))
        (s : String),
      getFirstElementByTagName el "source" = some (.elem "source" sa [.text s]) →
      isICUMessage s = false →
      ∃ el2, Xliff.useSourceAsTarget cfg d c el = some el2
        ∧ Xliff.targetContent el2 =
            some (if d || c then cfg.targetPraefix ++ s ++ cfg.targetSuffix else "")
        ∧ Xliff.targetState el2 = (if d then STATE_FINAL else STATE_NEW))
    ∧ (∀ (cfg : FileConfig) (d c : Bool) (ua sa soa : List (String × String))
        (pre : List XNode) (s : String),
      elemsByTagList pre "segment" = [] → elemsByTagList pre "source" = [] →
      elemsByTagList pre "target" = [] →
      isICUMessage s = false →
      ∃ el2, Xliff2.useSourceAsTarget cfg d c
          (.elem "unit" ua (pre ++ [.elem "segment" sa [.elem "source" soa [.text s]]]))
          = some el2
        ∧ Xliff2.targetContent el2 =
            some (if d || c then cfg.targetPraefix ++ s ++ cfg.targetSuffix else "")
        ∧ Xliff2.targetState el2 = (if d then STATE_FINAL else STATE_NEW))
    ∧ (∀ (cfg : FileConfig) (d c : Bool) (ua sa soa ta : List (String × String))
        (pre tch : List XNode) (s : String),
      elemsByTagList pre "segment" = [] → elemsByTagList pre "source" = [] →
      elemsByTagList pre "target" = [] →
      isICUMessage s = false →
      ∃ el2, Xliff2.useSourceAsTarget cfg d c
          (.elem "unit" ua (pre ++ [.elem "segment" sa
            [.elem "source" soa [.text s], .elem "target" ta tch]]))
          = some el2
        ∧ Xliff2.targetContent el2 =
            some (if d || c then cfg.targetPraefix ++ s ++ cfg.targetSuffix else "")
        ∧ Xliff2.targetState el2 = (if d then STATE_FINAL else STATE_NEW)) := by
  refine ⟨?_, ?_, ?_⟩
  · intro cfg d c el sa s h hicu
    obtain ⟨el2, he, hc, -, hs⟩ := xliff_useSourceAsTarget_spec cfg d c el sa s h
    refine ⟨el2, he, ?_, hs⟩
    rw [hc]
    by_cases hdc : (d || c) = true
    · simp [synthesizedTarget, hicu, hdc]
    · simp only [Bool.not_eq_true] at hdc
      simp [synthesizedTarget, hdc]
  · intro cfg d c ua sa soa pre s hp1 hp2 hp3 hicu
    obtain ⟨el2, he, hc, -, hs⟩ :=
      xliff2_useSourceAsTarget_specA cfg d c ua sa soa pre s hp1 hp2 hp3
    refine ⟨el2, he, ?_, hs⟩
    rw [hc]
    by_cases hdc : (d || c) = true
    · simp [synthesizedTarget, hicu, hdc]
    · simp only [Bool.not_eq_true] at hdc
      simp [synthesizedTarget, hdc]
  · intro cfg d c ua sa soa ta pre tch s hp1 hp2 hp3 hicu
    obtain ⟨el2, he, hc, -, hs⟩ :=
      xliff2_useSourceAsTarget_specB cfg d c ua sa soa ta pre tch s hp1 hp2 hp3
    refine ⟨el2, he, ?_, hs⟩
    rw [hc]
    by_cases hdc : (d || c) = true
    · simp [synthesizedTarget, hicu, hdc]
    · simp only [Bool.not_eq_true] at hdc
      simp [synthesizedTarget, hdc]

/-- C3, witness: the spec's synthesis scenarios on source `Hello` with
prefix `[[ ` and suffix ` ]]`. -/
theorem claim_C3_witness :
    (∃ el2, Xliff.useSourceAsTarget fixtureCfg false true fixtureHelloUnit = some el2
      ∧ Xliff.targetContent el2 = some "[[ Hello ]]"
      ∧ Xliff.targetState el2 = STATE_NEW)
    ∧ (∃ el2, Xliff.useSourceAsTarget fixtureCfg true false fixtureHelloUnit = some el2
      ∧ Xliff.targetContent el2 = some "[[ Hello ]]"
      ∧ Xliff.targetState el2 = STATE_FINAL)
    ∧ (∃ el2, Xliff.useSourceAsTarget fixtureCfg false false fixtureHelloUnit = some el2
      ∧ Xliff.targetContent el2 = some ""
      ∧ Xliff.targetState el2 = STATE_NEW) := by
  refine ⟨?_, ?_, ?_⟩
  · exact claim_C3.1 fixtureCfg false true fixtureHelloUnit [] "Hello" rfl (by decide)
  · exact claim_C3.1 fixtureCfg true false fixtureHelloUnit [] "Hello" rfl (by decide)
  · exact claim_C3.1 fixtureCfg false false fixtureHelloUnit [] "Hello" rfl (by decide)

/-- C9: `cloneWithSourceAsTarget` returns the receiver unchanged together
with a clone that keeps the id and whose fragment is the (deep-copied)
receiver fragment with `useSourceAsTarget` applied, in both dialects. -/
theorem claim_C9 :
    (∀ (cfg : FileConfig) (d c : Bool) (u : TransUnitRec) (w : XNode),
      getFirstElementByTagName u.element "source" = some w →
      ∃ r, Xliff.cloneWithSourceAsTarget cfg d c u = some (u, r)
        ∧ r.id = u.id
        ∧ some r.element = Xliff.useSourceAsTarget cfg d c u.element)
    ∧ (∀ (cfg : FileConfig) (d c : Bool) (u : TransUnitRec) (w : XNode),
      getFirstElementByTagName u.element "source" = some w →
      ∃ r, Xliff2.cloneWithSourceAsTarget cfg d c u = some (u, r)
        ∧ r.id = u.id
        ∧ some r.element = Xliff2.useSourceAsTarget cfg d c u.element) := by
  constructor
  · intro cfg d c u w h
    obtain ⟨el2, he⟩ := xliff_useSourceAsTarget_isSome cfg d c u.element w h
    refine ⟨⟨el2, u.id⟩, ?_, rfl, ?_⟩
    · unfold Xliff.cloneWithSourceAsTarget
      rw [he]
      rfl
    · rw [he]
  · intro cfg d c u w h
    obtain ⟨el2, he⟩ := xliff2_useSourceAsTarget_isSome cfg d c u.element w h
    refine ⟨⟨el2, u.id⟩, ?_, rfl, ?_⟩
    · unfold Xliff2.cloneWithSourceAsTarget
      rw [he]
      rfl
    · rw [he]

/-- C9, witness: cloning a concrete unit leaves the receiver pair component
unchanged and the clone keeps the id. -/
theorem claim_C9_witness :
    ∃ r, Xliff.cloneWithSourceAsTarget fixtureCfg false true
          ⟨fixtureHelloUnit, "1"⟩ = some (⟨fixtureHelloUnit, "1"⟩, r)
      ∧ r.id = "1"
      ∧ some r.element =
          Xliff.useSourceAsTarget fixtureCfg false true fixtureHelloUnit :=
  claim_C9.1 fixtureCfg false true ⟨fixtureHelloUnit, "1"⟩
    (.elem "source" [] [.text "Hello"]) rfl

/-- Observable behavior of `XliffTransUnit.translateNative` on any unit with
a source: the target carries the given content and the state token
`translated`. -/
theorem xliff_translateNative_spec (el w : XNode) (tr : String)
    (h : getFirstElementByTagName el "source" = some w) :
    ∃ el2, Xliff.translateNative el tr = some el2
      ∧ Xliff.targetContent el2 = some tr
      ∧ Xliff.targetState el2 = STATE_TRANSLATED := by
  cases htgt : getFirstElementByTagName el "target" with
  | some w2 =>
      refine ⟨updateFirstElem
          (updateFirstElem el "target" (fun t => replaceContentWithXMLContent t tr))
          "target" (fun t => setAttribute t "state" "translated"), ?_, ?_, ?_⟩
      · unfold Xliff.translateNative
        rw [htgt]
        rfl
      · exact (xliff_target_read el w2 tr "translated" htgt).1
      · unfold Xliff.targetState
        rw [(xliff_target_read el w2 tr "translated" htgt).2]
        rfl
  | none =>
      obtain ⟨tgu, au, chu, rfl⟩ : ∃ tgu au chu, el = .elem tgu au chu := by
        cases el with
        | text s2 =>
            simp [getFirstElementByTagName, getElementsByTagName, XNode.childrenOf,
              elemsByTagList_nil] at h
        | elem tgu au chu => exact ⟨tgu, au, chu, rfl⟩
      have htgtnil : elemsByTagList chu "target" = [] := by
        have := htgt
        unfold getFirstElementByTagName getElementsByTagName at this
        simp only [XNode.childrenOf] at this
        exact List.head?_eq_none_iff.1 this
      have hsrcne : (elemsByTagList chu "source").isEmpty = false := by
        unfold getFirstElementByTagName getElementsByTagName at h
        simp only [XNode.childrenOf] at h
        cases hl : elemsByTagList chu "source" with
        | nil => rw [hl] at h; cases h
        | cons a r => rfl
      have hins : getFirstElementByTagName
          (insertAfterFirstElem (XNode.elem tgu au chu) "source" (.elem "target" [] []))
          "target" = some (.elem "target" [] []) := by
        unfold getFirstElementByTagName getElementsByTagName insertAfterFirstElem
        rw [insAfterIn]
        simp only [XNode.childrenOf]
        rw [insAfterL_elems chu "source" _ "target" htgtnil]
        rw [hsrcne]
        simp [elemsByTagIncl_elem, elemsByTagList_nil, elemsByTagList_cons]
      refine ⟨updateFirstElem
          (updateFirstElem (insertAfterFirstElem (XNode.elem tgu au chu) "source"
              (.elem "target" [] []))
            "target" (fun t => replaceContentWithXMLContent t tr))
          "target" (fun t => setAttribute t "state" "translated"), ?_, ?_, ?_⟩
      · unfold Xliff.translateNative
        rw [htgt, h]
        rfl
      · exact (xliff_target_read _ _ tr "translated" hins).1
      · unfold Xliff.targetState
        rw [(xliff_target_read _ _ tr "translated" hins).2]
        rfl

/-- `Xliff2TransUnit.translateNative` on a canonically shaped unit without a
target. -/
theorem xliff2_translateNative_specA (ua sa soa : List (String × String))
    (pre : List XNode) (s tr : String)
    (hp1 : elemsByTagList pre "segment" = [])
    (hp2 : elemsByTagList pre "source" = [])
    (hp3 : elemsByTagList pre "target" = []) :
    ∃ el2, Xliff2.translateNative
        (.elem "unit" ua (pre ++ [.elem "segment" sa [.elem "source" soa [.text s]]])) tr
        = some el2
      ∧ Xliff2.targetContent el2 = some tr
      ∧ Xliff2.targetState el2 = STATE_TRANSLATED := by
  set src := XNode.elem "source" soa [.text s] with hsrc
  set seg := XNode.elem "segment" sa [src] with hseg
  set el := XNode.elem "unit" ua (pre ++ [seg]) with hel
  set tgt := XNode.elem "target" [] ([] : List XNode) with htgtdef
  have hsrcq : getFirstElementByTagName el "source" = some src := by
    simp [hel, hseg, hsrc, getFirstElementByTagName, getElementsByTagName,
      XNode.childrenOf, elemsByTagList_append, hp2, elemsByTagList_cons,
      elemsByTagList_nil, elemsByTagIncl_elem, elemsByTagIncl_text]
  have htgtq : getFirstElementByTagName el "target" = none := by
    simp [hel, hseg, hsrc, getFirstElementByTagName, getElementsByTagName,
      XNode.childrenOf, elemsByTagList_append, hp3, elemsByTagList_cons,
      elemsByTagList_nil, elemsByTagIncl_elem, elemsByTagIncl_text]
  have hel1 : appendToParentOfFirst el "source" tgt
      = .elem "unit" ua (pre ++ [.elem "segment" sa [src, tgt]]) := by
    rw [hel, appendToParentOfFirst]
    rw [appParL_append_free pre [seg] "source" tgt hp2]
    rw [appParL]
    rw [if_neg (by rw [hseg, isTagElem_elem]; decide)]
    rw [if_pos (by
      rw [hseg, containsTag, elemsByTagIncl_elem]
      simp [hsrc, elemsByTagList_cons, elemsByTagList_nil, elemsByTagIncl_elem])]
    rw [hseg, appendToParentOfFirst]
    rw [show appParL [src] "source" tgt = some (true, [src]) by
      rw [appParL, if_pos (by rw [hsrc, isTagElem_elem]; decide)]]
    simp
  have hel2 : updateFirstElem (.elem "unit" ua (pre ++ [.elem "segment" sa [src, tgt]]))
      "target" (fun t => replaceContentWithXMLContent t tr)
      = .elem "unit" ua
          (pre ++ [.elem "segment" sa [src, .elem "target" [] [.text tr]]]) := by
    rw [updateFirstElem, updFirstIn]
    rw [updFirstL_append_free pre _ "target" _ hp3]
    rw [updFirstL]
    rw [if_neg (by rw [isTagElem_elem]; decide)]
    rw [if_pos (by
      rw [containsTag, elemsByTagIncl_elem]
      simp [hsrc, htgtdef, elemsByTagList_cons, elemsByTagList_nil, elemsByTagIncl_elem])]
    rw [updFirstIn]
    rw [updFirstL]
    rw [if_neg (by rw [hsrc, isTagElem_elem]; decide)]
    rw [if_neg (by
      rw [hsrc, containsTag, elemsByTagIncl_elem]
      simp [elemsByTagList_cons, elemsByTagList_nil, elemsByTagIncl_text])]
    rw [updFirstL]
    rw [if_pos (by rw [htgtdef, isTagElem_elem]; decide)]
    simp [htgtdef, replaceContentWithXMLContent]
  have hel3 : updateFirstElem
      (.elem "unit" ua (pre ++ [.elem "segment" sa [src, .elem "target" [] [.text tr]]]))
      "segment" (fun t => setAttribute t "state" "translated")
      = .elem "unit" ua
          (pre ++ [.elem "segment" (updateAssoc sa "state" "translated")
            [src, .elem "target" [] [.text tr]]]) := by
    rw [updateFirstElem, updFirstIn]
    rw [updFirstL_append_free pre _ "segment" _ hp1]
    rw [updFirstL]
    rw [if_pos (by rw [isTagElem_elem]; decide)]
    simp [setAttribute]
  refine ⟨.elem "unit" ua
      (pre ++ [.elem "segment" (updateAssoc sa "state" "translated")
        [src, .elem "target" [] [.text tr]]]), ?_, ?_, ?_⟩
  · unfold Xliff2.translateNative
    rw [htgtq, hsrcq]
    simp only [Option.some_bind]
    rw [hel1, hel2]
    unfold Xliff2.setTargetState
    rw [show Xliff2.mapStateToNativeState STATE_TRANSLATED = .ok "translated" from rfl]
    unfold Xliff2.setNativeTargetState
    exact congrArg some hel3
  · unfold Xliff2.targetContent
    have : getFirstElementByTagName (XNode.elem "unit" ua
        (pre ++ [.elem "segment" (updateAssoc sa "state" "translated")
          [src, .elem "target" [] [.text tr]]])) "target"
        = some (.elem "target" [] [.text tr]) := by
      simp [hsrc, getFirstElementByTagName, getElementsByTagName, XNode.childrenOf,
        elemsByTagList_append, hp3, elemsByTagList_cons, elemsByTagList_nil,
        elemsByTagIncl_elem, elemsByTagIncl_text]
    rw [this]
    simp [getXMLContent, XNode.childrenOf, String.join]
  · unfold Xliff2.targetState
    have hnat : Xliff2.nativeTargetState (XNode.elem "unit" ua
        (pre ++ [.elem "segment" (updateAssoc sa "state" "translated")
          [src, .elem "target" [] [.text tr]]])) = some "translated" := by
      unfold Xliff2.nativeTargetState
      have h2 : getFirstElementByTagName (XNode.elem "unit" ua
          (pre ++ [.elem "segment" (updateAssoc sa "state" "translated")
            [src, .elem "target" [] [.text tr]]])) "segment"
          = some (.elem "segment" (updateAssoc sa "state" "translated")
              [src, .elem "target" [] [.text tr]]) := by
        simp [hsrc, getFirstElementByTagName, getElementsByTagName, XNode.childrenOf,
          elemsByTagList_append, hp1, elemsByTagList_cons, elemsByTagList_nil,
          elemsByTagIncl_elem, elemsByTagIncl_text]
      rw [h2]
      simp [getAttribute, getAttribute_updateAssoc_same]
    rw [hnat]
    rfl

/-- `Xliff2TransUnit.translateNative` on a canonically shaped unit with a
pre-existing target. -/
theorem xliff2_translateNative_specB (ua sa soa ta : List (String × String))
    (pre tch : List XNode) (s tr : String)
    (hp1 : elemsByTagList pre "segment" = [])
    (hp2 : elemsByTagList pre "source" = [])
    (hp3 : elemsByTagList pre "target" = []) :
    ∃ el2, Xliff2.translateNative
        (.elem "unit" ua (pre ++ [.elem "segment" sa
          [.elem "source" soa [.text s], .elem "target" ta tch]])) tr
        = some el2
      ∧ Xliff2.targetContent el2 = some tr
      ∧ Xliff2.targetState el2 = STATE_TRANSLATED := by
  set src := XNode.elem "source" soa [.text s] with hsrc
  set tgt0 := XNode.elem "target" ta tch with htgt0
  set seg := XNode.elem "segment" sa [src, tgt0] with hseg
  set el := XNode.elem "unit" ua (pre ++ [seg]) with hel
  have htgtq : getFirstElementByTagName el "target" = some tgt0 := by
    simp [hel, hseg, hsrc, htgt0, getFirstElementByTagName, getElementsByTagName,
      XNode.childrenOf, elemsByTagList_append, hp3, elemsByTagList_cons,
      elemsByTagList_nil, elemsByTagIncl_elem, elemsByTagIncl_text]
  have hel2 : updateFirstElem el "target" (fun t => replaceContentWithXMLContent t tr)
      = .elem "unit" ua
          (pre ++ [.elem "segment" sa [src, .elem "target" ta [.text tr]]]) := by
    rw [hel, updateFirstElem, updFirstIn]
    rw [updFirstL_append_free pre _ "target" _ hp3]
    rw [updFirstL]
    rw [if_neg (by rw [hseg, isTagElem_elem]; decide)]
    rw [if_pos (by
      rw [hseg, containsTag, elemsByTagIncl_elem]
      simp [hsrc, htgt0, elemsByTagList_cons, elemsByTagList_nil, elemsByTagIncl_elem,
        elemsByTagIncl_text])]
    rw [hseg, updFirstIn, updFirstL]
    rw [if_neg (by rw [hsrc, isTagElem_elem]; decide)]
    rw [if_neg (by
      rw [hsrc, containsTag, elemsByTagIncl_elem]
      simp [elemsByTagList_cons, elemsByTagList_nil, elemsByTagIncl_text])]
    rw [updFirstL]
    rw [if_pos (by rw [htgt0, isTagElem_elem]; decide)]
    simp [htgt0, replaceContentWithXMLContent]
  have hel3 : updateFirstElem
      (.elem "unit" ua (pre ++ [.elem "segment" sa [src, .elem "target" ta [.text tr]]]))
      "segment" (fun t => setAttribute t "state" "translated")
      = .elem "unit" ua
          (pre ++ [.elem "segment" (updateAssoc sa "state" "translated")
            [src, .elem "target" ta [.text tr]]]) := by
    rw [updateFirstElem, updFirstIn]
    rw [updFirstL_append_free pre _ "segment" _ hp1]
    rw [updFirstL]
    rw [if_pos (by rw [isTagElem_elem]; decide)]
    simp [setAttribute]
  refine ⟨.elem "unit" ua
      (pre ++ [.elem "segment" (updateAssoc sa "state" "translated")
        [src, .elem "target" ta [.text tr]]]), ?_, ?_, ?_⟩
  · unfold Xliff2.translateNative
    rw [htgtq]
    simp only [Option.some_bind]
    rw [hel2]
    unfold Xliff2.setTargetState
    rw [show Xliff2.mapStateToNativeState STATE_TRANSLATED = .ok "translated" from rfl]
    unfold Xliff2.setNativeTargetState
    exact congrArg some hel3
  · unfold Xliff2.targetContent
    have : getFirstElementByTagName (XNode.elem "unit" ua
        (pre ++ [.elem "segment" (updateAssoc sa "state" "translated")
          [src, .elem "target" ta [.text tr]]])) "target"
        = some (.elem "target" ta [.text tr]) := by
      simp [hsrc, getFirstElementByTagName, getElementsByTagName, XNode.childrenOf,
        elemsByTagList_append, hp3, elemsByTagList_cons, elemsByTagList_nil,
        elemsByTagIncl_elem, elemsByTagIncl_text]
    rw [this]
    simp [getXMLContent, XNode.childrenOf, String.join]
  · unfold Xliff2.targetState
    have hnat : Xliff2.nativeTargetState (XNode.elem "unit" ua
        (pre ++ [.elem "segment" (updateAssoc sa "state" "translated")
          [src, .elem "target" ta [.text tr]]])) = some "translated" := by
      unfold Xliff2.nativeTargetState
      have h2 : getFirstElementByTagName (XNode.elem "unit" ua
          (pre ++ [.elem "segment" (updateAssoc sa "state" "translated")
            [src, .elem "target" ta [.text tr]]])) "segment"
          = some (.elem "segment" (updateAssoc sa "state" "translated")
              [src, .elem "target" ta [.text tr]]) := by
        simp [hsrc, getFirstElementByTagName, getElementsByTagName, XNode.childrenOf,
          elemsByTagList_append, hp1, elemsByTagList_cons, elemsByTagList_nil,
          elemsByTagIncl_elem, elemsByTagIncl_text]
      rw [h2]
      simp [getAttribute, getAttribute_updateAssoc_same]
    rw [hnat]
    rfl

/-- C8, counterexample to the claim as stated: on an XLIFF 2.0 unit without
a segment wrapper, `translateNative` writes the target but creates no
segment, and the stored state afterwards reads NEW, not TRANSLATED. -/
theorem claim_C8_counterexample :
    (Xliff2.translateNative fixtureUnit2NoSegment "Hallo").map
        (fun e => (Xliff2.targetContent e, Xliff2.targetState e,
          (getElementsByTagName e "segment").length))
      = some (some "Hallo", STATE_NEW, 0)
      ∧ STATE_NEW ≠ STATE_TRANSLATED := by
  refine ⟨by rfl, by decide⟩

/-- C8 (amended): `translate` writes the given content as the target
element's content, creating the target element if absent, and afterwards
the stored state is TRANSLATED — for every XLIFF 1.2 unit with a source,
and for canonically shaped XLIFF 2.0 units whose dialect-required segment
wrapper is present (the code never creates an absent segment). -/
theorem claim_C8 :
    (∀ (el w : XNode) (tr : String),
      getFirstElementByTagName el "source" = some w →
      ∃ el2, Xliff.translateNative el tr = some el2
        ∧ Xliff.targetContent el2 = some tr
        ∧ Xliff.targetState el2 = STATE_TRANSLATED)
    ∧ (∀ (ua sa soa : List (String × String)) (pre : List XNode) (s tr : String),
      elemsByTagList pre "segment" = [] → elemsByTagList pre "source" = [] →
      elemsByTagList pre "target" = [] →
      ∃ el2, Xliff2.translateNative
          (.elem "unit" ua (pre ++ [.elem "segment" sa [.elem "source" soa [.text s]]])) tr
          = some el2
        ∧ Xliff2.targetContent el2 = some tr
        ∧ Xliff2.targetState el2 = STATE_TRANSLATED)
    ∧ (∀ (ua sa soa ta : List (String × String)) (pre tch : List XNode) (s tr : String),
      elemsByTagList pre "segment" = [] → elemsByTagList pre "source" = [] →
      elemsByTagList pre "target" = [] →
      ∃ el2, Xliff2.translateNative
          (.elem "unit" ua (pre ++ [.elem "segment" sa
            [.elem "source" soa [.text s], .elem "target" ta tch]])) tr
          = some el2
        ∧ Xliff2.targetContent el2 = some tr
        ∧ Xliff2.targetState el2 = STATE_TRANSLATED) := by
  refine ⟨?_, ?_, ?_⟩
  · intro el w tr h
    exact xliff_translateNative_spec el w tr h
  · intro ua sa soa pre s tr hp1 hp2 hp3
    exact xliff2_translateNative_specA ua sa soa pre s tr hp1 hp2 hp3
  · intro ua sa soa ta pre tch s tr hp1 hp2 hp3
    exact xliff2_translateNative_specB ua sa soa ta pre tch s tr hp1 hp2 hp3

/-- C8, witness: translating a concrete unit in each dialect. -/
theorem claim_C8_witness :
    (∃ el2, Xliff.translateNative fixtureHelloUnit "Hallo" = some el2
      ∧ Xliff.targetContent el2 = some "Hallo"
      ∧ Xliff.targetState el2 = STATE_TRANSLATED)
    ∧ (∃ el2, Xliff2.translateNative fixtureUnit2 "Hallo" = some el2
      ∧ Xliff2.targetContent el2 = some "Hallo"
      ∧ Xliff2.targetState el2 = STATE_TRANSLATED) := by
  constructor
  · exact claim_C8.1 fixtureHelloUnit (.elem "source" [] [.text "Hello"]) "Hallo" rfl
  · exact claim_C8.2.1 [("id", "1")] [] [] [] "Hello" "Hallo" rfl rfl rfl

/-! ### Note machinery -/

mutual
/-- Rewriting the first match with the identity changes nothing. -/
theorem updFirstIn_id (n : XNode) (t : String) :
    updFirstIn n t (fun w => w) = n := by
  cases n with
  | text s => rfl
  | elem tg a ch => rw [updFirstIn, updFirstL_id ch t]

/-- Forest version of `updFirstIn_id`. -/
theorem updFirstL_id (l : List XNode) (t : String) :
    updFirstL l t (fun w => w) = l := by
  cases l with
  | nil => rfl
  | cons c cs =>
      rw [updFirstL]
      by_cases h1 : c.isTagElem t
      · rw [if_pos h1]
      · by_cases h2 : containsTag c t
        · rw [if_neg h1, if_pos h2, updFirstIn_id c t]
        · rw [if_neg h1, if_neg h2, updFirstL_id cs t]
end

/-- A tag-preserving rewrite keeps `containsTag`. -/
theorem containsTag_updFirstIn (n : XNode) (t : String) (f : XNode → XNode)
    (hf : ∀ w, (f w).tagOf = w.tagOf) (hn : n.isTagElem t = false) :
    containsTag (updFirstIn n t f) t = containsTag n t := by
  have h := updFirstIn_head n t f hf hn
  unfold containsTag
  cases h1 : elemsByTagIncl n t with
  | nil =>
      rw [h1] at h
      simp only [List.head?_nil, Option.map_none] at h
      cases h2 : elemsByTagIncl (updFirstIn n t f) t with
      | nil => rfl
      | cons a r => rw [h2] at h; simp at h
  | cons a r =>
      rw [h1] at h
      simp only [List.head?_cons, Option.map_some] at h
      cases h2 : elemsByTagIncl (updFirstIn n t f) t with
      | nil => rw [h2] at h; simp at h
      | cons b r2 => rfl

mutual
/-- Two successive first-match rewrites compose. -/
theorem updFirstIn_comp (n : XNode) (t : String) (f g : XNode → XNode)
    (hf : ∀ w, (f w).tagOf = w.tagOf) :
    updFirstIn (updFirstIn n t f) t g = updFirstIn n t (fun w => g (f w)) := by
  cases n with
  | text s => rfl
  | elem tg a ch =>
      rw [updFirstIn, updFirstIn, updFirstIn, updFirstL_comp ch t f g hf]

/-- Forest version of `updFirstIn_comp`. -/
theorem updFirstL_comp (l : List XNode) (t : String) (f g : XNode → XNode)
    (hf : ∀ w, (f w).tagOf = w.tagOf) :
    updFirstL (updFirstL l t f) t g = updFirstL l t (fun w => g (f w)) := by
  cases l with
  | nil => rfl
  | cons c cs =>
      by_cases h1 : c.isTagElem t
      · have hfc : (f c).isTagElem t = true := by
          unfold XNode.isTagElem at h1 ⊢
          rw [hf c]
          exact h1
        rw [updFirstL, if_pos h1, updFirstL, if_pos hfc, updFirstL, if_pos h1]
      · by_cases h2 : containsTag c t
        · have hu1 : (updFirstIn c t f).isTagElem t = false := by
            unfold XNode.isTagElem at h1 ⊢
            have : (updFirstIn c t f).tagOf = c.tagOf := by
              cases c <;> rfl
            rw [this]
            simpa using h1
          have hu2 : containsTag (updFirstIn c t f) t = true := by
            rw [containsTag_updFirstIn c t f hf (by simpa using h1)]
            exact h2
          rw [updFirstL, if_neg h1, if_pos h2, updFirstL, if_neg (by simp [hu1]), if_pos hu2,
            updFirstL, if_neg h1, if_pos h2,
            updFirstIn_comp c t f g hf]
        · rw [updFirstL, if_neg h1, if_neg h2, updFirstL, if_neg h1, if_neg h2,
            updFirstL, if_neg h1, if_neg h2, updFirstL_comp cs t f g hf]
end

mutual
/-- Removing every element matched by `p` leaves no `t2`-element accepted by
`q`, provided `q`-accepted `t2`-elements are always removed and `q` ignores
children. -/
theorem remAll_filter_nil_incl (n : XNode) (p q : XNode → Bool) (t2 : String)
    (hq : ∀ tg a ch1 ch2, q (.elem tg a ch1) = q (.elem tg a ch2))
    (himp : ∀ m, m.isTagElem t2 = true → q m = true → p m = true)
    (hpn : p n = false) :
    (elemsByTagIncl (remAllN n p) t2).filter q = [] := by
  cases n with
  | text s => rw [remAllN, elemsByTagIncl_text]; rfl
  | elem tg a ch =>
      rw [remAllN, elemsByTagIncl_elem, List.filter_append,
        remAll_filter_nil_list ch p q t2 hq himp, List.append_nil]
      by_cases htg : tg = t2
      · rw [if_pos htg]
        have hq1 : q (XNode.elem tg a (remAllL ch p)) = q (XNode.elem tg a ch) := hq _ _ _ _
        have hq2 : q (XNode.elem tg a ch) = false := by
          by_cases hb : q (XNode.elem tg a ch) = true
          · have := himp (XNode.elem tg a ch) (by simp [isTagElem_elem, htg]) hb
            rw [this] at hpn; cases hpn
          · simpa using hb
        simp [hq1, hq2]
      · rw [if_neg htg]
        rfl

/-- Forest version of `remAll_filter_nil_incl`. -/
theorem remAll_filter_nil_list (l : List XNode) (p q : XNode → Bool) (t2 : String)
    (hq : ∀ tg a ch1 ch2, q (.elem tg a ch1) = q (.elem tg a ch2))
    (himp : ∀ m, m.isTagElem t2 = true → q m = true → p m = true) :
    (elemsByTagList (remAllL l p) t2).filter q = [] := by
  cases l with
  | nil => rfl
  | cons c cs =>
      rw [remAllL]
      by_cases hp : p c
      · rw [if_pos hp]
        simpa using remAll_filter_nil_list cs p q t2 hq himp
      · rw [if_neg hp]
        rw [List.singleton_append, elemsByTagList_cons, List.filter_append,
          remAll_filter_nil_incl c p q t2 hq himp (by simpa using hp),
          remAll_filter_nil_list cs p q t2 hq himp]
        rfl
end

mutual
/-- Removing the first `t`-element preserves emptiness of a `q`-filtered
`t2`-query (for `q` ignoring children). -/
theorem remFirst_filter_nil_incl (n : XNode) (t t2 : String) (q : XNode → Bool)
    (hq : ∀ tg a ch1 ch2, q (.elem tg a ch1) = q (.elem tg a ch2))
    (h : (elemsByTagIncl n t2).filter q = []) :
    (elemsByTagIncl (remFirstIn n t) t2).filter q = [] := by
  cases n with
  | text s => rw [remFirstIn]; exact h
  | elem tg a ch =>
      rw [elemsByTagIncl_elem, List.filter_append, List.append_eq_nil] at h
      rw [remFirstIn, elemsByTagIncl_elem, List.filter_append,
        remFirst_filter_nil_list ch t t2 q hq h.2, List.append_nil]
      by_cases htg : tg = t2
      · rw [if_pos htg]
        have hq1 : q (XNode.elem tg a (remFirstL ch t)) = q (XNode.elem tg a ch) := hq _ _ _ _
        have hq2 : q (XNode.elem tg a ch) = false := by
          have := h.1
          rw [if_pos htg] at this
          by_cases hb : q (XNode.elem tg a ch) = true
          · rw [List.filter_singleton, hb] at this; simp at this
          · simpa using hb
        simp [hq1, hq2]
      · rw [if_neg htg]; rfl

/-- Forest version of `remFirst_filter_nil_incl`. -/
theorem remFirst_filter_nil_list (l : List XNode) (t t2 : String) (q : XNode → Bool)
    (hq : ∀ tg a ch1 ch2, q (.elem tg a ch1) = q (.elem tg a ch2))
    (h : (elemsByTagList l t2).filter q = []) :
    (elemsByTagList (remFirstL l t) t2).filter q = [] := by
  cases l with
  | nil => rfl
  | cons c cs =>
      rw [elemsByTagList_cons, List.filter_append, List.append_eq_nil] at h
      rw [remFirstL]
      by_cases h1 : c.isTagElem t
      · rw [if_pos h1]
        exact h.2
      · by_cases h2 : containsTag c t
        · rw [if_neg h1, if_pos h2, elemsByTagList_cons, List.filter_append,
            remFirst_filter_nil_incl c t t2 q hq h.1, h.2]
          rfl
        · rw [if_neg h1, if_neg h2, elemsByTagList_cons, List.filter_append, h.1,
            remFirst_filter_nil_list cs t t2 q hq h.2]
          rfl
end

mutual
/-- Rewriting the first `t`-element with a rewrite that appends exactly the
`q`-accepted `t2`-elements `NEW` yields `NEW` as the whole `q`-filtered
query, starting from a `q`-empty tree. -/
theorem updFirst_filter_new_incl (n : XNode) (t t2 : String) (f : XNode → XNode)
    (q : XNode → Bool) (NEW : List XNode)
    (hq : ∀ tg a ch1 ch2, q (.elem tg a ch1) = q (.elem tg a ch2))
    (hf : ∀ w, w.isTagElem t = true → (f w).tagOf = w.tagOf ∧
        (elemsByTagIncl (f w) t2).filter q = (elemsByTagIncl w t2).filter q ++ NEW)
    (hn : n.isTagElem t = false)
    (hq0 : (elemsByTagIncl n t2).filter q = []) :
    (elemsByTagIncl (updFirstIn n t f) t2).filter q =
      if containsTag n t then NEW else [] := by
  cases n with
  | text s =>
      rw [updFirstIn, elemsByTagIncl_text]
      rw [show containsTag (XNode.text s) t = false by
        rw [containsTag_false_iff]; exact elemsByTagIncl_text s t]
      rfl
  | elem tg a ch =>
      rw [elemsByTagIncl_elem, List.filter_append, List.append_eq_nil] at hq0
      have htgne : tg ≠ t := by
        intro hh
        rw [isTagElem_elem] at hn
        simp [hh] at hn
      have hcont : containsTag (XNode.elem tg a ch) t
          = !(elemsByTagList ch t).isEmpty := by
        unfold containsTag
        rw [elemsByTagIncl_of_ne htgne]
      rw [updFirstIn, elemsByTagIncl_elem, List.filter_append,
        updFirst_filter_new_list ch t t2 f q NEW hq hf hq0.2, hcont]
      by_cases htg2 : tg = t2
      · rw [if_pos htg2]
        have hself := hq0.1
        rw [if_pos htg2] at hself
        have hq2 : q (XNode.elem tg a ch) = false := by
          by_cases hb : q (XNode.elem tg a ch) = true
          · rw [List.filter_singleton, hb] at hself; simp at hself
          · simpa using hb
        have hq1 : q (XNode.elem tg a (updFirstL ch t f)) = q (XNode.elem tg a ch) :=
          hq _ _ _ _
        rw [List.filter_singleton, hq1, hq2]
        rfl
      · rw [if_neg htg2]
        rfl

/-- Forest version of `updFirst_filter_new_incl`. -/
theorem updFirst_filter_new_list (l : List XNode) (t t2 : String) (f : XNode → XNode)
    (q : XNode → Bool) (NEW : List XNode)
    (hq : ∀ tg a ch1 ch2, q (.elem tg a ch1) = q (.elem tg a ch2))
    (hf : ∀ w, w.isTagElem t = true → (f w).tagOf = w.tagOf ∧
        (elemsByTagIncl (f w) t2).filter q = (elemsByTagIncl w t2).filter q ++ NEW)
    (hq0 : (elemsByTagList l t2).filter q = []) :
    (elemsByTagList (updFirstL l t f) t2).filter q =
      if !(elemsByTagList l t).isEmpty then NEW else [] := by
  cases l with
  | nil =>
      rw [updFirstL, elemsByTagList_nil, elemsByTagList_nil]
      rfl
  | cons c cs =>
      rw [elemsByTagList_cons, List.filter_append, List.append_eq_nil] at hq0
      rw [updFirstL]
      by_cases h1 : c.isTagElem t
      · rw [if_pos h1, elemsByTagList_cons, List.filter_append,
          (hf c h1).2, hq0.1, hq0.2]
        obtain ⟨r1, hr1⟩ := elemsByTagIncl_cons_of_tag (tagOf_of_isTagElem h1)
        rw [elemsByTagList_cons, hr1]
        simp
      · by_cases h2 : containsTag c t
        · rw [if_neg h1, if_pos h2, elemsByTagList_cons, List.filter_append,
            updFirst_filter_new_incl c t t2 f q NEW hq hf (by simpa using h1) hq0.1,
            if_pos h2, hq0.2]
          have hcne : elemsByTagIncl c t ≠ [] := (containsTag_true_iff c t).1 h2
          rw [elemsByTagList_cons]
          have : (!(elemsByTagIncl c t ++ elemsByTagList cs t).isEmpty) = true := by
            simp only [Bool.not_eq_true']
            rw [List.isEmpty_eq_false]
            intro hh
            exact hcne (List.append_eq_nil.1 hh).1
          rw [if_pos this]
          simp
        · rw [if_neg h1, if_neg h2, elemsByTagList_cons, List.filter_append, hq0.1,
            updFirst_filter_new_list cs t t2 f q NEW hq hf hq0.2]
          have hcnil : elemsByTagIncl c t = [] :=
            (containsTag_false_iff c t).1 (by simpa using h2)
          rw [elemsByTagList_cons, hcnil]
          simp
end

/-- Folding `appendChildTop` over the supplied notes (XLIFF 1.2 insertion
loop). -/
theorem foldl_appendChildTop_notes (tg : String) (a : List (String × String))
    (L : List XNode) (ns : List (String × String)) :
    ns.foldl (fun e n => appendChildTop e (Xliff.mkNoteElem n.1 n.2)) (.elem tg a L)
      = .elem tg a (L ++ ns.map (fun n => Xliff.mkNoteElem n.1 n.2)) := by
  induction ns generalizing L with
  | nil => simp [List.foldl]
  | cons n rest ih =>
      rw [List.foldl_cons, List.map_cons]
      rw [show appendChildTop (XNode.elem tg a L) (Xliff.mkNoteElem n.1 n.2)
        = .elem tg a (L ++ [Xliff.mkNoteElem n.1 n.2]) from rfl]
      rw [ih]
      simp

/-- The note element created by the XLIFF 1.2 insertion has itself as its
only `note` descendant. -/
theorem elemsIncl_mkNoteElem (f t : String) :
    elemsByTagIncl (Xliff.mkNoteElem f t) "note" = [Xliff.mkNoteElem f t] := by
  unfold Xliff.mkNoteElem
  by_cases ht : t ≠ ""
  · rw [if_pos ht]
    simp [elemsByTagIncl_elem, elemsByTagList_cons, elemsByTagList_nil, elemsByTagIncl_text]
  · rw [if_neg ht]
    simp [elemsByTagIncl_elem, elemsByTagList_nil]

/-- The XLIFF 2.0 note element likewise. -/
theorem elemsIncl_mkNoteElem2 (f t : String) :
    elemsByTagIncl (Xliff2.mkNoteElem f t) "note" = [Xliff2.mkNoteElem f t] := by
  unfold Xliff2.mkNoteElem
  by_cases ht : t ≠ ""
  · rw [if_pos ht]
    simp [elemsByTagIncl_elem, elemsByTagList_cons, elemsByTagList_nil, elemsByTagIncl_text]
  · rw [if_neg ht]
    simp [elemsByTagIncl_elem, elemsByTagList_nil]

/-- Attribute and text payload of the created XLIFF 1.2 note element. -/
theorem mkNoteElem_fields (f t : String) (hf : f ≠ "") :
    getAttribute (Xliff.mkNoteElem f t) "from" = some f
      ∧ getPCDATA (Xliff.mkNoteElem f t) = t
      ∧ (Xliff.mkNoteElem f t).tagOf = some "note" := by
  unfold Xliff.mkNoteElem
  rw [if_pos hf]
  refine ⟨by simp [getAttribute, List.find?], ?_, rfl⟩
  by_cases ht : t ≠ ""
  · rw [if_pos ht]
    simp [getPCDATA, getXMLContent, XNode.childrenOf, String.join]
  · rw [if_neg ht]
    simp only [ne_eq, Decidable.not_not] at ht
    simp [getPCDATA, getXMLContent, XNode.childrenOf, String.join, ht]

/-- Attribute and text payload of the created XLIFF 2.0 note element. -/
theorem mkNoteElem2_fields (f t : String) (hf : f ≠ "") :
    getAttribute (Xliff2.mkNoteElem f t) "category" = some f
      ∧ getPCDATA (Xliff2.mkNoteElem f t) = t
      ∧ (Xliff2.mkNoteElem f t).tagOf = some "note" := by
  unfold Xliff2.mkNoteElem
  rw [if_pos hf]
  refine ⟨by simp [getAttribute, List.find?], ?_, rfl⟩
  by_cases ht : t ≠ ""
  · rw [if_pos ht]
    simp [getPCDATA, getXMLContent, XNode.childrenOf, String.join]
  · rw [if_neg ht]
    simp only [ne_eq, Decidable.not_not] at ht
    simp [getPCDATA, getXMLContent, XNode.childrenOf, String.join, ht]

/-- The created XLIFF 2.0 note element contains no `notes` element. -/
theorem elemsIncl_mkNoteElem2_notes (f t : String) :
    elemsByTagIncl (Xliff2.mkNoteElem f t) "notes" = [] := by
  unfold Xliff2.mkNoteElem
  by_cases ht : t ≠ ""
  · rw [if_pos ht]
    simp [elemsByTagIncl_elem, elemsByTagList_cons, elemsByTagList_nil, elemsByTagIncl_text]
  · rw [if_neg ht]
    simp [elemsByTagIncl_elem, elemsByTagList_nil]

/-- `note`-query of a list of created XLIFF 1.2 note elements. -/
theorem elemsList_map_mkNote (ns : List (String × String)) :
    elemsByTagList (ns.map (fun n => Xliff.mkNoteElem n.1 n.2)) "note"
      = ns.map (fun n => Xliff.mkNoteElem n.1 n.2) := by
  induction ns with
  | nil => rfl
  | cons n rest ih =>
      rw [List.map_cons, elemsByTagList_cons, elemsIncl_mkNoteElem, ih]
      rfl

/-- `note`-query of a list of created XLIFF 2.0 note elements. -/
theorem elemsList_map_mkNote2 (ns : List (String × String)) :
    elemsByTagList (ns.map (fun n => Xliff2.mkNoteElem n.1 n.2)) "note"
      = ns.map (fun n => Xliff2.mkNoteElem n.1 n.2) := by
  induction ns with
  | nil => rfl
  | cons n rest ih =>
      rw [List.map_cons, elemsByTagList_cons, elemsIncl_mkNoteElem2, ih]
      rfl

/-- The XLIFF 2.0 note-insertion loop, when a `notes` wrapper exists:
every note is appended inside the first wrapper. -/
theorem foldl_createNoteElem_some (ns : List (String × String)) (el w : XNode)
    (h : getFirstElementByTagName el "notes" = some w) :
    ns.foldl (fun e n => Xliff2.createNoteElem e n.1 n.2) el
      = updateFirstElem el "notes"
          (fun ww => appendChildrenTop ww (ns.map (fun n => Xliff2.mkNoteElem n.1 n.2))) := by
  induction ns generalizing el w with
  | nil =>
      rw [List.foldl_nil, List.map_nil]
      have hid : (fun ww => appendChildrenTop ww ([] : List XNode)) = fun ww => ww := by
        funext ww
        cases ww <;> simp [appendChildrenTop]
      rw [hid, updateFirstElem, updFirstIn_id]
  | cons n rest ih =>
      rw [List.foldl_cons]
      have hstep : Xliff2.createNoteElem el n.1 n.2
          = updateFirstElem el "notes"
              (fun ww => appendChildTop ww (Xliff2.mkNoteElem n.1 n.2)) := by
        unfold Xliff2.createNoteElem
        rw [h]
      rw [hstep]
      have hnext : getFirstElementByTagName
          (updateFirstElem el "notes"
            (fun ww => appendChildTop ww (Xliff2.mkNoteElem n.1 n.2))) "notes"
          = some (appendChildTop w (Xliff2.mkNoteElem n.1 n.2)) := by
        rw [getFirst_updateFirstElem el "notes" _
          (fun u => tagOf_appendChildTop u (Xliff2.mkNoteElem n.1 n.2)), h]
        rfl
      rw [ih _ _ hnext]
      rw [updateFirstElem, updateFirstElem, updateFirstElem,
        updFirstIn_comp el "notes" _ _
          (fun u => tagOf_appendChildTop u (Xliff2.mkNoteElem n.1 n.2))]
      have hfun : (fun ww => appendChildrenTop
            (appendChildTop ww (Xliff2.mkNoteElem n.1 n.2))
            (rest.map (fun n => Xliff2.mkNoteElem n.1 n.2)))
          = fun ww => appendChildrenTop ww
              ((n :: rest).map (fun n => Xliff2.mkNoteElem n.1 n.2)) := by
        funext ww
        cases ww with
        | text s => rfl
        | elem tg a ch => simp [appendChildTop, appendChildrenTop]
      rw [hfun]

/-- The XLIFF 2.0 note-insertion loop, when no `notes` wrapper exists: the
wrapper is created (as last child) holding all inserted notes. -/
theorem foldl_createNoteElem_none (tg : String) (a : List (String × String))
    (ch : List XNode) (n0 : (String × String)) (rest : List (String × String))
    (h : elemsByTagList ch "notes" = []) :
    (n0 :: rest).foldl (fun e n => Xliff2.createNoteElem e n.1 n.2) (.elem tg a ch)
      = .elem tg a (ch ++ [.elem "notes" []
          ((n0 :: rest).map (fun n => Xliff2.mkNoteElem n.1 n.2))]) := by
  rw [List.foldl_cons]
  have hnone : getFirstElementByTagName (XNode.elem tg a ch) "notes" = none := by
    unfold getFirstElementByTagName getElementsByTagName
    simp [XNode.childrenOf, h]
  have hstep : Xliff2.createNoteElem (XNode.elem tg a ch) n0.1 n0.2
      = .elem tg a (ch ++ [.elem "notes" [] [Xliff2.mkNoteElem n0.1 n0.2]]) := by
    unfold Xliff2.createNoteElem
    rw [hnone]
    rfl
  rw [hstep]
  have hwrap : getFirstElementByTagName
      (XNode.elem tg a (ch ++ [XNode.elem "notes" [] [Xliff2.mkNoteElem n0.1 n0.2]]))
      "notes" = some (.elem "notes" [] [Xliff2.mkNoteElem n0.1 n0.2]) := by
    unfold getFirstElementByTagName getElementsByTagName
    simp only [XNode.childrenOf]
    rw [elemsByTagList_append, h, elemsByTagList_cons, elemsByTagList_nil,
      elemsByTagIncl_elem]
    simp [elemsByTagList_cons, elemsByTagList_nil, elemsIncl_mkNoteElem2_notes]
  rw [foldl_createNoteElem_some rest _ _ hwrap]
  rw [updateFirstElem, updFirstIn]
  rw [updFirstL_append_free ch _ "notes" _ h]
  rw [updFirstL]
  rw [if_pos (by rw [isTagElem_elem]; decide)]
  simp [appendChildrenTop]

/-- Removing all additional notes of an XLIFF 2.0 unit keeps the element
shape and leaves no additional note anywhere. -/
theorem xliff2_removeAllAdditional_shape (tg : String) (a : List (String × String))
    (ch : List XNode) :
    ∃ ch0, Xliff2.removeAllAdditionalNoteElements (.elem tg a ch) = .elem tg a ch0
      ∧ (elemsByTagList ch0 "note").filter
          (fun m => Xliff.isAdditionalNoteAttr (getAttribute m "category")) = [] := by
  unfold Xliff2.removeAllAdditionalNoteElements removeAllElems
  have hrem : remAllN (XNode.elem tg a ch)
      (fun n => n.isTagElem "note"
        && Xliff.isAdditionalNoteAttr (getAttribute n "category"))
      = .elem tg a (remAllL ch
          (fun n => n.isTagElem "note"
            && Xliff.isAdditionalNoteAttr (getAttribute n "category"))) := rfl
  rw [hrem]
  set L0 := remAllL ch
    (fun n => n.isTagElem "note"
      && Xliff.isAdditionalNoteAttr (getAttribute n "category")) with hL0
  have hfilter : (elemsByTagList L0 "note").filter
      (fun m => Xliff.isAdditionalNoteAttr (getAttribute m "category")) = [] := by
    rw [hL0]
    exact remAll_filter_nil_list ch _ _ "note" (fun t2 a2 c1 c2 => rfl)
      (fun m h1 h2 => by simp [h1, h2])
  unfold Xliff2.removeNotesElementIfEmpty
  cases h1 : getFirstElementByTagName (XNode.elem tg a L0) "notes" with
  | none => exact ⟨L0, rfl, hfilter⟩
  | some w =>
      cases h2 : getFirstElementByTagName (XNode.elem tg a L0) "note" with
      | some w2 => exact ⟨L0, rfl, hfilter⟩
      | none =>
          refine ⟨remFirstL L0 "notes", rfl, ?_⟩
          exact remFirst_filter_nil_list L0 "notes" "note" _ (fun t2 a2 c1 c2 => rfl) hfilter

/-- All created XLIFF 1.2 note elements pass the additional-note filter. -/
theorem filter_map_mkNote (ns : List (String × String))
    (hok : ∀ n ∈ ns, n.1 ≠ "" ∧ n.1 ≠ "description" ∧ n.1 ≠ "meaning") :
    (ns.map (fun n => Xliff.mkNoteElem n.1 n.2)).filter
        (fun m => Xliff.isAdditionalNoteAttr (getAttribute m "from"))
      = ns.map (fun n => Xliff.mkNoteElem n.1 n.2) := by
  rw [List.filter_eq_self]
  intro m hm
  obtain ⟨n, hn, rfl⟩ := List.mem_map.1 hm
  obtain ⟨h1, h2, h3⟩ := hok n hn
  obtain ⟨ha, -, -⟩ := mkNoteElem_fields n.1 n.2 h1
  rw [ha]
  simp [Xliff.isAdditionalNoteAttr, h2, h3]

/-- All created XLIFF 2.0 note elements pass the additional-note filter. -/
theorem filter_map_mkNote2 (ns : List (String × String))
    (hok : ∀ n ∈ ns, n.1 ≠ "" ∧ n.1 ≠ "description" ∧ n.1 ≠ "meaning") :
    (ns.map (fun n => Xliff2.mkNoteElem n.1 n.2)).filter
        (fun m => Xliff.isAdditionalNoteAttr (getAttribute m "category"))
      = ns.map (fun n => Xliff2.mkNoteElem n.1 n.2) := by
  rw [List.filter_eq_self]
  intro m hm
  obtain ⟨n, hn, rfl⟩ := List.mem_map.1 hm
  obtain ⟨h1, h2, h3⟩ := hok n hn
  obtain ⟨ha, -, -⟩ := mkNoteElem2_fields n.1 n.2 h1
  rw [ha]
  simp [Xliff.isAdditionalNoteAttr, h2, h3]

/-- Reading back created XLIFF 1.2 note elements as (origin, text) pairs. -/
theorem map_pair_mkNote (ns : List (String × String))
    (hok : ∀ n ∈ ns, n.1 ≠ "" ∧ n.1 ≠ "description" ∧ n.1 ≠ "meaning") :
    (ns.map (fun n => Xliff.mkNoteElem n.1 n.2)).map
        (fun n => (getAttribute n "from", getPCDATA n))
      = ns.map (fun n => (some n.1, n.2)) := by
  rw [List.map_map]
  apply List.map_congr_left
  intro n hn
  obtain ⟨h1, -, -⟩ := hok n hn
  obtain ⟨ha, hp, -⟩ := mkNoteElem_fields n.1 n.2 h1
  simp [Function.comp, ha, hp]

/-- Reading back created XLIFF 2.0 note elements as (origin, text) pairs. -/
theorem map_pair_mkNote2 (ns : List (String × String))
    (hok : ∀ n ∈ ns, n.1 ≠ "" ∧ n.1 ≠ "description" ∧ n.1 ≠ "meaning") :
    (ns.map (fun n => Xliff2.mkNoteElem n.1 n.2)).map
        (fun n => (getAttribute n "category", getPCDATA n))
      = ns.map (fun n => (some n.1, n.2)) := by
  rw [List.map_map]
  apply List.map_congr_left
  intro n hn
  obtain ⟨h1, -, -⟩ := hok n hn
  obtain ⟨ha, hp, -⟩ := mkNoteElem2_fields n.1 n.2 h1
  simp [Function.comp, ha, hp]

/-- C7: `setNotes` rejects any note list containing a reserved origin
(`description`/`meaning`) with a `ValidationError` and performs no write
(the call returns the error, leaving the unit untouched); with no
collision, `setNotes` replaces the full additional-note set: reading
`notes()` afterwards returns exactly the supplied list (remove-all-then-
insert, not a merge) — in both dialects. -/
theorem claim_C7 :
    (∀ (el : XNode) (ns : List (String × String)),
      (∃ n ∈ ns, n.1 = "description" ∨ n.1 = "meaning") →
      Xliff.setNotes el ns = .error Xliff.reservedNoteError)
    ∧ (∀ (el : XNode) (ns : List (String × String)),
      (∃ n ∈ ns, n.1 = "description" ∨ n.1 = "meaning") →
      Xliff2.setNotes el ns = .error Xliff.reservedNoteError)
    ∧ (∀ (tg : String) (a : List (String × String)) (ch : List XNode)
        (ns : List (String × String)),
      (∀ n ∈ ns, n.1 ≠ "" ∧ n.1 ≠ "description" ∧ n.1 ≠ "meaning") →
      ∃ el2, Xliff.setNotes (.elem tg a ch) ns = .ok el2
        ∧ Xliff.notes el2 = ns.map (fun n => (some n.1, n.2)))
    ∧ (∀ (tg : String) (a : List (String × String)) (ch : List XNode)
        (ns : List (String × String)),
      (∀ n ∈ ns, n.1 ≠ "" ∧ n.1 ≠ "description" ∧ n.1 ≠ "meaning") →
      ∃ el2, Xliff2.setNotes (.elem tg a ch) ns = .ok el2
        ∧ Xliff2.notes el2 = ns.map (fun n => (some n.1, n.2))) := by
  have hbad : ∀ (ns : List (String × String)),
      (∃ n ∈ ns, n.1 = "description" ∨ n.1 = "meaning") →
      Xliff.checkNotes ns = false := by
    intro ns ⟨n0, hmem, hcol⟩
    unfold Xliff.checkNotes
    rw [List.all_eq_false]
    refine ⟨n0, hmem, ?_⟩
    rcases hcol with h | h <;> simp [h]
  have hgood : ∀ (ns : List (String × String)),
      (∀ n ∈ ns, n.1 ≠ "" ∧ n.1 ≠ "description" ∧ n.1 ≠ "meaning") →
      Xliff.checkNotes ns = true := by
    intro ns hok
    unfold Xliff.checkNotes
    rw [List.all_eq_true]
    intro n hn
    obtain ⟨-, h2, h3⟩ := hok n hn
    simp [h2, h3]
  refine ⟨?_, ?_, ?_, ?_⟩
  · intro el ns hcol
    unfold Xliff.setNotes
    rw [if_neg (by simp [hbad ns hcol])]
  · intro el ns hcol
    unfold Xliff2.setNotes
    rw [if_neg (by simp [hbad ns hcol])]
  · intro tg a ch ns hok
    unfold Xliff.setNotes
    rw [if_pos (hgood ns hok)]
    refine ⟨_, rfl, ?_⟩
    unfold Xliff.removeAllAdditionalNoteElements removeAllElems
    rw [show remAllN (XNode.elem tg a ch)
        (fun n => n.isTagElem "note"
          && Xliff.isAdditionalNoteAttr (getAttribute n "from"))
        = XNode.elem tg a (remAllL ch
            (fun n => n.isTagElem "note"
              && Xliff.isAdditionalNoteAttr (getAttribute n "from"))) from rfl]
    rw [foldl_appendChildTop_notes]
    unfold Xliff.notes Xliff.findAllAdditionalNoteElements getElementsByTagName
    simp only [XNode.childrenOf]
    rw [elemsByTagList_append, List.filter_append,
      remAll_filter_nil_list ch
        (fun n => n.isTagElem "note"
          && Xliff.isAdditionalNoteAttr (getAttribute n "from"))
        (fun m => Xliff.isAdditionalNoteAttr (getAttribute m "from"))
        "note" (fun t2 a2 c1 c2 => rfl)
        (fun m h1 h2 => by simp [h1, h2]),
      elemsList_map_mkNote, filter_map_mkNote ns hok, List.nil_append,
      map_pair_mkNote ns hok]
  · intro tg a ch ns hok
    unfold Xliff2.setNotes
    rw [if_pos (hgood ns hok)]
    obtain ⟨ch0, hsh, hfilter⟩ := xliff2_removeAllAdditional_shape tg a ch
    rw [hsh]
    refine ⟨_, rfl, ?_⟩
    cases hw : getFirstElementByTagName (XNode.elem tg a ch0) "notes" with
    | some w =>
        rw [foldl_createNoteElem_some ns _ _ hw]
        unfold Xliff2.notes Xliff2.findAllAdditionalNoteElements getElementsByTagName
        rw [show updateFirstElem (XNode.elem tg a ch0) "notes"
            (fun ww => appendChildrenTop ww
              (ns.map (fun n => Xliff2.mkNoteElem n.1 n.2)))
            = XNode.elem tg a (updFirstL ch0 "notes"
                (fun ww => appendChildrenTop ww
                  (ns.map (fun n => Xliff2.mkNoteElem n.1 n.2)))) from rfl]
        simp only [XNode.childrenOf]
        rw [updFirst_filter_new_list ch0 "notes" "note"
          (fun ww => appendChildrenTop ww
            (ns.map (fun n => Xliff2.mkNoteElem n.1 n.2)))
          (fun m => Xliff.isAdditionalNoteAttr (getAttribute m "category"))
          (ns.map (fun n => Xliff2.mkNoteElem n.1 n.2))
          (fun t2 a2 c1 c2 => rfl) ?hf hfilter]
        · have hcond : (!(elemsByTagList ch0 "notes").isEmpty) = true := by
            unfold getFirstElementByTagName getElementsByTagName at hw
            simp only [XNode.childrenOf] at hw
            cases hl : elemsByTagList ch0 "notes" with
            | nil => rw [hl] at hw; cases hw
            | cons x r => rfl
          rw [hcond]
          simp only [if_true]
          exact map_pair_mkNote2 ns hok
        case hf =>
          intro ww hww
          obtain ⟨wa, wch, rfl⟩ : ∃ wa wch, ww = .elem "notes" wa wch := by
            cases ww with
            | text s => simp [isTagElem_text] at hww
            | elem tgx ax chx =>
                rw [isTagElem_elem, beq_iff_eq] at hww
                exact ⟨ax, chx, by rw [hww]⟩
          constructor
          · rfl
          · simp only []
            rw [show appendChildrenTop (XNode.elem "notes" wa wch)
                (ns.map (fun n => Xliff2.mkNoteElem n.1 n.2))
                = XNode.elem "notes" wa
                    (wch ++ ns.map (fun n => Xliff2.mkNoteElem n.1 n.2)) from rfl]
            rw [elemsByTagIncl_of_ne (by decide) wa, elemsByTagIncl_of_ne (by decide) wa]
            rw [elemsByTagList_append, List.filter_append, elemsList_map_mkNote2,
              filter_map_mkNote2 ns hok]
    | none =>
        have hnil : elemsByTagList ch0 "notes" = [] := by
          unfold getFirstElementByTagName getElementsByTagName at hw
          simp only [XNode.childrenOf] at hw
          exact List.head?_eq_none_iff.1 hw
        cases hns : ns with
        | nil =>
            rw [List.foldl_nil]
            unfold Xliff2.notes Xliff2.findAllAdditionalNoteElements getElementsByTagName
            simp only [XNode.childrenOf]
            rw [hfilter]
            rfl
        | cons n0 rest =>
            rw [foldl_createNoteElem_none tg a ch0 n0 rest hnil]
            unfold Xliff2.notes Xliff2.findAllAdditionalNoteElements getElementsByTagName
            simp only [XNode.childrenOf]
            rw [elemsByTagList_append, List.filter_append, hfilter, List.nil_append,
              elemsByTagList_cons, elemsByTagList_nil,
              elemsByTagIncl_of_ne (by decide) ([] : List (String × String))]
            rw [elemsList_map_mkNote2, List.append_nil,
              filter_map_mkNote2 (n0 :: rest) (by rw [← hns]; exact hok),
              map_pair_mkNote2 (n0 :: rest) (by rw [← hns]; exact hok)]

/-- C7, witness: a collision is rejected; a collision-free list replaces
the notes in both dialects. -/
theorem claim_C7_witness :
    Xliff.setNotes fixtureHelloUnit [("description", "boom")]
        = .error Xliff.reservedNoteError
      ∧ (∃ el2, Xliff.setNotes fixtureHelloUnit [("reviewer", "ok"), ("x", "y")] = .ok el2
          ∧ Xliff.notes el2 = [(some "reviewer", "ok"), (some "x", "y")])
      ∧ (∃ el2, Xliff2.setNotes fixtureUnit2 [("reviewer", "ok")] = .ok el2
          ∧ Xliff2.notes el2 = [(some "reviewer", "ok")]) := by
  refine ⟨?_, ?_, ?_⟩
  · exact claim_C7.1 fixtureHelloUnit [("description", "boom")]
      ⟨("description", "boom"), by decide, by decide⟩
  · exact claim_C7.2.2.1 "trans-unit" [("id", "1")]
      [.elem "source" [] [.text "Hello"]] [("reviewer", "ok"), ("x", "y")] (by decide)
  · exact claim_C7.2.2.2 "unit" [("id", "1")]
      [.elem "segment" [] [.elem "source" [] [.text "Hello"]]] [("reviewer", "ok")]
      (by decide)

/-- Attribute, payload and tag of a generated location note. -/
theorem mkRefNote_fields (r : String × Nat) :
    getAttribute (Xliff2.mkRefNote r) "category" = some "location"
      ∧ getPCDATA (Xliff2.mkRefNote r) = r.1 ++ ":" ++ toString r.2
      ∧ (Xliff2.mkRefNote r).tagOf = some "note" := by
  unfold Xliff2.mkRefNote
  refine ⟨by simp [getAttribute, List.find?], ?_, rfl⟩
  simp [getPCDATA, getXMLContent, XNode.childrenOf, String.join]

/-- A generated location note has itself as its only `note` descendant. -/
theorem elemsIncl_mkRefNote (r : String × Nat) :
    elemsByTagIncl (Xliff2.mkRefNote r) "note" = [Xliff2.mkRefNote r] := by
  unfold Xliff2.mkRefNote
  simp [elemsByTagIncl_elem, elemsByTagList_cons, elemsByTagList_nil, elemsByTagIncl_text]

/-- `note`-query of a list of generated location notes. -/
theorem elemsList_map_mkRefNote (refs : List (String × Nat)) :
    elemsByTagList (refs.map Xliff2.mkRefNote) "note" = refs.map Xliff2.mkRefNote := by
  induction refs with
  | nil => rfl
  | cons r rest ih =>
      rw [List.map_cons, elemsByTagList_cons, elemsIncl_mkRefNote, ih]
      rfl

/-- Every generated location note passes the location-category filter. -/
theorem filter_map_mkRefNote (refs : List (String × Nat)) :
    (refs.map Xliff2.mkRefNote).filter
        (fun n => getAttribute n "category" == some "location")
      = refs.map Xliff2.mkRefNote := by
  rw [List.filter_eq_self]
  intro m hm
  obtain ⟨r, hr, rfl⟩ := List.mem_map.1 hm
  rw [(mkRefNote_fields r).1]
  rfl

/-- Reading generated location notes back as parsed source references. -/
theorem map_parse_mkRefNote (refs : List (String × Nat)) :
    (refs.map Xliff2.mkRefNote).map
        (fun n => Xliff2.parseSourceAndPos (getPCDATA n))
      = refs.map (fun r => Xliff2.parseSourceAndPos (r.1 ++ ":" ++ toString r.2)) := by
  rw [List.map_map]
  apply List.map_congr_left
  intro r hr
  simp [Function.comp, (mkRefNote_fields r).2.1]

/-- The source-reference insertion loop, when a `notes` wrapper exists:
every generated location note is appended inside the first wrapper. -/
theorem foldl_refNote_some (refs : List (String × Nat)) (el w : XNode)
    (h : getFirstElementByTagName el "notes" = some w) :
    refs.foldl
        (fun e r => updateFirstElem e "notes"
          (fun ww => appendChildTop ww (Xliff2.mkRefNote r))) el
      = updateFirstElem el "notes"
          (fun ww => appendChildrenTop ww (refs.map Xliff2.mkRefNote)) := by
  induction refs generalizing el w with
  | nil =>
      rw [List.foldl_nil, List.map_nil]
      have hid : (fun ww => appendChildrenTop ww ([] : List XNode)) = fun ww => ww := by
        funext ww
        cases ww <;> simp [appendChildrenTop]
      rw [hid, updateFirstElem, updFirstIn_id]
  | cons r rest ih =>
      rw [List.foldl_cons]
      have hnext : getFirstElementByTagName
          (updateFirstElem el "notes"
            (fun ww => appendChildTop ww (Xliff2.mkRefNote r))) "notes"
          = some (appendChildTop w (Xliff2.mkRefNote r)) := by
        rw [getFirst_updateFirstElem el "notes" _
          (fun u => tagOf_appendChildTop u (Xliff2.mkRefNote r)), h]
        rfl
      rw [ih _ _ hnext]
      rw [updateFirstElem, updateFirstElem, updateFirstElem,
        updFirstIn_comp el "notes" _ _
          (fun u => tagOf_appendChildTop u (Xliff2.mkRefNote r))]
      have hfun : (fun ww => appendChildrenTop
            (appendChildTop ww (Xliff2.mkRefNote r))
            (rest.map Xliff2.mkRefNote))
          = fun ww => appendChildrenTop ww ((r :: rest).map Xliff2.mkRefNote) := by
        funext ww
        cases ww with
        | text s => rfl
        | elem tg a ch => simp [appendChildTop, appendChildrenTop]
      rw [hfun]

/-- The wrapper-update of the insertion loop, seen by the location filter:
it appends exactly the generated notes. -/
theorem refNote_update_hf (refs : List (String × Nat)) :
    ∀ w : XNode, w.isTagElem "notes" = true →
      ((fun ww => appendChildrenTop ww (refs.map Xliff2.mkRefNote)) w).tagOf = w.tagOf ∧
      (elemsByTagIncl ((fun ww => appendChildrenTop ww (refs.map Xliff2.mkRefNote)) w)
          "note").filter (fun n => getAttribute n "category" == some "location")
        = (elemsByTagIncl w "note").filter
            (fun n => getAttribute n "category" == some "location")
          ++ refs.map Xliff2.mkRefNote := by
  intro w hww
  obtain ⟨wa, wch, rfl⟩ : ∃ wa wch, w = .elem "notes" wa wch := by
    cases w with
    | text s => simp [isTagElem_text] at hww
    | elem tgx ax chx =>
        rw [isTagElem_elem, beq_iff_eq] at hww
        exact ⟨ax, chx, by rw [hww]⟩
  constructor
  · rfl
  · simp only []
    rw [show appendChildrenTop (XNode.elem "notes" wa wch) (refs.map Xliff2.mkRefNote)
        = XNode.elem "notes" wa (wch ++ refs.map Xliff2.mkRefNote) from rfl]
    rw [elemsByTagIncl_of_ne (by decide) wa, elemsByTagIncl_of_ne (by decide) wa]
    rw [elemsByTagList_append, List.filter_append, elemsList_map_mkRefNote,
      filter_map_mkRefNote refs]

/-- C10, counterexample to the final clause: `fixtureLocUnit` holds the
location note `f:3`; calling `setSourceReferences` with the same single
reference `("f", 3)` removes the old note and generates an identical one,
so `notes()` IS left unchanged although a location note exists. -/
theorem claim_C10_counterexample :
    Xliff2.notes (Xliff2.setSourceReferences fixtureLocUnit [("f", 3)])
        = Xliff2.notes fixtureLocUnit
      ∧ (some "location", "f:3") ∈ Xliff2.notes fixtureLocUnit := by
  constructor
  · rfl
  · decide

/-- C10 (amended): in XLIFF 2.0, notes and source references share the
note-element storage, distinguished only by the `category` attribute:
`sourceReferences()` is exactly the `location`-categorized sublist of the
note storage, parsed as `file:line` (so a `location` note, which `notes()`
reports since `location` is not reserved, is also reported by
`sourceReferences()`); `setNotes` accepts `location` notes; and every call
to `setSourceReferences` removes all pre-existing location notes, the
resulting references being exactly the parsed images of the supplied list
— but, contrary to the original claim's final clause, such a call CAN
leave `notes()` unchanged when it regenerates identical location notes. -/
theorem claim_C10 :
    (∀ el : XNode,
      Xliff2.sourceReferences el
        = ((Xliff2.notes el).filter (fun p => p.1 == some "location")).map
            (fun p => Xliff2.parseSourceAndPos p.2))
    ∧ (∀ (el : XNode) (t : String),
      ∃ el2, Xliff2.setNotes el [("location", t)] = .ok el2)
    ∧ (∀ (tg : String) (a : List (String × String)) (ch : List XNode)
        (refs : List (String × Nat)),
      Xliff2.sourceReferences (Xliff2.setSourceReferences (.elem tg a ch) refs)
        = refs.map (fun r => Xliff2.parseSourceAndPos (r.1 ++ ":" ++ toString r.2))) := by
  refine ⟨?_, ?_, ?_⟩
  · intro el
    unfold Xliff2.sourceReferences Xliff2.notes Xliff2.findAllAdditionalNoteElements
    rw [List.filter_map, List.map_map, List.filter_filter]
    have hpred : ∀ n : XNode,
        (((fun p => p.1 == some "location")
            ∘ fun n => (getAttribute n "category", getPCDATA n)) n
          && Xliff.isAdditionalNoteAttr (getAttribute n "category"))
        = (getAttribute n "category" == some "location") := by
      intro n
      show ((getAttribute n "category" == some "location")
        && Xliff.isAdditionalNoteAttr (getAttribute n "category")) = _
      cases hb : (getAttribute n "category" == some "location") with
      | false => simp [hb]
      | true =>
          have hcat : getAttribute n "category" = some "location" := by
            rwa [beq_iff_eq] at hb
          simp [Xliff.isAdditionalNoteAttr, hcat]
    rw [show (fun a => ((fun p => p.1 == some "location")
            ∘ fun n => (getAttribute n "category", getPCDATA n)) a
          && Xliff.isAdditionalNoteAttr (getAttribute a "category"))
        = fun n => getAttribute n "category" == some "location"
      from funext (fun n => hpred n)]
    rfl
  · intro el t
    have hchk : Xliff.checkNotes [("location", t)] = true := by
      unfold Xliff.checkNotes
      simp
    exact ⟨_, by unfold Xliff2.setNotes; rw [if_pos hchk]⟩
  · intro tg a ch refs
    unfold Xliff2.setSourceReferences Xliff2.removeAllSourceReferences removeAllElems
    rw [show remAllN (XNode.elem tg a ch)
        (fun n => n.isTagElem "note" && getAttribute n "category" == some "location")
        = XNode.elem tg a (remAllL ch
            (fun n => n.isTagElem "note"
              && getAttribute n "category" == some "location")) from rfl]
    simp only []
    set L1 := remAllL ch
      (fun n => n.isTagElem "note" && getAttribute n "category" == some "location")
      with hL1
    have hA : (elemsByTagList L1 "note").filter
        (fun n => getAttribute n "category" == some "location") = [] := by
      rw [hL1]
      exact remAll_filter_nil_list ch _ _ "note" (fun t2 a2 c1 c2 => rfl)
        (fun m h1 h2 => by simp [h1, h2])
    cases hw : getFirstElementByTagName (XNode.elem tg a L1) "notes" with
    | some ne =>
        simp only []
        by_cases hcond : (refs.isEmpty && ne.childrenOf.isEmpty) = true
        · rw [if_pos hcond]
          have hrefs : refs = [] := by
            rw [Bool.and_eq_true] at hcond
            have := hcond.1
            rwa [List.isEmpty_iff] at this
          rw [hrefs, List.map_nil]
          rw [show removeFirstElem (XNode.elem tg a L1) "notes"
              = XNode.elem tg a (remFirstL L1 "notes") from rfl]
          unfold Xliff2.sourceReferences getElementsByTagName
          simp only [XNode.childrenOf]
          rw [remFirst_filter_nil_list L1 "notes" "note"
            (fun n => getAttribute n "category" == some "location")
            (fun t2 a2 c1 c2 => rfl) hA]
          rfl
        · rw [if_neg hcond]
          rw [foldl_refNote_some refs _ ne hw]
          rw [show updateFirstElem (XNode.elem tg a L1) "notes"
              (fun ww => appendChildrenTop ww (refs.map Xliff2.mkRefNote))
              = XNode.elem tg a (updFirstL L1 "notes"
                  (fun ww => appendChildrenTop ww (refs.map Xliff2.mkRefNote))) from rfl]
          unfold Xliff2.sourceReferences getElementsByTagName
          simp only [XNode.childrenOf]
          rw [updFirst_filter_new_list L1 "notes" "note"
            (fun ww => appendChildrenTop ww (refs.map Xliff2.mkRefNote))
            (fun n => getAttribute n "category" == some "location")
            (refs.map Xliff2.mkRefNote)
            (fun t2 a2 c1 c2 => rfl) (refNote_update_hf refs) hA]
          have hcondL : (!(elemsByTagList L1 "notes").isEmpty) = true := by
            unfold getFirstElementByTagName getElementsByTagName at hw
            simp only [XNode.childrenOf] at hw
            cases hl : elemsByTagList L1 "notes" with
            | nil => rw [hl] at hw; cases hw
            | cons x r => rfl
          rw [hcondL]
          simp only [if_true]
          exact map_parse_mkRefNote refs
    | none =>
        simp only []
        rw [show prependChildTop (XNode.elem tg a L1) (XNode.elem "notes" [] [])
            = XNode.elem tg a (XNode.elem "notes" [] [] :: L1) from rfl]
        have hw2 : getFirstElementByTagName
            (XNode.elem tg a (XNode.elem "notes" [] [] :: L1)) "notes"
            = some (XNode.elem "notes" [] []) := rfl
        rw [foldl_refNote_some refs _ _ hw2]
        rw [show updateFirstElem (XNode.elem tg a (XNode.elem "notes" [] [] :: L1)) "notes"
            (fun ww => appendChildrenTop ww (refs.map Xliff2.mkRefNote))
            = XNode.elem tg a (updFirstL (XNode.elem "notes" [] [] :: L1) "notes"
                (fun ww => appendChildrenTop ww (refs.map Xliff2.mkRefNote))) from rfl]
        unfold Xliff2.sourceReferences getElementsByTagName
        simp only [XNode.childrenOf]
        have hq0 : (elemsByTagList (XNode.elem "notes" [] [] :: L1) "note").filter
            (fun n => getAttribute n "category" == some "location") = [] := by
          rw [elemsByTagList_cons,
            show elemsByTagIncl (XNode.elem "notes" [] []) "note" = [] from rfl,
            List.nil_append]
          exact hA
        rw [updFirst_filter_new_list (XNode.elem "notes" [] [] :: L1) "notes" "note"
          (fun ww => appendChildrenTop ww (refs.map Xliff2.mkRefNote))
          (fun n => getAttribute n "category" == some "location")
          (refs.map Xliff2.mkRefNote)
          (fun t2 a2 c1 c2 => rfl) (refNote_update_hf refs) hq0]
        have hcondL : (!(elemsByTagList (XNode.elem "notes" [] [] :: L1) "notes").isEmpty)
            = true := by
          rw [elemsByTagList_cons,
            show elemsByTagIncl (XNode.elem "notes" [] []) "notes"
              = [XNode.elem "notes" [] []] from rfl]
          rfl
        rw [hcondL]
        simp only [if_true]
        exact map_parse_mkRefNote refs

/-- Structure eta for strings. -/
theorem string_mk_data (s : String) : (⟨s.data⟩ : String) = s := rfl

/-- Digit characters are neither a quote nor an opening angle. -/
theorem digitCharOf_ne (d : Nat) : digitCharOf d ≠ '"' ∧ digitCharOf d ≠ '<' := by
  unfold digitCharOf
  split <;> exact ⟨by decide, by decide⟩

/-- Rendering then reading a digit is the identity below ten. -/
theorem digitVal_digitChar (d : Nat) (h : d < 10) : digitValOf (digitCharOf d) = some d := by
  interval_cases d <;> rfl

/-- Reading digits distributes over a one-digit extension. -/
theorem digitsToNat_append_one (l : List Char) (c : Char) :
    digitsToNat (l ++ [c]) = digitsToNat l * 10 + (digitValOf c).getD 0 := by
  unfold digitsToNat
  rw [List.foldl_append]
  rfl

/-- Reading back the rendered digits of `n` gives `n` (fueled form). -/
theorem digitsToNat_natDigitsF (f : Nat) : ∀ n : Nat, n < f →
    digitsToNat (natDigitsF f n) = n := by
  induction f with
  | zero => intro n h; omega
  | succ f ih =>
      intro n h
      rw [natDigitsF]
      by_cases h10 : n < 10
      · rw [if_pos h10]
        show digitsToNat [digitCharOf n] = n
        unfold digitsToNat
        simp [List.foldl, digitVal_digitChar n h10]
      · rw [if_neg h10]
        have hdiv : n / 10 < n := Nat.div_lt_self (by omega) (by omega)
        rw [digitsToNat_append_one, ih (n / 10) (by omega),
          digitVal_digitChar (n % 10) (Nat.mod_lt _ (by omega))]
        show n / 10 * 10 + n % 10 = n
        omega

/-- Reading back the rendered digits of `n` gives `n`. -/
theorem digitsToNat_natDigits (n : Nat) : digitsToNat (natDigits n) = n :=
  digitsToNat_natDigitsF (n + 1) n (Nat.lt_succ_self n)

/-- Rendered digits contain no quote and no opening angle. -/
theorem mem_natDigitsF_ne (f : Nat) : ∀ (n : Nat), ∀ c ∈ natDigitsF f n,
    c ≠ '"' ∧ c ≠ '<' := by
  induction f with
  | zero => intro n c hc; rw [natDigitsF] at hc; cases hc
  | succ f ih =>
      intro n c hc
      rw [natDigitsF] at hc
      by_cases h10 : n < 10
      · rw [if_pos h10] at hc
        rw [List.mem_singleton] at hc
        rw [hc]
        exact digitCharOf_ne n
      · rw [if_neg h10] at hc
        rcases List.mem_append.mp hc with h | h
        · exact ih (n / 10) c h
        · rw [List.mem_singleton] at h
          rw [h]
          exact digitCharOf_ne (n % 10)

/-- Rendered digits contain no quote and no opening angle. -/
theorem mem_natDigits_ne (n : Nat) : ∀ c ∈ natDigits n, c ≠ '"' ∧ c ≠ '<' :=
  mem_natDigitsF_ne (n + 1) n

/-- Character facts over the tag-name alphabet, kernel-checked. -/
theorem lowerAlpha_facts : ∀ c ∈ lowerAlpha,
    c ≠ '<' ∧ c ≠ '"' ∧ c ≠ '>' ∧ Char.toUpper c ≠ '"' := by decide

/-- Character facts for a valid tag-name character. -/
theorem nameCh_facts (c : Char) (h : isNameCh c = true) :
    c ≠ '<' ∧ c ≠ '"' ∧ c ≠ '>' ∧ Char.toUpper c ≠ '"' := by
  unfold isNameCh at h
  have hmem : c ∈ lowerAlpha := by
    have : lowerAlpha.elem c = true := h
    exact (List.elem_iff).mp this
  exact lowerAlpha_facts c hmem

/-- `takeWhile`/`dropWhile` on a run followed by a stopper. -/
theorem takeWhile_app_stop (p : Char → Bool) (l1 : List Char) (c : Char) (l2 : List Char)
    (h1 : ∀ x ∈ l1, p x = true) (hc : p c = false) :
    (l1 ++ c :: l2).takeWhile p = l1 ∧ (l1 ++ c :: l2).dropWhile p = c :: l2 := by
  induction l1 with
  | nil => simp [List.takeWhile_cons, List.dropWhile_cons, hc]
  | cons a l ih =>
      have ha := h1 a (List.mem_cons_self a l)
      have ihh := ih (fun x hx => h1 x (List.mem_cons_of_mem a hx))
      simp [List.takeWhile_cons, List.dropWhile_cons, ha, ihh.1, ihh.2]

/-- `takeWhile`/`dropWhile` on an all-true run. -/
theorem takeWhile_all_run (p : Char → Bool) (l : List Char)
    (h : ∀ x ∈ l, p x = true) :
    l.takeWhile p = l ∧ l.dropWhile p = [] := by
  induction l with
  | nil => simp
  | cons a r ih =>
      have ha := h a (List.mem_cons_self a r)
      have ihh := ih (fun x hx => h x (List.mem_cons_of_mem a hx))
      simp [List.takeWhile_cons, List.dropWhile_cons, ha, ihh.1, ihh.2]

/-- A list is a `Bool`-prefix of itself extended on the right. -/
theorem isPrefixOf_append_self (l r : List Char) : l.isPrefixOf (l ++ r) = true := by
  induction l with
  | nil => simp [List.isPrefixOf]
  | cons a as ih => simp [List.isPrefixOf, ih]

/-- Head mismatch refutes the `Bool`-prefix test. -/
theorem not_prefix_head (b c : Char) (bs cs : List Char) (h : b ≠ c) :
    (b :: bs).isPrefixOf (c :: cs) = false := by
  simp [List.isPrefixOf, h]

/-- Second-position mismatch refutes the `Bool`-prefix test. -/
theorem not_prefix_head2 (a b c : Char) (bs cs : List Char) (h : b ≠ c) :
    (a :: b :: bs).isPrefixOf (a :: c :: cs) = false := by
  simp [List.isPrefixOf, h]

/-- The witness decomposition of a successful `Bool`-prefix test. -/
theorem append_of_isPrefixOf {l1 l2 : List Char} (h : l1.isPrefixOf l2 = true) :
    ∃ t, l2 = l1 ++ t := by
  obtain ⟨t, ht⟩ := List.isPrefixOf_iff_prefix.mp h
  exact ⟨t, ht.symm⟩

/-- Members of a `takeWhile` run satisfy the predicate. -/
theorem takeWhile_mem (p : Char → Bool) (l : List Char) :
    ∀ x ∈ l.takeWhile p, p x = true := by
  induction l with
  | nil => intro x hx; cases hx
  | cons a r ih =>
      intro x hx
      rw [List.takeWhile_cons] at hx
      by_cases ha : p a
      · rw [if_pos ha] at hx
        rcases List.mem_cons.mp hx with rfl | hx2
        · exact ha
        · exact ih x hx2
      · rw [if_neg ha] at hx
        cases hx

/-- The head surviving `dropWhile` fails the predicate. -/
theorem dropWhile_head_not (p : Char → Bool) (l : List Char) (c : Char) (cs2 : List Char)
    (h : l.dropWhile p = c :: cs2) : p c = false := by
  induction l with
  | nil => cases h
  | cons a r ih =>
      rw [List.dropWhile_cons] at h
      by_cases ha : p a
      · rw [if_pos ha] at h
        exact ih h
      · rw [if_neg ha] at h
        injection h with h1 h2
        rw [← h1]
        simpa using ha

/-- Soundness of one display-grammar token: the consumed part re-renders to
the consumed input, is well formed, and a text part exhausts the text run. -/
theorem dTokenStep_sound (cs : List Char) (p : MPart) (rest2 : List Char)
    (h : dTokenStep cs = some (p, rest2)) :
    partDisplay p ++ rest2 = cs ∧ goodPart p = true ∧
    (∀ s, p = .text s → ∀ c cs2, rest2 = c :: cs2 → isTextCh c = false) := by
  unfold dTokenStep at h
  split at h
  · rename_i rest
    simp only [] at h
    by_cases hval : natDigits (digitsToNat (List.takeWhile isDigitCh rest))
        = List.takeWhile isDigitCh rest
    · rw [if_pos hval] at h
      generalize hdrop : List.dropWhile isDigitCh rest = dr at h
      split at h
      · rename_i rest2x
        injection h with h1
        injection h1 with hp hr
        subst hp
        subst hr
        refine ⟨?_, rfl, fun s hs => by cases hs⟩
        conv_rhs => rw [show ('\x7b' :: '\x7b' :: rest : List Char)
          = '\x7b' :: '\x7b' :: (List.takeWhile isDigitCh rest
              ++ List.dropWhile isDigitCh rest)
          from by rw [List.takeWhile_append_dropWhile]]
        rw [hdrop]
        simp [partDisplay, hval, List.append_assoc]
      · cases h
    · rw [if_neg hval] at h
      cases h
  · rename_i rest
    simp only [] at h
    by_cases hemp : (List.takeWhile isNameCh rest).isEmpty
    · rw [if_pos hemp] at h
      cases h
    · rw [if_neg hemp] at h
      generalize hdrop : List.dropWhile isNameCh rest = dr at h
      split at h
      · rename_i rest2x
        injection h with h1
        injection h1 with hp hr
        subst hp
        subst hr
        refine ⟨?_, ?_, fun s hs => by cases hs⟩
        · conv_rhs => rw [show ('<' :: '/' :: rest : List Char)
            = '<' :: '/' :: (List.takeWhile isNameCh rest
                ++ List.dropWhile isNameCh rest)
            from by rw [List.takeWhile_append_dropWhile]]
          rw [hdrop]
          simp [partDisplay, List.append_assoc]
        · show goodName ⟨List.takeWhile isNameCh rest⟩ = true
          unfold goodName
          simp only [Bool.and_eq_true, Bool.not_eq_true']
          constructor
          · simpa using hemp
          · rw [List.all_eq_true]
            exact takeWhile_mem isNameCh rest
      · cases h
  · rename_i xx rest hno2
    by_cases hicu : icuRefLit.isPrefixOf rest
    · rw [if_pos hicu] at h
      simp only [] at h
      obtain ⟨tl, htl⟩ := append_of_isPrefixOf hicu
      subst htl
      rw [List.drop_left] at h
      by_cases hval : natDigits (digitsToNat (List.takeWhile isDigitCh tl))
          = List.takeWhile isDigitCh tl
      · rw [if_pos hval] at h
        generalize hdrop : List.dropWhile isDigitCh tl = dr at h
        split at h
        · rename_i rest2x
          injection h with h1
          injection h1 with hp hr
          subst hp
          subst hr
          refine ⟨?_, rfl, fun s hs => by cases hs⟩
          conv_rhs => rw [show icuRefLit ++ tl
            = icuRefLit ++ (List.takeWhile isDigitCh tl
                ++ List.dropWhile isDigitCh tl)
            from by rw [List.takeWhile_append_dropWhile]]
          rw [hdrop]
          simp [partDisplay, hval, List.append_assoc]
        · cases h
      · rw [if_neg hval] at h
        cases h
    · rw [if_neg hicu] at h
      simp only [] at h
      by_cases hemp : (List.takeWhile isNameCh rest).isEmpty
      · rw [if_pos hemp] at h
        cases h
      · rw [if_neg hemp] at h
        have hgn : goodName ⟨List.takeWhile isNameCh rest⟩ = true := by
          unfold goodName
          simp only [Bool.and_eq_true, Bool.not_eq_true']
          constructor
          · simpa using hemp
          · rw [List.all_eq_true]
            exact takeWhile_mem isNameCh rest
        generalize hdrop : List.dropWhile isNameCh rest = dr at h
        split at h
        · rename_i rest2x
          by_cases hsc : emptyTagNames.contains (⟨List.takeWhile isNameCh rest⟩ : String)
          · rw [if_pos hsc] at h
            injection h with h1
            injection h1 with hp hr
            subst hp
            subst hr
            refine ⟨?_, hgn, fun s hs => by cases hs⟩
            conv_rhs => rw [show ('<' :: rest : List Char)
              = '<' :: (List.takeWhile isNameCh rest
                  ++ List.dropWhile isNameCh rest)
              from by rw [List.takeWhile_append_dropWhile]]
            rw [hdrop]
            simp [partDisplay, List.append_assoc]
          · rw [if_neg hsc] at h
            injection h with h1
            injection h1 with hp hr
            subst hp
            subst hr
            refine ⟨?_, hgn, fun s hs => by cases hs⟩
            conv_rhs => rw [show ('<' :: rest : List Char)
              = '<' :: (List.takeWhile isNameCh rest
                  ++ List.dropWhile isNameCh rest)
              from by rw [List.takeWhile_append_dropWhile]]
            rw [hdrop]
            simp [partDisplay, List.append_assoc]
        · cases h
  · rename_i xx c rest hn1 hn2 hn3
    by_cases htext : isTextCh c
    · rw [if_pos htext] at h
      injection h with h1
      injection h1 with hp hr
      subst hp
      subst hr
      refine ⟨?_, ?_, ?_⟩
      · show List.takeWhile isTextCh (c :: rest) ++ List.dropWhile isTextCh (c :: rest)
          = c :: rest
        rw [List.takeWhile_append_dropWhile]
      · show goodPart (.text ⟨List.takeWhile isTextCh (c :: rest)⟩) = true
        unfold goodPart
        simp only [Bool.and_eq_true, Bool.not_eq_true']
        constructor
        · rw [List.takeWhile_cons, if_pos htext]
          rfl
        · rw [List.all_eq_true]
          exact takeWhile_mem isTextCh (c :: rest)
      · intro s hs c2 cs2 hdrop
        exact dropWhile_head_not isTextCh (c :: rest) c2 cs2 hdrop
    · rw [if_neg htext] at h
      cases h
  · cases h

/-- Soundness of the display tokenizer loop: the parts re-render to the
input, are well formed with no adjacent text parts, and a leading text part
forces a leading text character. -/
theorem parseDisplayF_sound (f : Nat) : ∀ (cs : List Char) (ps : List MPart),
    parseDisplayF f cs = some ps →
    partsDisplay ps = cs ∧ goodParts ps = true ∧
    (∀ s r, ps = .text s :: r → ∃ c cs2, cs = c :: cs2 ∧ isTextCh c = true) := by
  induction f with
  | zero =>
      intro cs ps h
      rw [parseDisplayF] at h
      cases h
  | succ f ih =>
      intro cs ps h
      cases cs with
      | nil =>
          rw [parseDisplayF] at h
          injection h with h1
          subst h1
          exact ⟨rfl, rfl, fun s r hsr => by cases hsr⟩
      | cons c rest =>
          rw [parseDisplayF] at h
          cases hstep : dTokenStep (c :: rest) with
          | none => rw [hstep] at h; cases h
          | some pr =>
              obtain ⟨p, rest2⟩ := pr
              rw [hstep] at h
              simp only [] at h
              cases hrec : parseDisplayF f rest2 with
              | none => rw [hrec] at h; cases h
              | some ps2 =>
                  rw [hrec] at h
                  injection h with h1
                  subst h1
                  obtain ⟨hdisp, hgood, htext⟩ := ih rest2 ps2 hrec
                  obtain ⟨hpd, hgp, hpt⟩ := dTokenStep_sound (c :: rest) p rest2 hstep
                  refine ⟨?_, ?_, ?_⟩
                  · rw [partsDisplay, hdisp, hpd]
                  · cases p with
                    | text s =>
                        have hnts : noTextStart ps2 = true := by
                          cases hps2 : ps2 with
                          | nil => rfl
                          | cons q r =>
                              cases q with
                              | text s2 =>
                                  obtain ⟨c2, cs2, hr2, hct⟩ := htext s2 r hps2
                                  have hcf := hpt s rfl c2 cs2 hr2
                                  rw [hcf] at hct
                                  cases hct
                              | placeholder n => rfl
                              | tagStart t => rfl
                              | tagEnd t => rfl
                              | tagEmpty t => rfl
                              | icuRef n => rfl
                        show (goodPart (.text s) && noTextStart ps2 && goodParts ps2) = true
                        rw [hgp, hgood, hnts]
                        rfl
                    | placeholder n =>
                        show (goodPart (.placeholder n) && true && goodParts ps2) = true
                        rw [hgp, hgood]
                        rfl
                    | tagStart t =>
                        show (goodPart (.tagStart t) && true && goodParts ps2) = true
                        rw [hgp, hgood]
                        rfl
                    | tagEnd t =>
                        show (goodPart (.tagEnd t) && true && goodParts ps2) = true
                        rw [hgp, hgood]
                        rfl
                    | tagEmpty t =>
                        show (goodPart (.tagEmpty t) && true && goodParts ps2) = true
                        rw [hgp, hgood]
                        rfl
                    | icuRef n =>
                        show (goodPart (.icuRef n) && true && goodParts ps2) = true
                        rw [hgp, hgood]
                        rfl
                  · intro s r hsr
                    injection hsr with hp2 hr2
                    subst hp2
                    rw [partDisplay] at hpd
                    have hne : s.data ≠ [] := by
                      rw [goodPart] at hgp
                      simp only [Bool.and_eq_true, Bool.not_eq_true'] at hgp
                      rw [← List.isEmpty_eq_false]
                      exact hgp.1
                    cases hsd : s.data with
                    | nil => exact absurd hsd hne
                    | cons d ds =>
                        rw [hsd] at hpd
                        refine ⟨d, ds ++ rest2, ?_, ?_⟩
                        · rw [← hpd]
                          rfl
                        · have hall : s.data.all isTextCh = true := by
                            rw [goodPart] at hgp
                            simp only [Bool.and_eq_true] at hgp
                            exact hgp.2
                          rw [List.all_eq_true] at hall
                          exact hall d (by rw [hsd]; exact List.mem_cons_self d ds)

/-- Character facts of the concrete marker chunks, kernel-checked. -/
theorem chunk_facts :
    (∀ c ∈ interpolationChars, c ≠ '"' ∧ c ≠ '<')
      ∧ (∀ c ∈ icuChars, c ≠ '"' ∧ c ≠ '<')
      ∧ (∀ c ∈ startPre, c ≠ '"')
      ∧ (∀ c ∈ closePre, c ≠ '"')
      ∧ (∀ c ∈ ltEsc, c ≠ '<')
      ∧ (∀ c ∈ ltSlashEsc, c ≠ '<') := by decide

/-- Membership decomposition of an indexed marker name. -/
theorem mem_withIdx {c : Char} {base : List Char} {k : Nat} (h : c ∈ withIdx base k) :
    c ∈ base ∨ c = '_' ∨ c ∈ natDigits k := by
  unfold withIdx at h
  by_cases hk : k = 0
  · rw [if_pos hk] at h
    exact Or.inl h
  · rw [if_neg hk] at h
    rcases List.mem_append.mp h with h1 | h1
    · exact Or.inl h1
    · rcases List.mem_cons.mp h1 with h2 | h2
      · exact Or.inr (Or.inl h2)
      · exact Or.inr (Or.inr h2)

/-- An indexed name over a quote-free base is quote-free. -/
theorem withIdx_noquote (base : List Char) (k : Nat) (hb : ∀ c ∈ base, c ≠ '"') :
    ∀ c ∈ withIdx base k, c ≠ '"' := by
  intro c hc
  rcases mem_withIdx hc with h | h | h
  · exact hb c h
  · rw [h]; decide
  · exact (mem_natDigits_ne k c h).1

/-- An indexed name over an angle-free base is angle-free. -/
theorem withIdx_nolt (base : List Char) (k : Nat) (hb : ∀ c ∈ base, c ≠ '<') :
    ∀ c ∈ withIdx base k, c ≠ '<' := by
  intro c hc
  rcases mem_withIdx hc with h | h | h
  · exact hb c h
  · rw [h]; decide
  · exact (mem_natDigits_ne k c h).2

/-- The symbolic name of a well-formed tag is quote-free. -/
theorem symbolicOf_noquote (t : String) (ht : t.data.all isNameCh = true) :
    ∀ c ∈ symbolicOf t, c ≠ '"' := by
  intro c hc
  unfold symbolicOf at hc
  split at hc
  · fin_cases hc <;> decide
  · split at hc
    · fin_cases hc <;> decide
    · split at hc
      · fin_cases hc <;> decide
      · split at hc
        · fin_cases hc <;> decide
        · split at hc
          · fin_cases hc <;> decide
          · rcases List.mem_append.mp hc with h1 | h1
            · fin_cases h1 <;> decide
            · obtain ⟨x, hx, rfl⟩ := List.mem_map.mp h1
              exact (nameCh_facts x (List.all_eq_true.mp ht x hx)).2.2.2

/-- The escaped start payload of a well-formed tag is angle-free. -/
theorem startPayload_nolt (t : String) (ht : t.data.all isNameCh = true) :
    ∀ c ∈ startPayload t, c ≠ '<' := by
  intro c hc
  unfold startPayload at hc
  rcases List.mem_append.mp hc with h1 | h1
  · rcases List.mem_append.mp h1 with h2 | h2
    · exact chunk_facts.2.2.2.2.1 c h2
    · exact (nameCh_facts c (List.all_eq_true.mp ht c h2)).1
  · rw [List.mem_singleton] at h1; rw [h1]; decide

/-- The escaped end payload of a well-formed tag is angle-free. -/
theorem endPayload_nolt (t : String) (ht : t.data.all isNameCh = true) :
    ∀ c ∈ endPayload t, c ≠ '<' := by
  intro c hc
  unfold endPayload at hc
  rcases List.mem_append.mp hc with h1 | h1
  · rcases List.mem_append.mp h1 with h2 | h2
    · exact chunk_facts.2.2.2.2.2 c h2
    · exact (nameCh_facts c (List.all_eq_true.mp ht c h2)).1
  · rw [List.mem_singleton] at h1; rw [h1]; decide

/-- The native tokenizer consumes one emitted marker element exactly. -/
theorem nTokenStep_marker (nm ex rest : List Char)
    (hnm : ∀ c ∈ nm, c ≠ '"') (hex : ∀ c ∈ ex, c ≠ '<') :
    nTokenStep (phElemChars nm ex ++ rest) = some (.marker nm ex, rest) := by
  have hshape : phElemChars nm ex ++ rest
      = '<' :: (['p','h',' ','n','a','m','e','=','"']
          ++ (nm ++ (exOpenChars ++ (ex ++ (phCloseChars ++ rest))))) := by
    simp [phElemChars, phOpenChars, List.append_assoc]
  rw [hshape, nTokenStep]
  rw [if_pos rfl]
  have hpre : phOpenChars.isPrefixOf ('<' :: (['p','h',' ','n','a','m','e','=','"']
      ++ (nm ++ (exOpenChars ++ (ex ++ (phCloseChars ++ rest)))))) = true := by
    rw [show ('<' :: (['p','h',' ','n','a','m','e','=','"']
        ++ (nm ++ (exOpenChars ++ (ex ++ (phCloseChars ++ rest))))))
      = phOpenChars ++ (nm ++ (exOpenChars ++ (ex ++ (phCloseChars ++ rest))))
      from by simp [phOpenChars]]
    exact isPrefixOf_append_self _ _
  rw [if_pos hpre]
  rw [show ('<' :: (['p','h',' ','n','a','m','e','=','"']
      ++ (nm ++ (exOpenChars ++ (ex ++ (phCloseChars ++ rest))))))
    = phOpenChars ++ (nm ++ (exOpenChars ++ (ex ++ (phCloseChars ++ rest))))
    from by simp [phOpenChars]]
  rw [List.drop_left]
  simp only []
  have hq : ∀ x ∈ nm, (fun d => d ≠ '"' : Char → Bool) x = true := by
    intro x hx
    simpa using hnm x hx
  have hstop : (fun d => d ≠ '"' : Char → Bool) '"' = false := by decide
  rw [show nm ++ (exOpenChars ++ (ex ++ (phCloseChars ++ rest)))
    = nm ++ '"' :: (['>','<','e','x','>'] ++ (ex ++ (phCloseChars ++ rest)))
    from by simp [exOpenChars]]
  rw [(takeWhile_app_stop _ nm '"' _ hq hstop).1, (takeWhile_app_stop _ nm '"' _ hq hstop).2]
  have hpre2 : exOpenChars.isPrefixOf ('"' :: (['>','<','e','x','>']
      ++ (ex ++ (phCloseChars ++ rest)))) = true := by
    rw [show ('"' :: (['>','<','e','x','>'] ++ (ex ++ (phCloseChars ++ rest))))
      = exOpenChars ++ (ex ++ (phCloseChars ++ rest)) from by simp [exOpenChars]]
    exact isPrefixOf_append_self _ _
  rw [if_pos hpre2]
  rw [show ('"' :: (['>','<','e','x','>'] ++ (ex ++ (phCloseChars ++ rest))))
    = exOpenChars ++ (ex ++ (phCloseChars ++ rest)) from by simp [exOpenChars]]
  rw [List.drop_left]
  have hq2 : ∀ x ∈ ex, (fun d => d ≠ '<' : Char → Bool) x = true := by
    intro x hx
    simpa using hex x hx
  have hstop2 : (fun d => d ≠ '<' : Char → Bool) '<' = false := by decide
  rw [show ex ++ (phCloseChars ++ rest)
    = ex ++ '<' :: (['/','e','x','>','<','/','p','h','>'] ++ rest)
    from by simp [phCloseChars]]
  rw [(takeWhile_app_stop _ ex '<' _ hq2 hstop2).1, (takeWhile_app_stop _ ex '<' _ hq2 hstop2).2]
  have hpre3 : phCloseChars.isPrefixOf ('<' :: (['/','e','x','>','<','/','p','h','>']
      ++ rest)) = true := by
    rw [show ('<' :: (['/','e','x','>','<','/','p','h','>'] ++ rest))
      = phCloseChars ++ rest from by simp [phCloseChars]]
    exact isPrefixOf_append_self _ _
  rw [if_pos hpre3]
  rw [show ('<' :: (['/','e','x','>','<','/','p','h','>'] ++ rest))
    = phCloseChars ++ rest from by simp [phCloseChars]]
  rw [List.drop_left]

/-- The native tokenizer consumes one emitted text run exactly. -/
theorem nTokenStep_text (l rest : List Char) (hl : l ≠ [])
    (hlt : ∀ c ∈ l, c ≠ '<')
    (hr : rest = [] ∨ ∃ tl, rest = '<' :: tl) :
    nTokenStep (l ++ rest) = some (.textTok l, rest) := by
  cases l with
  | nil => exact absurd rfl hl
  | cons c0 l0 =>
      rw [List.cons_append, nTokenStep]
      have hc0 : c0 ≠ '<' := hlt c0 (List.mem_cons_self c0 l0)
      rw [if_neg hc0]
      have hq : ∀ x ∈ c0 :: l0, (fun d => d ≠ '<' : Char → Bool) x = true := by
        intro x hx
        simpa using hlt x hx
      rcases hr with rfl | ⟨tl, rfl⟩
      · rw [List.append_nil]
        rw [(takeWhile_all_run _ _ hq).1, (takeWhile_all_run _ _ hq).2]
      · rw [show c0 :: (l0 ++ '<' :: tl) = (c0 :: l0) ++ '<' :: tl from by simp]
        rw [(takeWhile_app_stop _ (c0 :: l0) '<' tl hq (by decide)).1,
          (takeWhile_app_stop _ (c0 :: l0) '<' tl hq (by decide)).2]

/-- Cons normal form of a native marker element. -/
theorem phElemChars_eq (nm ex : List Char) : phElemChars nm ex
    = '<' :: (['p','h',' ','n','a','m','e','=','"']
        ++ (nm ++ (exOpenChars ++ (ex ++ phCloseChars)))) := by
  simp [phElemChars, phOpenChars, List.append_assoc]

/-- A text character is neither an opening angle nor an opening brace. -/
theorem textCh_ne (c : Char) (h : isTextCh c = true) : c ≠ '<' ∧ c ≠ '\x7b' := by
  unfold isTextCh at h
  simp only [Bool.not_eq_true', Bool.or_eq_false_iff, decide_eq_false_iff_not] at h
  exact h

/-- An emission not led by a text part is empty or starts with `<`. -/
theorem emit_head (r : List MPart) (m st : List (String × Nat)) (h : noTextStart r = true) :
    emitPartsF r m st = [] ∨ ∃ tl, emitPartsF r m st = '<' :: tl := by
  cases r with
  | nil => exact Or.inl rfl
  | cons p r2 =>
      cases p with
      | text s => simp [noTextStart] at h
      | placeholder n =>
          exact Or.inr ⟨_, by rw [emitPartsF, phElemChars_eq, List.cons_append]⟩
      | icuRef n =>
          exact Or.inr ⟨_, by rw [emitPartsF, phElemChars_eq, List.cons_append]⟩
      | tagStart t =>
          exact Or.inr ⟨_, by rw [emitPartsF, phElemChars_eq, List.cons_append]⟩
      | tagEmpty t =>
          exact Or.inr ⟨_, by rw [emitPartsF, phElemChars_eq, List.cons_append]⟩
      | tagEnd t =>
          cases st with
          | nil => exact Or.inr ⟨_, by rw [emitPartsF, phElemChars_eq, List.cons_append]⟩
          | cons top st2 =>
              exact Or.inr ⟨_, by rw [emitPartsF, phElemChars_eq, List.cons_append]⟩

/-- Each part contributes at least one character to the emission. -/
theorem emit_length (ps : List MPart) : ∀ (m st : List (String × Nat)),
    goodParts ps = true → ps.length ≤ (emitPartsF ps m st).length := by
  induction ps with
  | nil => intro m st h; simp [emitPartsF]
  | cons p r ih =>
      intro m st h
      cases p with
      | text s =>
          have hh : (goodPart (.text s) && noTextStart r && goodParts r) = true := h
          simp only [Bool.and_eq_true] at hh
          have hsd : s.data ≠ [] := by
            have := hh.1.1
            rw [goodPart] at this
            simp only [Bool.and_eq_true, Bool.not_eq_true'] at this
            rw [← List.isEmpty_eq_false]
            exact this.1
          have h1 : 1 ≤ s.data.length := by
            cases hx : s.data with
            | nil => exact absurd hx hsd
            | cons a b => simp
          have h2 := ih m st hh.2
          rw [emitPartsF]
          simp only [List.length_cons, List.length_append]
          omega
      | placeholder n =>
          have hh : (goodPart (.placeholder n) && true && goodParts r) = true := h
          simp only [Bool.and_eq_true] at hh
          have h2 := ih m st hh.2
          rw [emitPartsF]
          rw [phElemChars_eq]
          simp only [List.length_cons, List.length_append, List.cons_append]
          omega
      | icuRef n =>
          have hh : (goodPart (.icuRef n) && true && goodParts r) = true := h
          simp only [Bool.and_eq_true] at hh
          have h2 := ih m st hh.2
          rw [emitPartsF, phElemChars_eq]
          simp only [List.length_cons, List.length_append, List.cons_append]
          omega
      | tagStart t =>
          have hh : (goodPart (.tagStart t) && true && goodParts r) = true := h
          simp only [Bool.and_eq_true] at hh
          have h2 := ih (bumpCount m t) ((t, countOf m t) :: st) hh.2
          rw [emitPartsF, phElemChars_eq]
          simp only [List.length_cons, List.length_append, List.cons_append]
          omega
      | tagEmpty t =>
          have hh : (goodPart (.tagEmpty t) && true && goodParts r) = true := h
          simp only [Bool.and_eq_true] at hh
          have h2 := ih (bumpCount m t) st hh.2
          rw [emitPartsF, phElemChars_eq]
          simp only [List.length_cons, List.length_append, List.cons_append]
          omega
      | tagEnd t =>
          have hh : (goodPart (.tagEnd t) && true && goodParts r) = true := h
          simp only [Bool.and_eq_true] at hh
          cases st with
          | nil =>
              have h2 := ih m [] hh.2
              rw [emitPartsF, phElemChars_eq]
              simp only [List.length_cons, List.length_append, List.cons_append]
              omega
          | cons top st2 =>
              have h2 := ih m st2 hh.2
              rw [emitPartsF, phElemChars_eq]
              simp only [List.length_cons, List.length_append, List.cons_append]
              omega

/-- The native tokenizer recovers exactly the expected token stream from an
emitted message. -/
theorem tokenize_emit (ps : List MPart) : ∀ (m st : List (String × Nat)) (fuel : Nat),
    goodParts ps = true → ps.length < fuel →
    tokenizeNativeF fuel (emitPartsF ps m st) = some (expectedToks ps m st) := by
  induction ps with
  | nil =>
      intro m st fuel hg hf
      cases fuel with
      | zero => exact absurd hf (Nat.not_lt_zero _)
      | succ f =>
          rw [emitPartsF, expectedToks, tokenizeNativeF]
          rfl
  | cons p r ih =>
      intro m st fuel hg hf
      cases fuel with
      | zero => exact absurd hf (Nat.not_lt_zero _)
      | succ f =>
          have hf2 : r.length < f := by
            simp only [List.length_cons] at hf
            omega
          cases p with
          | text s =>
              have hh : (goodPart (.text s) && noTextStart r && goodParts r) = true := hg
              simp only [Bool.and_eq_true] at hh
              have hgp := hh.1.1
              rw [goodPart] at hgp
              simp only [Bool.and_eq_true, Bool.not_eq_true'] at hgp
              have hsd : s.data ≠ [] := by
                rw [← List.isEmpty_eq_false]
                exact hgp.1
              have hall : s.data.all isTextCh = true := hgp.2
              have hlt : ∀ c ∈ s.data, c ≠ '<' :=
                fun c hc => (textCh_ne c (List.all_eq_true.mp hall c hc)).1
              have hrsh := emit_head r m st hh.1.2
              rw [emitPartsF, expectedToks, tokenizeNativeF]
              have hemp : (s.data ++ emitPartsF r m st).isEmpty = false := by
                cases hx : s.data with
                | nil => exact absurd hx hsd
                | cons a b => rfl
              simp only [hemp, Bool.false_eq_true, if_false]
              rw [nTokenStep_text s.data (emitPartsF r m st) hsd hlt hrsh]
              simp only []
              rw [ih m st f hh.2 hf2]
              rfl
          | placeholder n =>
              have hh : (goodPart (.placeholder n) && true && goodParts r) = true := hg
              simp only [Bool.and_eq_true] at hh
              have hnm := withIdx_noquote interpolationChars n
                (fun c hc => (chunk_facts.1 c hc).1)
              have hex := withIdx_nolt interpolationChars n
                (fun c hc => (chunk_facts.1 c hc).2)
              rw [emitPartsF, expectedToks, tokenizeNativeF]
              have hemp : (phElemChars (withIdx interpolationChars n)
                  (withIdx interpolationChars n) ++ emitPartsF r m st).isEmpty = false := by
                rw [phElemChars_eq, List.cons_append]
                rfl
              simp only [hemp, Bool.false_eq_true, if_false]
              rw [nTokenStep_marker _ _ _ hnm hex]
              simp only []
              rw [ih m st f hh.2 hf2]
              rfl
          | icuRef n =>
              have hh : (goodPart (.icuRef n) && true && goodParts r) = true := hg
              simp only [Bool.and_eq_true] at hh
              have hnm := withIdx_noquote icuChars n
                (fun c hc => (chunk_facts.2.1 c hc).1)
              have hex : ∀ c ∈ icuChars, c ≠ '<' :=
                fun c hc => (chunk_facts.2.1 c hc).2
              rw [emitPartsF, expectedToks, tokenizeNativeF]
              have hemp : (phElemChars (withIdx icuChars n) icuChars
                  ++ emitPartsF r m st).isEmpty = false := by
                rw [phElemChars_eq, List.cons_append]
                rfl
              simp only [hemp, Bool.false_eq_true, if_false]
              rw [nTokenStep_marker _ _ _ hnm hex]
              simp only []
              rw [ih m st f hh.2 hf2]
              rfl
          | tagStart t =>
              have hh : (goodPart (.tagStart t) && true && goodParts r) = true := hg
              simp only [Bool.and_eq_true] at hh
              have hgn := hh.1.1
              rw [goodPart] at hgn
              unfold goodName at hgn
              simp only [Bool.and_eq_true, Bool.not_eq_true'] at hgn
              have hnm : ∀ c ∈ withIdx (startPre ++ symbolicOf t) (countOf m t), c ≠ '"' := by
                apply withIdx_noquote
                intro c hc
                rcases List.mem_append.mp hc with h1 | h1
                · exact chunk_facts.2.2.1 c h1
                · exact symbolicOf_noquote t hgn.2 c h1
              have hex := startPayload_nolt t hgn.2
              rw [emitPartsF, expectedToks, tokenizeNativeF]
              have hemp : (phElemChars (withIdx (startPre ++ symbolicOf t) (countOf m t))
                  (startPayload t) ++ emitPartsF r (bumpCount m t)
                    ((t, countOf m t) :: st)).isEmpty = false := by
                rw [phElemChars_eq, List.cons_append]
                rfl
              simp only [hemp, Bool.false_eq_true, if_false]
              rw [nTokenStep_marker _ _ _ hnm hex]
              simp only []
              rw [ih (bumpCount m t) ((t, countOf m t) :: st) f hh.2 hf2]
              rfl
          | tagEmpty t =>
              have hh : (goodPart (.tagEmpty t) && true && goodParts r) = true := hg
              simp only [Bool.and_eq_true] at hh
              have hgn := hh.1.1
              rw [goodPart] at hgn
              unfold goodName at hgn
              simp only [Bool.and_eq_true, Bool.not_eq_true'] at hgn
              have hnm : ∀ c ∈ withIdx (symbolicOf t) (countOf m t), c ≠ '"' :=
                withIdx_noquote _ _ (symbolicOf_noquote t hgn.2)
              have hex := startPayload_nolt t hgn.2
              rw [emitPartsF, expectedToks, tokenizeNativeF]
              have hemp : (phElemChars (withIdx (symbolicOf t) (countOf m t))
                  (startPayload t) ++ emitPartsF r (bumpCount m t) st).isEmpty = false := by
                rw [phElemChars_eq, List.cons_append]
                rfl
              simp only [hemp, Bool.false_eq_true, if_false]
              rw [nTokenStep_marker _ _ _ hnm hex]
              simp only []
              rw [ih (bumpCount m t) st f hh.2 hf2]
              rfl
          | tagEnd t =>
              have hh : (goodPart (.tagEnd t) && true && goodParts r) = true := hg
              simp only [Bool.and_eq_true] at hh
              have hgn := hh.1.1
              rw [goodPart] at hgn
              unfold goodName at hgn
              simp only [Bool.and_eq_true, Bool.not_eq_true'] at hgn
              have hex := endPayload_nolt t hgn.2
              cases st with
              | nil =>
                  have hnm : ∀ c ∈ withIdx (closePre ++ symbolicOf t) 0, c ≠ '"' := by
                    apply withIdx_noquote
                    intro c hc
                    rcases List.mem_append.mp hc with h1 | h1
                    · exact chunk_facts.2.2.2.1 c h1
                    · exact symbolicOf_noquote t hgn.2 c h1
                  rw [emitPartsF, expectedToks, tokenizeNativeF]
                  have hemp : (phElemChars (withIdx (closePre ++ symbolicOf t) 0)
                      (endPayload t) ++ emitPartsF r m []).isEmpty = false := by
                    rw [phElemChars_eq, List.cons_append]
                    rfl
                  simp only [hemp, Bool.false_eq_true, if_false]
                  rw [nTokenStep_marker _ _ _ hnm hex]
                  simp only []
                  rw [ih m [] f hh.2 hf2]
                  rfl
              | cons top st2 =>
                  have hnm : ∀ c ∈ withIdx (closePre ++ symbolicOf t) top.2, c ≠ '"' := by
                    apply withIdx_noquote
                    intro c hc
                    rcases List.mem_append.mp hc with h1 | h1
                    · exact chunk_facts.2.2.2.1 c h1
                    · exact symbolicOf_noquote t hgn.2 c h1
                  rw [emitPartsF, expectedToks, tokenizeNativeF]
                  have hemp : (phElemChars (withIdx (closePre ++ symbolicOf t) top.2)
                      (endPayload t) ++ emitPartsF r m st2).isEmpty = false := by
                    rw [phElemChars_eq, List.cons_append]
                    rfl
                  simp only [hemp, Bool.false_eq_true, if_false]
                  rw [nTokenStep_marker _ _ _ hnm hex]
                  simp only []
                  rw [ih m st2 f hh.2 hf2]
                  rfl

/-- Index-suffix parse fails on a base/name head mismatch. -/
theorem parseIndexSuffix_none_head (b c : Char) (bs cs : List Char) (h : b ≠ c) :
    parseIndexSuffix (b :: bs) (c :: cs) = none := by
  unfold parseIndexSuffix
  rw [if_neg (by intro hh; injection hh with h1 h2; exact h h1.symm)]
  rw [if_neg ?_]
  rw [List.cons_append]
  intro hh
  rw [not_prefix_head b c (bs ++ ['_']) cs h] at hh
  cases hh

/-- Index-suffix parse fails on a second-position mismatch. -/
theorem parseIndexSuffix_none_head2 (a x y : Char) (xs ys : List Char) (h : x ≠ y) :
    parseIndexSuffix (a :: x :: xs) (a :: y :: ys) = none := by
  unfold parseIndexSuffix
  rw [if_neg (by intro hh; injection hh with h1 h2; injection h2 with h3 h4; exact h h3.symm)]
  rw [if_neg ?_]
  rw [List.cons_append, List.cons_append]
  intro hh
  rw [not_prefix_head2 a x y (xs ++ ['_']) ys h] at hh
  cases hh

/-- The index-suffix parse inverts the numbering rule. -/
theorem parseIndexSuffix_withIdx (base : List Char) (n : Nat) :
    parseIndexSuffix base (withIdx base n) = some n := by
  unfold withIdx parseIndexSuffix
  by_cases hn : n = 0
  · rw [if_pos hn, if_pos rfl, hn]
  · rw [if_neg hn]
    have hne2 : ¬ (base ++ '_' :: natDigits n = base) := by
      intro hh
      have hl := congrArg List.length hh
      simp [List.length_append] at hl
    rw [if_neg hne2]
    have hpre : ((base ++ ['_']).isPrefixOf (base ++ '_' :: natDigits n)) = true := by
      rw [show base ++ '_' :: natDigits n = (base ++ ['_']) ++ natDigits n from by simp]
      exact isPrefixOf_append_self _ _
    rw [if_pos hpre]
    simp only []
    rw [show base ++ '_' :: natDigits n = (base ++ ['_']) ++ natDigits n from by simp,
      show base.length + 1 = (base ++ ['_']).length from by simp,
      List.drop_left, digitsToNat_natDigits n, if_pos rfl]

/-- The head-cons normal form of an indexed name. -/
theorem withIdx_cons1 (c : Char) (cs : List Char) (k : Nat) :
    ∃ tl, withIdx (c :: cs) k = c :: tl := by
  unfold withIdx
  by_cases hk : k = 0
  · rw [if_pos hk]; exact ⟨cs, rfl⟩
  · rw [if_neg hk]; exact ⟨cs ++ '_' :: natDigits k, by rw [List.cons_append]⟩

/-- The two-head-cons normal form of an indexed name. -/
theorem withIdx_cons2 (c y : Char) (cs : List Char) (k : Nat) :
    ∃ tl, withIdx (c :: y :: cs) k = c :: y :: tl := by
  unfold withIdx
  by_cases hk : k = 0
  · rw [if_pos hk]; exact ⟨cs, rfl⟩
  · rw [if_neg hk]
    exact ⟨cs ++ '_' :: natDigits k, by rw [List.cons_append, List.cons_append]⟩

/-- A base is a `Bool`-prefix of any name it indexes. -/
theorem isPrefixOf_withIdx (pre rest2 : List Char) (k : Nat) :
    pre.isPrefixOf (withIdx (pre ++ rest2) k) = true := by
  unfold withIdx
  by_cases hk : k = 0
  · rw [if_pos hk]; exact isPrefixOf_append_self _ _
  · rw [if_neg hk]
    rw [List.append_assoc]
    exact isPrefixOf_append_self _ _

/-- Head shape of the symbolic-name table: never `S`/`C`-headed, and an
`I`-headed entry continues with a letter other than `N`/`C`. -/
theorem symbolicOf_head (t : String) : ∃ x xs, symbolicOf t = x :: xs
    ∧ x ≠ 'S' ∧ x ≠ 'C'
    ∧ (x = 'I' → ∃ y ys, xs = y :: ys ∧ y ≠ 'N' ∧ y ≠ 'C') := by
  unfold symbolicOf
  split
  · exact ⟨'B', _, rfl, by decide, by decide, fun h => absurd h (by decide)⟩
  · split
    · exact ⟨'I', _, rfl, by decide, by decide, fun _ => ⟨'T', _, rfl, by decide, by decide⟩⟩
    · split
      · exact ⟨'E', _, rfl, by decide, by decide, fun h => absurd h (by decide)⟩
      · split
        · exact ⟨'L', _, rfl, by decide, by decide, fun h => absurd h (by decide)⟩
        · split
          · exact ⟨'L', _, rfl, by decide, by decide, fun h => absurd h (by decide)⟩
          · exact ⟨'T', ['A','G','_'] ++ t.data.map Char.toUpper,
              by rw [show (['T','A','G','_'] : List Char) ++ t.data.map Char.toUpper
                = 'T' :: (['A','G','_'] ++ t.data.map Char.toUpper) from rfl],
              by decide, by decide, fun h => absurd h (by decide)⟩

/-- Reading the tag name back from an escaped start payload. -/
theorem payloadTagName_start (t : String) (hne : t.data ≠ [])
    (hall : t.data.all isNameCh = true) :
    payloadTagName (startPayload t) false = some t := by
  unfold payloadTagName startPayload
  show (if ltEsc.isPrefixOf (ltEsc ++ t.data ++ ['>']) = true then
      if (decide (List.drop
              (List.takeWhile isNameCh
                (List.drop ltEsc.length (ltEsc ++ t.data ++ ['>']))).length
              (List.drop ltEsc.length (ltEsc ++ t.data ++ ['>'])) = ['>'])
          && !(List.takeWhile isNameCh
              (List.drop ltEsc.length (ltEsc ++ t.data ++ ['>']))).isEmpty) = true then
        some ⟨List.takeWhile isNameCh (List.drop ltEsc.length (ltEsc ++ t.data ++ ['>']))⟩
      else none
    else none) = some t
  have hpre : ltEsc.isPrefixOf (ltEsc ++ t.data ++ ['>']) = true := by
    rw [List.append_assoc]
    exact isPrefixOf_append_self _ _
  rw [if_pos hpre]
  have hdrop : (ltEsc ++ t.data ++ ['>']).drop ltEsc.length = t.data ++ ['>'] := by
    rw [List.append_assoc, List.drop_left]
  rw [hdrop]
  have hq : ∀ x ∈ t.data, isNameCh x = true := List.all_eq_true.mp hall
  rw [(takeWhile_app_stop isNameCh t.data '>' [] hq (by decide)).1]
  rw [List.drop_left]
  have hcond : (decide ((['>'] : List Char) = ['>']) && !t.data.isEmpty) = true := by
    simp [List.isEmpty_eq_false, hne]
  rw [if_pos hcond]

/-- Reading the tag name back from an escaped end payload. -/
theorem payloadTagName_end (t : String) (hne : t.data ≠ [])
    (hall : t.data.all isNameCh = true) :
    payloadTagName (endPayload t) true = some t := by
  unfold payloadTagName endPayload
  show (if ltSlashEsc.isPrefixOf (ltSlashEsc ++ t.data ++ ['>']) = true then
      if (decide (List.drop
              (List.takeWhile isNameCh
                (List.drop ltSlashEsc.length (ltSlashEsc ++ t.data ++ ['>']))).length
              (List.drop ltSlashEsc.length (ltSlashEsc ++ t.data ++ ['>'])) = ['>'])
          && !(List.takeWhile isNameCh
              (List.drop ltSlashEsc.length (ltSlashEsc ++ t.data ++ ['>']))).isEmpty) = true then
        some ⟨List.takeWhile isNameCh
          (List.drop ltSlashEsc.length (ltSlashEsc ++ t.data ++ ['>']))⟩
      else none
    else none) = some t
  have hpre : ltSlashEsc.isPrefixOf (ltSlashEsc ++ t.data ++ ['>']) = true := by
    rw [List.append_assoc]
    exact isPrefixOf_append_self _ _
  rw [if_pos hpre]
  have hdrop : (ltSlashEsc ++ t.data ++ ['>']).drop ltSlashEsc.length = t.data ++ ['>'] := by
    rw [List.append_assoc, List.drop_left]
  rw [hdrop]
  have hq : ∀ x ∈ t.data, isNameCh x = true := List.all_eq_true.mp hall
  rw [(takeWhile_app_stop isNameCh t.data '>' [] hq (by decide)).1]
  rw [List.drop_left]
  have hcond : (decide ((['>'] : List Char) = ['>']) && !t.data.isEmpty) = true := by
    simp [List.isEmpty_eq_false, hne]
  rw [if_pos hcond]

/-- Decoding an emitted interpolation marker. -/
theorem decodeMarker_placeholder (n : Nat) :
    decodeMarker (withIdx interpolationChars n) (withIdx interpolationChars n)
      = some (.placeholder n) := by
  unfold decodeMarker
  rw [parseIndexSuffix_withIdx interpolationChars n]

/-- Decoding an emitted ICU-reference marker. -/
theorem decodeMarker_icuRef (n : Nat) :
    decodeMarker (withIdx icuChars n) icuChars = some (.icuRef n) := by
  have hnone : parseIndexSuffix interpolationChars (withIdx icuChars n) = none := by
    obtain ⟨tl, htl⟩ := withIdx_cons2 'I' 'C' ['U'] n
    rw [show withIdx icuChars n = withIdx ('I' :: 'C' :: ['U']) n from rfl, htl,
      show interpolationChars
        = 'I' :: 'N' :: ['T','E','R','P','O','L','A','T','I','O','N'] from rfl]
    exact parseIndexSuffix_none_head2 'I' 'N' 'C' _ _ (by decide)
  unfold decodeMarker
  rw [hnone]
  simp only []
  rw [parseIndexSuffix_withIdx icuChars n]

/-- Decoding an emitted start-tag marker. -/
theorem decodeMarker_start (t : String) (k : Nat) (hne : t.data ≠ [])
    (hall : t.data.all isNameCh = true) :
    decodeMarker (withIdx (startPre ++ symbolicOf t) k) (startPayload t)
      = some (.tagStart t) := by
  obtain ⟨tl, htl⟩ := withIdx_cons1 'S' (['T','A','R','T','_'] ++ symbolicOf t) k
  have hsh : withIdx (startPre ++ symbolicOf t) k = 'S' :: tl := by
    rw [show startPre ++ symbolicOf t
      = 'S' :: (['T','A','R','T','_'] ++ symbolicOf t) from rfl]
    exact htl
  have hni : parseIndexSuffix interpolationChars
      (withIdx (startPre ++ symbolicOf t) k) = none := by
    rw [hsh, show interpolationChars
      = 'I' :: ['N','T','E','R','P','O','L','A','T','I','O','N'] from rfl]
    exact parseIndexSuffix_none_head 'I' 'S' _ _ (by decide)
  have hnc : parseIndexSuffix icuChars (withIdx (startPre ++ symbolicOf t) k) = none := by
    rw [hsh, show icuChars = 'I' :: ['C','U'] from rfl]
    exact parseIndexSuffix_none_head 'I' 'S' _ _ (by decide)
  have hsp : startPre.isPrefixOf (withIdx (startPre ++ symbolicOf t) k) = true :=
    isPrefixOf_withIdx startPre (symbolicOf t) k
  unfold decodeMarker
  rw [hni, hnc]
  simp only []
  rw [if_pos hsp, payloadTagName_start t hne hall]
  rfl

/-- Decoding an emitted close-tag marker. -/
theorem decodeMarker_end (t : String) (k : Nat) (hne : t.data ≠ [])
    (hall : t.data.all isNameCh = true) :
    decodeMarker (withIdx (closePre ++ symbolicOf t) k) (endPayload t)
      = some (.tagEnd t) := by
  obtain ⟨tl, htl⟩ := withIdx_cons1 'C' (['L','O','S','E','_'] ++ symbolicOf t) k
  have hsh : withIdx (closePre ++ symbolicOf t) k = 'C' :: tl := by
    rw [show closePre ++ symbolicOf t
      = 'C' :: (['L','O','S','E','_'] ++ symbolicOf t) from rfl]
    exact htl
  have hni : parseIndexSuffix interpolationChars
      (withIdx (closePre ++ symbolicOf t) k) = none := by
    rw [hsh, show interpolationChars
      = 'I' :: ['N','T','E','R','P','O','L','A','T','I','O','N'] from rfl]
    exact parseIndexSuffix_none_head 'I' 'C' _ _ (by decide)
  have hnc : parseIndexSuffix icuChars (withIdx (closePre ++ symbolicOf t) k) = none := by
    rw [hsh, show icuChars = 'I' :: ['C','U'] from rfl]
    exact parseIndexSuffix_none_head 'I' 'C' _ _ (by decide)
  have hns : startPre.isPrefixOf (withIdx (closePre ++ symbolicOf t) k) = false := by
    rw [hsh, show startPre = 'S' :: ['T','A','R','T','_'] from rfl]
    exact not_prefix_head 'S' 'C' _ _ (by decide)
  have hcp : closePre.isPrefixOf (withIdx (closePre ++ symbolicOf t) k) = true :=
    isPrefixOf_withIdx closePre (symbolicOf t) k
  unfold decodeMarker
  rw [hni, hnc]
  simp only []
  rw [if_neg (by simp [hns]), if_pos hcp, payloadTagName_end t hne hall]
  rfl

/-- Decoding an emitted empty-tag marker. -/
theorem decodeMarker_empty (t : String) (k : Nat) (hne : t.data ≠ [])
    (hall : t.data.all isNameCh = true) :
    decodeMarker (withIdx (symbolicOf t) k) (startPayload t)
      = some (.tagEmpty t) := by
  obtain ⟨x, xs, hsym, hxS, hxC, hxI⟩ := symbolicOf_head t
  have hni : parseIndexSuffix interpolationChars (withIdx (symbolicOf t) k) = none := by
    by_cases hx : x = 'I'
    · subst hx
      obtain ⟨y, ys, hxs, hyN, hyC⟩ := hxI rfl
      obtain ⟨tl, htl⟩ := withIdx_cons2 'I' y ys k
      rw [hsym, hxs, htl, show interpolationChars
        = 'I' :: 'N' :: ['T','E','R','P','O','L','A','T','I','O','N'] from rfl]
      exact parseIndexSuffix_none_head2 'I' 'N' y _ _ (fun hh => hyN hh.symm)
    · obtain ⟨tl, htl⟩ := withIdx_cons1 x xs k
      rw [hsym, htl, show interpolationChars
        = 'I' :: ['N','T','E','R','P','O','L','A','T','I','O','N'] from rfl]
      exact parseIndexSuffix_none_head 'I' x _ _ (fun hh => hx hh.symm)
  have hnc : parseIndexSuffix icuChars (withIdx (symbolicOf t) k) = none := by
    by_cases hx : x = 'I'
    · subst hx
      obtain ⟨y, ys, hxs, hyN, hyC⟩ := hxI rfl
      obtain ⟨tl, htl⟩ := withIdx_cons2 'I' y ys k
      rw [hsym, hxs, htl, show icuChars = 'I' :: 'C' :: ['U'] from rfl]
      exact parseIndexSuffix_none_head2 'I' 'C' y _ _ (fun hh => hyC hh.symm)
    · obtain ⟨tl, htl⟩ := withIdx_cons1 x xs k
      rw [hsym, htl, show icuChars = 'I' :: ['C','U'] from rfl]
      exact parseIndexSuffix_none_head 'I' x _ _ (fun hh => hx hh.symm)
  have hns : startPre.isPrefixOf (withIdx (symbolicOf t) k) = false := by
    obtain ⟨tl, htl⟩ := withIdx_cons1 x xs k
    rw [hsym, htl, show startPre = 'S' :: ['T','A','R','T','_'] from rfl]
    exact not_prefix_head 'S' x _ _ (fun hh => hxS hh.symm)
  have hnc2 : closePre.isPrefixOf (withIdx (symbolicOf t) k) = false := by
    obtain ⟨tl, htl⟩ := withIdx_cons1 x xs k
    rw [hsym, htl, show closePre = 'C' :: ['L','O','S','E','_'] from rfl]
    exact not_prefix_head 'C' x _ _ (fun hh => hxC hh.symm)
  unfold decodeMarker
  rw [hni, hnc]
  simp only []
  rw [if_neg (by simp [hns]), if_neg (by simp [hnc2]),
    payloadTagName_start t hne hall]
  rfl

/-- The builder reconstructs exactly the original parts from the expected
token stream, under the nesting discipline. -/
theorem build_expected (ps : List MPart) : ∀ (m st : List (String × Nat)) (stb : List String),
    goodParts ps = true → checkNesting ps stb = true →
    buildNormalizedF (expectedToks ps m st) stb = .ok ps := by
  induction ps with
  | nil =>
      intro m st stb hg hn
      cases stb with
      | nil => rfl
      | cons a b => rw [checkNesting] at hn; cases hn
  | cons p r ih =>
      intro m st stb hg hn
      cases p with
      | text s =>
          have hh : (goodPart (.text s) && noTextStart r && goodParts r) = true := hg
          simp only [Bool.and_eq_true] at hh
          have hn2 : checkNesting r stb = true := hn
          rw [expectedToks, buildNormalizedF, ih m st stb hh.2 hn2]
          rfl
      | placeholder n =>
          have hh : (goodPart (.placeholder n) && true && goodParts r) = true := hg
          simp only [Bool.and_eq_true] at hh
          have hn2 : checkNesting r stb = true := hn
          rw [expectedToks, buildNormalizedF, decodeMarker_placeholder n]
          simp only []
          rw [ih m st stb hh.2 hn2]
          rfl
      | icuRef n =>
          have hh : (goodPart (.icuRef n) && true && goodParts r) = true := hg
          simp only [Bool.and_eq_true] at hh
          have hn2 : checkNesting r stb = true := hn
          rw [expectedToks, buildNormalizedF, decodeMarker_icuRef n]
          simp only []
          rw [ih m st stb hh.2 hn2]
          rfl
      | tagStart t =>
          have hh : (goodPart (.tagStart t) && true && goodParts r) = true := hg
          simp only [Bool.and_eq_true] at hh
          have hgn := hh.1.1
          rw [goodPart] at hgn
          unfold goodName at hgn
          simp only [Bool.and_eq_true, Bool.not_eq_true'] at hgn
          have hne : t.data ≠ [] := by
            rw [← List.isEmpty_eq_false]
            exact hgn.1
          have hn2 : checkNesting r (t :: stb) = true := hn
          rw [expectedToks, buildNormalizedF,
            decodeMarker_start t (countOf m t) hne hgn.2]
          simp only []
          rw [ih (bumpCount m t) ((t, countOf m t) :: st) (t :: stb) hh.2 hn2]
          rfl
      | tagEmpty t =>
          have hh : (goodPart (.tagEmpty t) && true && goodParts r) = true := hg
          simp only [Bool.and_eq_true] at hh
          have hgn := hh.1.1
          rw [goodPart] at hgn
          unfold goodName at hgn
          simp only [Bool.and_eq_true, Bool.not_eq_true'] at hgn
          have hne : t.data ≠ [] := by
            rw [← List.isEmpty_eq_false]
            exact hgn.1
          have hn2 : checkNesting r stb = true := hn
          rw [expectedToks, buildNormalizedF,
            decodeMarker_empty t (countOf m t) hne hgn.2]
          simp only []
          rw [ih (bumpCount m t) st stb hh.2 hn2]
          rfl
      | tagEnd t =>
          have hh : (goodPart (.tagEnd t) && true && goodParts r) = true := hg
          simp only [Bool.and_eq_true] at hh
          have hgn := hh.1.1
          rw [goodPart] at hgn
          unfold goodName at hgn
          simp only [Bool.and_eq_true, Bool.not_eq_true'] at hgn
          have hne : t.data ≠ [] := by
            rw [← List.isEmpty_eq_false]
            exact hgn.1
          cases stb with
          | nil => rw [checkNesting] at hn; cases hn
          | cons top stb2 =>
              have hn0 : (top == t && checkNesting r stb2) = true := hn
              simp only [Bool.and_eq_true, beq_iff_eq] at hn0
              cases st with
              | nil =>
                  rw [expectedToks, buildNormalizedF, decodeMarker_end t 0 hne hgn.2]
                  simp only []
                  rw [if_pos hn0.1, ih m [] stb2 hh.2 hn0.2]
                  rfl
              | cons topc st2 =>
                  rw [expectedToks, buildNormalizedF,
                    decodeMarker_end t topc.2 hne hgn.2]
                  simp only []
                  rw [if_pos hn0.1, ih m st2 stb2 hh.2 hn0.2]
                  rfl

/-- A stack-protocol violation in the token stream makes the builder fail
with exactly the markup error of the first unexpected close. -/
theorem build_close_violation (toks : List NativeTok) : ∀ (st : List String) (t : String),
    firstUnexpectedClose toks st = some t →
    buildNormalizedF toks st = .error ("unexpected close tag " ++ t) := by
  induction toks with
  | nil =>
      intro st t h
      rw [firstUnexpectedClose] at h
      cases h
  | cons tok r ih =>
      intro st t h
      cases tok with
      | textTok s =>
          rw [firstUnexpectedClose] at h
          rw [buildNormalizedF, ih st t h]
          rfl
      | marker nm pl =>
          rw [firstUnexpectedClose] at h
          rw [buildNormalizedF]
          cases hd : decodeMarker nm pl with
          | none =>
              rw [hd] at h
              exact Option.noConfusion h
          | some p =>
              rw [hd] at h
              cases p with
              | text s2 =>
                  simp only [] at h
                  simp only []
                  rw [ih st t h]
                  rfl
              | placeholder n =>
                  simp only [] at h
                  simp only []
                  rw [ih st t h]
                  rfl
              | icuRef n =>
                  simp only [] at h
                  simp only []
                  rw [ih st t h]
                  rfl
              | tagEmpty t2 =>
                  simp only [] at h
                  simp only []
                  rw [ih st t h]
                  rfl
              | tagStart t2 =>
                  simp only [] at h
                  simp only []
                  rw [ih (t2 :: st) t h]
                  rfl
              | tagEnd t2 =>
                  cases st with
                  | nil =>
                      simp only [] at h
                      injection h with h1
                      subst h1
                      rfl
                  | cons top st2 =>
                      simp only [] at h
                      by_cases htop : top = t2
                      · rw [if_pos htop] at h
                        simp only []
                        rw [if_pos htop, ih st2 t h]
                        rfl
                      · rw [if_neg htop] at h
                        injection h with h1
                        subst h1
                        simp only []
                        rw [if_neg htop]

/-- C1: the round-trip law.  For every Normalized Message obtained by
parsing a valid display string `s` (the parser accepts exactly the
supported constructs: plain text, interpolations, known and unknown tag
pairs with proper nesting, ICU references, and the known empty tags),
serializing it to the native encoding and re-parsing that native string
renders exactly `s` again. -/
theorem claim_C1 (s : String) (ps : List MPart)
    (h : parseNormalizedString s = some ps) :
    (createNormalizedMessageFromXMLString (asNativeString ps)).map asDisplayString
      = .ok s := by
  unfold parseNormalizedString at h
  cases hp : parseDisplayF (s.data.length + 1) s.data with
  | none => rw [hp] at h; cases h
  | some ps0 =>
      rw [hp] at h
      simp only [] at h
      by_cases hck : checkNesting ps0 [] = true
      · rw [if_pos hck] at h
        injection h with h1
        subst h1
        obtain ⟨hdisp, hgood, -⟩ := parseDisplayF_sound _ _ _ hp
        unfold createNormalizedMessageFromXMLString asNativeString
        rw [show (⟨emitPartsF ps0 [] []⟩ : String).data = emitPartsF ps0 [] [] from rfl]
        rw [tokenize_emit ps0 [] [] ((emitPartsF ps0 [] []).length + 1) hgood
          (Nat.lt_succ_of_le (emit_length ps0 [] [] hgood))]
        simp only []
        rw [build_expected ps0 [] [] [] hgood hck]
        rw [show Except.map asDisplayString (Except.ok ps0 : Except String (List MPart))
          = .ok (asDisplayString ps0) from rfl]
        unfold asDisplayString
        rw [hdisp, string_mk_data]
      · rw [if_neg hck] at h
        cases h

/-- C1, witness: a display string exercising text, a tag pair, an
interpolation, an empty tag and an ICU reference round-trips. -/
theorem claim_C1_witness :
    parseNormalizedString "a<b>x\x7b\x7b0\x7d\x7d</b><br><ICU-Message-Ref_1/>"
        = some [.text "a", .tagStart "b", .text "x", .placeholder 0,
            .tagEnd "b", .tagEmpty "br", .icuRef 1]
      ∧ (createNormalizedMessageFromXMLString (asNativeString
            [.text "a", .tagStart "b", .text "x", .placeholder 0,
              .tagEnd "b", .tagEmpty "br", .icuRef 1])).map asDisplayString
          = .ok "a<b>x\x7b\x7b0\x7d\x7d</b><br><ICU-Message-Ref_1/>" := by
  refine ⟨by rfl, ?_⟩
  exact claim_C1 "a<b>x\x7b\x7b0\x7d\x7d</b><br><ICU-Message-Ref_1/>"
    [.text "a", .tagStart "b", .text "x", .placeholder 0,
      .tagEnd "b", .tagEmpty "br", .icuRef 1] (by rfl)

/-- C6: a native fragment whose markers close a tag that was never opened,
or close a tag other than the most recently opened one (the first failure
of the stack protocol being a close of `t`), always yields the markup
error `unexpected close tag t` — never a partial Normalized Message. -/
theorem claim_C6 (s : String) (toks : List NativeTok) (t : String)
    (htk : tokenizeNativeF (s.data.length + 1) s.data = some toks)
    (hfc : firstUnexpectedClose toks [] = some t) :
    createNormalizedMessageFromXMLString s
      = .error ("unexpected close tag " ++ t) := by
  unfold createNormalizedMessageFromXMLString
  rw [htk]
  exact build_close_violation toks [] t hfc

/-- C6, witness: a close marker for `b` with no preceding start marker
raises exactly `unexpected close tag b`. -/
theorem claim_C6_witness :
    (tokenizeNativeF
        (("a<ph name=\"CLOSE_BOLD_TEXT\"><ex>&lt;/b></ex></ph>" : String).data.length + 1)
        ("a<ph name=\"CLOSE_BOLD_TEXT\"><ex>&lt;/b></ex></ph>" : String).data
      = some [.textTok ['a'],
          .marker ("CLOSE_BOLD_TEXT" : String).data ("&lt;/b>" : String).data])
    ∧ firstUnexpectedClose
        [.textTok ['a'],
          .marker ("CLOSE_BOLD_TEXT" : String).data ("&lt;/b>" : String).data] []
      = some "b"
    ∧ createNormalizedMessageFromXMLString
        "a<ph name=\"CLOSE_BOLD_TEXT\"><ex>&lt;/b></ex></ph>"
      = .error ("unexpected close tag " ++ "b") := by
  refine ⟨by rfl, by rfl, ?_⟩
  exact claim_C6 "a<ph name=\"CLOSE_BOLD_TEXT\"><ex>&lt;/b></ex></ph>"
    [.textTok ['a'],
      .marker ("CLOSE_BOLD_TEXT" : String).data ("&lt;/b>" : String).data] "b"
    (by rfl) (by rfl)
